import Mathlib

/-!
# DPU event log (samsung/exynos_drm_debug.c)

A shallow embedding of the event trace log of the Exynos DPU driver: the ring
buffer of `struct dpu_log`, the recorders `DPU_EVENT_LOG`,
`DPU_EVENT_LOG_ATOMIC_COMMIT` and `DPU_EVENT_LOG_CMD`, the coalescing check
`dpu_event_ignore`, the name table `get_event_name`, the replay
`dpu_event_log_print` and the initialisation `dpu_init_debug`; further the
debugfs LUT parser `get_lut` of the same file and `exynos_dqe_update` of
`samsung/exynos_drm_dqe.c`.

Conventions.
* C `int` values are `Int`, `u32`/`unsigned int`/`size_t` values are `Nat`; every
  conversion and every wrap is written out (`to_u32`, `to_s32`, `to_u64`).
* A NULL `event_log` is `none`; an allocated one is the list of its records.
* An operation that would divide by zero or index outside the allocated
  records returns `Except.error`; a `void` function that returns normally yields
  `Except.ok` of the state it leaves behind.
* Values the driver obtains from outside this file (the clock, devfreq, the
  registers, the object behind `priv`) are arguments.
* The text of a report line is kept as the values that are formatted into it.
-/

namespace Dpu

/-! ## Machine integers -/

/-- Conversion of a C `int` to `unsigned int` (reduction modulo 2^32). -/
def to_u32 (x : Int) : Nat := (x % 4294967296).toNat

/-- Conversion of an integer value to C `int` (two's complement, 32 bits):
the value is reduced modulo 2^32 and the upper half is read as negative. -/
def to_s32 (x : Int) : Int :=
  if to_u32 x < 2147483648 then (to_u32 x : Int) else (to_u32 x : Int) - 4294967296

/-- Conversion of a C `int` to `size_t` (sign extension, 64 bits). -/
def to_u64 (x : Int) : Nat := (x % 18446744073709551616).toNat

/-- What makes an operation leave defined behaviour. -/
inductive Fault where
  | div_by_zero
  | out_of_bounds
  | fuel
  deriving DecidableEq, Repr

/-! ## Event types

`enum dpu_event_type` is declared in `exynos_drm_decon.h`, which is not among the
sources; the enumerators are numbered from 0 in the order of the `events`
table of `get_event_name`, which lists one name per enumerator. -/

/-- Modelled from the spec: a tag of `enum dpu_event_type`, numbered as its name in `events`. -/
def DPU_EVT_NONE : Nat := 0

/-- Modelled from the spec: a tag of `enum dpu_event_type`, numbered as its name in `events`. -/
def DPU_EVT_DECON_ENABLED : Nat := 1

/-- Modelled from the spec: a tag of `enum dpu_event_type`, numbered as its name in `events`. -/
def DPU_EVT_DECON_DISABLED : Nat := 2

/-- Modelled from the spec: a tag of `enum dpu_event_type`, numbered as its name in `events`. -/
def DPU_EVT_DECON_FRAMEDONE : Nat := 3

/-- Modelled from the spec: a tag of `enum dpu_event_type`, numbered as its name in `events`. -/
def DPU_EVT_DECON_FRAMESTART : Nat := 4

/-- Modelled from the spec: a tag of `enum dpu_event_type`, numbered as its name in `events`. -/
def DPU_EVT_DECON_RSC_OCCUPANCY : Nat := 5

/-- Modelled from the spec: a tag of `enum dpu_event_type`, numbered as its name in `events`. -/
def DPU_EVT_DECON_TRIG_MASK : Nat := 6

/-- Modelled from the spec: a tag of `enum dpu_event_type`, numbered as its name in `events`. -/
def DPU_EVT_DSIM_ENABLED : Nat := 7

/-- Modelled from the spec: a tag of `enum dpu_event_type`, numbered as its name in `events`. -/
def DPU_EVT_DSIM_DISABLED : Nat := 8

/-- Modelled from the spec: a tag of `enum dpu_event_type`, numbered as its name in `events`. -/
def DPU_EVT_DSIM_COMMAND : Nat := 9

/-- Modelled from the spec: a tag of `enum dpu_event_type`, numbered as its name in `events`. -/
def DPU_EVT_DSIM_UNDERRUN : Nat := 10

/-- Modelled from the spec: a tag of `enum dpu_event_type`, numbered as its name in `events`. -/
def DPU_EVT_DSIM_FRAMEDONE : Nat := 11

/-- Modelled from the spec: a tag of `enum dpu_event_type`, numbered as its name in `events`. -/
def DPU_EVT_DPP_FRAMEDONE : Nat := 12

/-- Modelled from the spec: a tag of `enum dpu_event_type`, numbered as its name in `events`. -/
def DPU_EVT_DMA_RECOVERY : Nat := 13

/-- Modelled from the spec: a tag of `enum dpu_event_type`, numbered as its name in `events`. -/
def DPU_EVT_ATOMIC_COMMIT : Nat := 14

/-- Modelled from the spec: a tag of `enum dpu_event_type`, numbered as its name in `events`. -/
def DPU_EVT_TE_INTERRUPT : Nat := 15

/-- Modelled from the spec: a tag of `enum dpu_event_type`, numbered as its name in `events`. -/
def DPU_EVT_ENTER_HIBERNATION_IN : Nat := 16

/-- Modelled from the spec: a tag of `enum dpu_event_type`, numbered as its name in `events`. -/
def DPU_EVT_ENTER_HIBERNATION_OUT : Nat := 17

/-- Modelled from the spec: a tag of `enum dpu_event_type`, numbered as its name in `events`. -/
def DPU_EVT_EXIT_HIBERNATION_IN : Nat := 18

/-- Modelled from the spec: a tag of `enum dpu_event_type`, numbered as its name in `events`. -/
def DPU_EVT_EXIT_HIBERNATION_OUT : Nat := 19

/-- Modelled from the spec: a tag of `enum dpu_event_type`, numbered as its name in `events`. -/
def DPU_EVT_ATOMIC_BEGIN : Nat := 20

/-- Modelled from the spec: a tag of `enum dpu_event_type`, numbered as its name in `events`. -/
def DPU_EVT_ATOMIC_FLUSH : Nat := 21

/-- Modelled from the spec: a tag of `enum dpu_event_type`, numbered as its name in `events`. -/
def DPU_EVT_WB_ENABLE : Nat := 22

/-- Modelled from the spec: a tag of `enum dpu_event_type`, numbered as its name in `events`. -/
def DPU_EVT_WB_DISABLE : Nat := 23

/-- Modelled from the spec: a tag of `enum dpu_event_type`, numbered as its name in `events`. -/
def DPU_EVT_WB_ATOMIC_COMMIT : Nat := 24

/-- Modelled from the spec: a tag of `enum dpu_event_type`, numbered as its name in `events`. -/
def DPU_EVT_WB_FRAMEDONE : Nat := 25

/-- Modelled from the spec: a tag of `enum dpu_event_type`, numbered as its name in `events`. -/
def DPU_EVT_WB_ENTER_HIBERNATION : Nat := 26

/-- Modelled from the spec: a tag of `enum dpu_event_type`, numbered as its name in `events`. -/
def DPU_EVT_WB_EXIT_HIBERNATION : Nat := 27

/-- Modelled from the spec: a tag of `enum dpu_event_type`, numbered as its name in `events`. -/
def DPU_EVT_PLANE_UPDATE : Nat := 28

/-- Modelled from the spec: a tag of `enum dpu_event_type`, numbered as its name in `events`. -/
def DPU_EVT_PLANE_DISABLE : Nat := 29

/-- Modelled from the spec: a tag of `enum dpu_event_type`, numbered as its name in `events`. -/
def DPU_EVT_REQ_CRTC_INFO_OLD : Nat := 30

/-- Modelled from the spec: a tag of `enum dpu_event_type`, numbered as its name in `events`. -/
def DPU_EVT_REQ_CRTC_INFO_NEW : Nat := 31

/-- Modelled from the spec: a tag of `enum dpu_event_type`, numbered as its name in `events`. -/
def DPU_EVT_FRAMESTART_TIMEOUT : Nat := 32

/-- Modelled from the spec: a tag of `enum dpu_event_type`, numbered as its name in `events`. -/
def DPU_EVT_BTS_RELEASE_BW : Nat := 33

/-- Modelled from the spec: a tag of `enum dpu_event_type`, numbered as its name in `events`. -/
def DPU_EVT_BTS_CALC_BW : Nat := 34

/-- Modelled from the spec: a tag of `enum dpu_event_type`, numbered as its name in `events`. -/
def DPU_EVT_BTS_UPDATE_BW : Nat := 35

/-- Modelled from the spec: a tag of `enum dpu_event_type`, numbered as its name in `events`. -/
def DPU_EVT_DSIM_CRC : Nat := 36

/-- Modelled from the spec: a tag of `enum dpu_event_type`, numbered as its name in `events`. -/
def DPU_EVT_DSIM_ECC : Nat := 37

/-- Modelled from the spec: a tag of `enum dpu_event_type`, numbered as its name in `events`. -/
def DPU_EVT_VBLANK_ENABLE : Nat := 38

/-- Modelled from the spec: a tag of `enum dpu_event_type`, numbered as its name in `events`. -/
def DPU_EVT_VBLANK_DISABLE : Nat := 39

/-- Modelled from the spec: a tag of `enum dpu_event_type`, numbered as its name in `events`. -/
def DPU_EVT_DIMMING_START : Nat := 40

/-- Modelled from the spec: a tag of `enum dpu_event_type`, numbered as its name in `events`. -/
def DPU_EVT_DIMMING_END : Nat := 41

/-- Modelled from the spec: the end marker of `enum dpu_event_type`, whose
declaration is not among the sources. The spec calls the tags a closed
enumeration with a known range; the range is the one the name table of
`get_event_name` covers, one name per tag. -/
def DPU_EVT_MAX : Nat := 42

/-- The table `events[][32]` of `get_event_name`. -/
def events : List String :=
  ["NONE", "DECON_ENABLED",
   "DECON_DISABLED", "DECON_FRAMEDONE",
   "DECON_FRAMESTART", "DECON_RSC_OCCUPANCY",
   "DECON_TRIG_MASK", "DSIM_ENABLED",
   "DSIM_DISABLED", "DSIM_COMMAND",
   "DSIM_UNDERRUN", "DSIM_FRAMEDONE",
   "DPP_FRAMEDONE", "DMA_RECOVERY",
   "ATOMIC_COMMIT", "TE_INTERRUPT",
   "ENTER_HIBERNATION_IN", "ENTER_HIBERNATION_OUT",
   "EXIT_HIBERNATION_IN", "EXIT_HIBERNATION_OUT",
   "ATOMIC_BEGIN", "ATOMIC_FLUSH",
   "WB_ENABLE", "WB_DISABLE",
   "WB_ATOMIC_COMMIT", "WB_FRAMEDONE",
   "WB_ENTER_HIBERNATION", "WB_EXIT_HIBERNATION",
   "PLANE_UPDATE", "PLANE_DISABLE",
   "REQ_CRTC_INFO_OLD", "REQ_CRTC_INFO_NEW",
   "FRAMESTART_TIMEOUT",
   "BTS_RELEASE_BW", "BTS_CALC_BW",
   "BTS_UPDATE_BW", "DSIM_CRC",
   "DSIM_ECC", "VBLANK_ENABLE",
   "VBLANK_DISABLE", "DIMMING_START",
   "DIMMING_END"]

/-- The function `get_event_name`: `none` is the NULL result. -/
def get_event_name (type : Nat) : Option String :=
  if type ≥ DPU_EVT_MAX then none else events[type]?

/-! ## Records -/

/-- Modelled from the spec: the window state "disabled" (`DPU_WIN_STATE_*` is
declared in a header that is not among the sources); the states are numbered
in the order of `str_state` in `dpu_print_log_atomic`. -/
def DPU_WIN_STATE_DISABLED : Nat := 0

/-- Modelled from the spec: the window state "solid colour". -/
def DPU_WIN_STATE_COLOR : Nat := 1

/-- Modelled from the spec: the window state "buffer-backed". -/
def DPU_WIN_STATE_BUFFER : Nat := 2

/-- Modelled from the spec: one per-window configuration, `struct
dpu_bts_win_config` (declared in a header that is not among the sources):
geometry, pixel format, state tag and channel, the fields this file reads. -/
structure dpu_bts_win_config where
  state : Nat := 0
  src_x : Int := 0
  src_y : Int := 0
  src_w : Int := 0
  src_h : Int := 0
  dst_x : Int := 0
  dst_y : Int := 0
  dst_w : Int := 0
  dst_h : Int := 0
  format : Nat := 0
  dpp_ch : Nat := 0
  comp_src : Nat := 0
  deriving DecidableEq, Repr, Inhabited

/-- Modelled from the spec: one entry of `log->data.atomic.win_config`, the
copied window configuration and the DMA address. -/
structure dpu_log_win where
  win : dpu_bts_win_config := {}
  dma_addr : Nat := 0
  deriving DecidableEq, Repr, Inhabited

/-- Modelled from the spec: the frequency triple `struct dpu_log_freqs`. -/
structure dpu_log_freqs where
  mif_freq : Nat := 0
  int_freq : Nat := 0
  disp_freq : Nat := 0
  deriving DecidableEq, Repr, Inhabited

/-- Modelled from the spec: the payload `log->data` (the union is declared in a
header that is not among the sources), with the members this file writes and
reads. The members of the C union are kept as separate
fields: a record is read through the member its type selects, which is the
member that was written when the record was stored by the recorder of that
type. The model does not represent the overlap of the members: for a record
whose tag selects a member that its recorder did not write
(`DPU_EVT_DSIM_COMMAND` or `DPU_EVT_ATOMIC_COMMIT` passed to `DPU_EVENT_LOG`)
the code reads the bytes another member left, the model the untouched
field. -/
structure dpu_log_data where
  dpp_id : Nat := 0
  dpp_comp_src : Nat := 0
  dpp_recovery_cnt : Nat := 0
  atomic_win_config : List dpu_log_win := []
  cmd_id : Nat := 0
  cmd_d0 : Nat := 0
  cmd_len : Nat := 0
  cmd_caller : List Nat := []
  rsc_ch : Nat := 0
  rsc_win : Nat := 0
  pd_rpm_active : Bool := false
  win_idx : Nat := 0
  plane_idx : Nat := 0
  crtc_enable : Bool := false
  crtc_active : Bool := false
  crtc_planes_changed : Bool := false
  crtc_mode_changed : Bool := false
  crtc_active_changed : Bool := false
  freqs : dpu_log_freqs := {}
  bts_freqs : dpu_log_freqs := {}
  bts_value : Nat := 0
  value : Nat := 0
  deriving DecidableEq, Repr, Inhabited

/-- Modelled from the spec: one record, `struct dpu_log`: time stamp, type tag
and payload; `time` is the `ktime_t` in nanoseconds. -/
structure dpu_log where
  time : Nat := 0
  type : Nat := 0
  data : dpu_log_data := {}
  deriving DecidableEq, Repr, Inhabited

/-- Modelled from the spec: the debug part `decon->d` of a DECON device (`struct
decon_debug`, declared in a header that is not among the sources), with the
fields this file uses. The three error counters are
`u32` (they are exported with `debugfs_create_u32`), `event_log_idx` is the
`atomic_t` cursor, an `int`; the streak counter `auto_refresh_frames` is
taken to be a `u32` as well. -/
structure decon_debug where
  event_log : Option (List dpu_log) := none
  event_log_cnt : Nat := 0
  underrun_cnt : Nat := 0
  crc_cnt : Nat := 0
  ecc_cnt : Nat := 0
  event_log_idx : Int := 0
  auto_refresh_frames : Nat := 0
  deriving DecidableEq, Repr, Inhabited

/-- Modelled from the spec: the part of `struct decon_device` that the event
log reads and writes:
`win_config` is `decon->bts.win_config`, `max_disp_freq` is
`decon->bts.max_disp_freq`. -/
structure decon_device where
  d : decon_debug := {}
  win_config : List dpu_bts_win_config := []
  max_disp_freq : Nat := 0
  deriving DecidableEq, Repr, Inhabited

/-- Modelled from the spec: the fields of `struct dpp_device` read through
`priv`. -/
structure dpp_device where
  id : Nat := 0
  win_id : Nat := 0
  comp_src : Nat := 0
  recovery_cnt : Nat := 0
  deriving DecidableEq, Repr, Inhabited

/-- The fields of the kernel's `struct drm_crtc_state` read through `priv`. -/
structure drm_crtc_state where
  enable : Bool := false
  active : Bool := false
  planes_changed : Bool := false
  mode_changed : Bool := false
  active_changed : Bool := false
  deriving DecidableEq, Repr, Inhabited

/-- What a call of `DPU_EVENT_LOG` obtains from outside: the object behind
`priv` (read as a DPP device or as a CRTC state, as the type says), the
clock `ktime_get()`, the devfreq frequencies, the resource registers and the
runtime-PM state. -/
structure dpu_env where
  ktime : Nat := 0
  dpp : dpp_device := {}
  crtc_state : drm_crtc_state := {}
  freqs : dpu_log_freqs := {}
  rsc_ch : Nat := 0
  rsc_win : Nat := 0
  rpm_active : Bool := false
  deriving DecidableEq, Repr, Inhabited

/-- A zeroed record, as `vzalloc` leaves it. -/
def dpu_log_zero : dpu_log := {}

/-- The element `event_log[idx]` for a C `int` index. -/
def log_at (buf : List dpu_log) (idx : Int) : Option dpu_log :=
  if idx < 0 then none else buf[idx.toNat]?

/-- The assignment `event_log[idx] = v`. -/
def log_set (buf : List dpu_log) (idx : Int) (v : dpu_log) : List dpu_log :=
  buf.set idx.toNat v

/-! ## The recorders -/

/-- The slot a cursor value is mapped to: `cursor % dpu_event_log_max` with
the `int` cursor converted to `unsigned int`. -/
def dpu_slot (dpu_event_log_max : Nat) (cursor : Int) : Nat :=
  to_u32 cursor % dpu_event_log_max

/-- The loop of `dpu_event_ignore`: `n` is the number of offsets still to
visit (`DPU_EVENT_KEEP_CNT - offset`); the index expression
`(latest + dpu_event_log_max - offset) % dpu_event_log_max` is evaluated in
`unsigned int` and stored in the `int idx`. -/
def dpu_event_ignore_loop (dpu_event_log_max : Nat) (buf : List dpu_log) (type : Nat)
    (latest : Int) : Nat → Nat → Except Fault Bool
  | 0, _ => .ok true
  | n + 1, offset =>
    let idx := to_s32 (dpu_slot dpu_event_log_max (latest + dpu_event_log_max - offset))
    match log_at buf idx with
    | none => .error .out_of_bounds
    | some log =>
      if type ≠ log.type then .ok false
      else dpu_event_ignore_loop dpu_event_log_max buf type latest n (offset + 1)

/-- The function `dpu_event_ignore`; `keep_cnt` is the constant
`DPU_EVENT_KEEP_CNT`, whose definition is not among the sources. `latest` is
computed before the NULL test, as in the source. -/
def dpu_event_ignore (dpu_event_log_max keep_cnt : Nat) (type : Nat) (d : decon_debug) :
    Except Fault Bool :=
  if dpu_event_log_max = 0 then .error .div_by_zero
  else
    let latest := to_s32 (dpu_slot dpu_event_log_max d.event_log_idx)
    match d.event_log with
    | none => .ok true
    | some buf => dpu_event_ignore_loop dpu_event_log_max buf type latest keep_cnt 0

/-- The first `switch` of `DPU_EVENT_LOG`: the counters it leaves, and `none`
when it returns from the function, else `some skip_excessive`. The counters
are `u32`. -/
def dpu_event_log_gate (type : Nat) (d : decon_debug) : decon_debug × Option Bool :=
  if type = DPU_EVT_DECON_FRAMESTART then
    let d1 := { d with auto_refresh_frames := (d.auto_refresh_frames + 1) % 4294967296 }
    if d1.auto_refresh_frames > 3 then (d1, none) else (d1, some true)
  else if type = DPU_EVT_DECON_FRAMEDONE ∨ type = DPU_EVT_DPP_FRAMEDONE
      ∨ type = DPU_EVT_DSIM_FRAMEDONE then
    if d.auto_refresh_frames > 3 then (d, none) else (d, some true)
  else if type = DPU_EVT_TE_INTERRUPT then (d, some true)
  else if type = DPU_EVT_DSIM_UNDERRUN then
    ({ d with underrun_cnt := (d.underrun_cnt + 1) % 4294967296 }, some true)
  else if type = DPU_EVT_DSIM_CRC then
    ({ d with crc_cnt := (d.crc_cnt + 1) % 4294967296 }, some true)
  else if type = DPU_EVT_DSIM_ECC then
    ({ d with ecc_cnt := (d.ecc_cnt + 1) % 4294967296 }, some true)
  else (d, some false)

/-- The second `switch` of `DPU_EVENT_LOG`: the payload written into the
claimed record, whose previous payload is `old`. -/
def dpu_event_log_data (type : Nat) (env : dpu_env) (decon : decon_device)
    (old : dpu_log_data) : dpu_log_data :=
  if type = DPU_EVT_DPP_FRAMEDONE then { old with dpp_id := env.dpp.id }
  else if type = DPU_EVT_DMA_RECOVERY then
    { old with dpp_id := env.dpp.id, dpp_comp_src := env.dpp.comp_src,
               dpp_recovery_cnt := env.dpp.recovery_cnt }
  else if type = DPU_EVT_DECON_RSC_OCCUPANCY then
    { old with rsc_ch := env.rsc_ch, rsc_win := env.rsc_win }
  else if type = DPU_EVT_ENTER_HIBERNATION_IN ∨ type = DPU_EVT_ENTER_HIBERNATION_OUT
      ∨ type = DPU_EVT_EXIT_HIBERNATION_IN ∨ type = DPU_EVT_EXIT_HIBERNATION_OUT then
    { old with pd_rpm_active := env.rpm_active }
  else if type = DPU_EVT_PLANE_UPDATE ∨ type = DPU_EVT_PLANE_DISABLE then
    { old with win_idx := env.dpp.win_id, plane_idx := env.dpp.id }
  else if type = DPU_EVT_REQ_CRTC_INFO_OLD ∨ type = DPU_EVT_REQ_CRTC_INFO_NEW then
    { old with crtc_enable := env.crtc_state.enable, crtc_active := env.crtc_state.active,
               crtc_planes_changed := env.crtc_state.planes_changed,
               crtc_mode_changed := env.crtc_state.mode_changed,
               crtc_active_changed := env.crtc_state.active_changed }
  else if type = DPU_EVT_BTS_RELEASE_BW ∨ type = DPU_EVT_BTS_UPDATE_BW then
    { old with freqs := env.freqs }
  else if type = DPU_EVT_BTS_CALC_BW then
    { old with bts_freqs := env.freqs, bts_value := decon.max_disp_freq }
  else if type = DPU_EVT_DSIM_UNDERRUN then
    { old with bts_freqs := env.freqs, bts_value := decon.d.underrun_cnt }
  else if type = DPU_EVT_DSIM_CRC then { old with value := decon.d.crc_cnt }
  else if type = DPU_EVT_DSIM_ECC then { old with value := decon.d.ecc_cnt }
  else old

/-- The value `atomic_inc_return(&decon->d.event_log_idx)`. -/
def atomic_inc_return (event_log_idx : Int) : Int := to_s32 (event_log_idx + 1)

/-- The slot claim shared by the three recorders: the locked
`idx = atomic_inc_return(&decon->d.event_log_idx) % dpu_event_log_max` and
`log = &decon->d.event_log[idx]`. It yields the device with the advanced
cursor, the index and the record found in the slot. -/
def dpu_claim_slot (dpu_event_log_max : Nat) (buf : List dpu_log) (decon : decon_device) :
    Except Fault (decon_device × Int × dpu_log) :=
  if dpu_event_log_max = 0 then .error .div_by_zero
  else
    let cur := atomic_inc_return decon.d.event_log_idx
    let idx := to_s32 (dpu_slot dpu_event_log_max cur)
    match log_at buf idx with
    | none => .error .out_of_bounds
    | some log => .ok ({ decon with d := { decon.d with event_log_idx := cur } }, idx, log)

/-- The device after the claimed record `event_log[idx]` has been filled. -/
def dpu_store (buf : List dpu_log) (idx : Int) (log : dpu_log) (decon : decon_device) :
    decon_device :=
  { decon with d := { decon.d with event_log := some (log_set buf idx log) } }

/-- The record `DPU_EVENT_LOG` leaves in the claimed slot, which held `old`:
`log->time = ktime_get()`, `log->type = type` and the payload of the second
switch. -/
def dpu_log_record (type : Nat) (env : dpu_env) (decon : decon_device) (old : dpu_log) :
    dpu_log :=
  { time := env.ktime, type := type, data := dpu_event_log_data type env decon old.data }

/-- The function `DPU_EVENT_LOG(type, index, priv)` on the DECON that
`get_decon_drvdata(index)` returns. -/
def DPU_EVENT_LOG (dpu_event_log_max keep_cnt : Nat) (type : Nat) (index : Int)
    (env : dpu_env) (decon : decon_device) : Except Fault decon_device :=
  if index < 0 then .ok decon
  else
    match decon.d.event_log with
    | none => .ok decon
    | some buf =>
      match dpu_event_log_gate type decon.d with
      | (d1, none) => .ok { decon with d := d1 }
      | (d1, some skip_excessive) =>
        let decon1 := { decon with d := d1 }
        match (if skip_excessive then dpu_event_ignore dpu_event_log_max keep_cnt type d1
               else .ok false) with
        | .error e => .error e
        | .ok true => .ok decon1
        | .ok false =>
          match dpu_claim_slot dpu_event_log_max buf decon1 with
          | .error e => .error e
          | .ok (decon2, idx, log) =>
            .ok (dpu_store buf idx (dpu_log_record type env decon2 log) decon2)

/-- The loop of `DPU_EVENT_LOG_ATOMIC_COMMIT` over the windows
`0 .. MAX_WIN_PER_DECON - 1`: the window configuration is copied whole, the
DMA address only for a window in state BUFFER. `dbg_dma_addr ch` is
`decon->dpp[ch]->dbg_dma_addr`. -/
def dpu_atomic_snapshot (max_win : Nat) (win_config : List dpu_bts_win_config)
    (dbg_dma_addr : Nat → Nat) (old : List dpu_log_win) : List dpu_log_win :=
  (List.range max_win).map fun i =>
    let w := win_config.getD i {}
    { win := w,
      dma_addr := if w.state = DPU_WIN_STATE_BUFFER then dbg_dma_addr w.dpp_ch
                  else (old.getD i {}).dma_addr }

/-- The record `DPU_EVENT_LOG_ATOMIC_COMMIT` leaves in the claimed slot, which
held `old`. -/
def dpu_atomic_record (max_win ktime : Nat) (win_config : List dpu_bts_win_config)
    (dbg_dma_addr : Nat → Nat) (old : dpu_log) : dpu_log :=
  { time := ktime, type := DPU_EVT_ATOMIC_COMMIT,
    data := { old.data with
      atomic_win_config :=
        dpu_atomic_snapshot max_win win_config dbg_dma_addr old.data.atomic_win_config } }

/-- The function `DPU_EVENT_LOG_ATOMIC_COMMIT(index)`; `max_win` is
`MAX_WIN_PER_DECON`, `ktime` the value of `ktime_get()`. -/
def DPU_EVENT_LOG_ATOMIC_COMMIT (dpu_event_log_max max_win : Nat) (index : Int)
    (ktime : Nat) (dbg_dma_addr : Nat → Nat) (decon : decon_device) :
    Except Fault decon_device :=
  if index < 0 then .ok decon
  else
    match decon.d.event_log with
    | none => .ok decon
    | some buf =>
      match dpu_claim_slot dpu_event_log_max buf decon with
      | .error e => .error e
      | .ok (decon1, idx, log) =>
        let decon2 := { decon1 with d := { decon1.d with auto_refresh_frames := 0 } }
        .ok (dpu_store buf idx
          (dpu_atomic_record max_win ktime decon.win_config dbg_dma_addr log) decon2)

/-- The record `DPU_EVENT_LOG_CMD` leaves in the claimed slot, which held
`old`. -/
def dpu_cmd_record (type d0 len ktime : Nat) (caller : List Nat) (old : dpu_log) : dpu_log :=
  { time := ktime, type := DPU_EVT_DSIM_COMMAND,
    data := { old.data with cmd_id := type, cmd_d0 := d0, cmd_len := len,
                            cmd_caller := caller } }

/-- The function `DPU_EVENT_LOG_CMD(dsim, type, d0, len)`; `decon` is the
result of `dsim_get_decon(dsim)` (`none` when it is NULL), `caller` the
return addresses of the call stack. -/
def DPU_EVENT_LOG_CMD (dpu_event_log_max : Nat) (type d0 len : Nat) (ktime : Nat)
    (caller : List Nat) (decon : Option decon_device) :
    Except Fault (Option decon_device) :=
  match decon with
  | none => .ok none
  | some decon =>
    match decon.d.event_log with
    | none => .ok (some decon)
    | some buf =>
      match dpu_claim_slot dpu_event_log_max buf decon with
      | .error e => .error e
      | .ok (decon1, idx, log) =>
        .ok (some (dpu_store buf idx (dpu_cmd_record type d0 len ktime caller log) decon1))

/-! ## The replay -/

/-- The remark that the second column of an event line carries, by record
type: the values `dpu_event_log_print` formats after the event name. -/
inductive dpu_remark where
  | plain
  | rsc (rsc_ch rsc_win : Nat)
  | cmd (id d0 len : Nat)
  | dpp_framedone (id : Nat)
  | dma_recovery (id comp_src recovery_cnt : Nat)
  | power (rpm_active : Bool)
  | plane (plane_idx win_idx : Nat)
  | crtc_info (enable active planes_changed mode_changed active_changed : Bool)
  | freqs (f : dpu_log_freqs)
  | calc_bw (value : Nat)
  | underrun (value : Nat)
  | crc (value : Nat)
  | ecc (value : Nat)
  deriving DecidableEq, Repr

/-- One line of the report. -/
inductive dpu_line where
  | rule
  | title
  | event (tv_sec usec : Nat) (name : Option String) (remark : dpu_remark)
  | win (i state addr : Nat) (src_x src_y src_w src_h dst_x dst_y dst_w dst_h : Int)
      (ch : Option Nat) (format comp_src : Nat)
  deriving DecidableEq, Repr

/-- The kernel constant `NSEC_PER_SEC`. -/
def NSEC_PER_SEC : Nat := 1000000000

/-- The kernel constant `NSEC_PER_USEC`. -/
def NSEC_PER_USEC : Nat := 1000

/-- The function `dpu_print_log_atomic`: one line for each window of the
snapshot that is not DISABLED, in index order. -/
def dpu_print_log_atomic (max_win : Nat) (win_config : List dpu_log_win) : List dpu_line :=
  (List.range max_win).filterMap fun i =>
    let e := win_config.getD i {}
    if e.win.state = DPU_WIN_STATE_DISABLED then none
    else some (dpu_line.win i e.win.state
      (if e.win.state = DPU_WIN_STATE_BUFFER then e.dma_addr else 0)
      e.win.src_x e.win.src_y e.win.src_w e.win.src_h
      e.win.dst_x e.win.dst_y e.win.dst_w e.win.dst_h
      (if e.win.state = DPU_WIN_STATE_BUFFER then some e.win.dpp_ch else none)
      e.win.format e.win.comp_src)

/-- The remark of a record: the first `switch (log->type)` of the loop of
`dpu_event_log_print`. -/
def dpu_log_remark (log : dpu_log) : dpu_remark :=
  if log.type = DPU_EVT_DECON_RSC_OCCUPANCY then .rsc log.data.rsc_ch log.data.rsc_win
  else if log.type = DPU_EVT_DSIM_COMMAND then
    .cmd log.data.cmd_id log.data.cmd_d0 log.data.cmd_len
  else if log.type = DPU_EVT_DPP_FRAMEDONE then .dpp_framedone log.data.dpp_id
  else if log.type = DPU_EVT_DMA_RECOVERY then
    .dma_recovery log.data.dpp_id log.data.dpp_comp_src log.data.dpp_recovery_cnt
  else if log.type = DPU_EVT_ENTER_HIBERNATION_IN ∨ log.type = DPU_EVT_ENTER_HIBERNATION_OUT
      ∨ log.type = DPU_EVT_EXIT_HIBERNATION_IN ∨ log.type = DPU_EVT_EXIT_HIBERNATION_OUT then
    .power log.data.pd_rpm_active
  else if log.type = DPU_EVT_PLANE_UPDATE ∨ log.type = DPU_EVT_PLANE_DISABLE then
    .plane log.data.plane_idx log.data.win_idx
  else if log.type = DPU_EVT_REQ_CRTC_INFO_OLD ∨ log.type = DPU_EVT_REQ_CRTC_INFO_NEW then
    .crtc_info log.data.crtc_enable log.data.crtc_active log.data.crtc_planes_changed
      log.data.crtc_mode_changed log.data.crtc_active_changed
  else if log.type = DPU_EVT_BTS_RELEASE_BW ∨ log.type = DPU_EVT_BTS_UPDATE_BW then
    .freqs log.data.freqs
  else if log.type = DPU_EVT_BTS_CALC_BW then .calc_bw log.data.bts_value
  else if log.type = DPU_EVT_DSIM_UNDERRUN then .underrun log.data.bts_value
  else if log.type = DPU_EVT_DSIM_CRC then .crc log.data.value
  else if log.type = DPU_EVT_DSIM_ECC then .ecc log.data.value
  else .plain

/-- The event line of a record: time, event name and remark. -/
def dpu_event_line (log : dpu_log) : dpu_line :=
  .event (log.time / NSEC_PER_SEC) (log.time % NSEC_PER_SEC / NSEC_PER_USEC)
    (get_event_name log.type) (dpu_log_remark log)

/-- All the lines one visited record produces: its event line, then for a
commit snapshot the window lines. -/
def dpu_log_lines (max_win : Nat) (log : dpu_log) : List dpu_line :=
  dpu_event_line log ::
    (if log.type = DPU_EVT_ATOMIC_COMMIT then
       dpu_print_log_atomic max_win log.data.atomic_win_config
     else [])

/-- The `do ... while (latest != idx)` loop of `dpu_event_log_print`, from
the value `idx` has before the increment; it yields the records it renders,
in order. The first argument bounds the number of iterations. -/
def dpu_event_log_walk (dpu_event_log_max : Nat) (buf : List dpu_log) (latest : Int) :
    Nat → Int → Except Fault (List dpu_log)
  | 0, _ => .error .fuel
  | fuel + 1, idx =>
    let idx1 := to_s32 (idx + 1)
    let idx2 := if to_u32 idx1 ≥ dpu_event_log_max then 0 else idx1
    match log_at buf idx2 with
    | none => .error .out_of_bounds
    | some log =>
      if log.time / NSEC_PER_SEC = 0 then .ok []
      else if latest ≠ idx2 then
        match dpu_event_log_walk dpu_event_log_max buf latest fuel idx2 with
        | .error e => .error e
        | .ok rest => .ok (log :: rest)
      else .ok [log]

/-- The index from which `dpu_event_log_print` starts ("seek a oldest from
current index"): `max_logs` is a `size_t`, the cursor an `int`. -/
def dpu_event_log_start (dpu_event_log_max : Nat) (event_log_idx : Int) (max_logs : Nat) :
    Int :=
  let max_logs1 := if max_logs > dpu_event_log_max then dpu_event_log_max else max_logs
  if to_u64 event_log_idx < max_logs1 then 0
  else to_s32 ((to_u64 (event_log_idx - max_logs1) % dpu_event_log_max : Nat) : Int)

/-- The records `dpu_event_log_print` renders, oldest first. `latest` is
computed before the NULL test, as in the source; `none` stands for the
return that prints nothing. -/
def dpu_event_log_visit (dpu_event_log_max : Nat) (decon : decon_device) (max_logs : Nat) :
    Except Fault (Option (List dpu_log)) :=
  if dpu_event_log_max = 0 then .error .div_by_zero
  else
    let idx := decon.d.event_log_idx
    let latest := to_s32 (dpu_slot dpu_event_log_max idx)
    match decon.d.event_log with
    | none => .ok none
    | some buf =>
      match dpu_event_log_walk dpu_event_log_max buf latest dpu_event_log_max
          (dpu_event_log_start dpu_event_log_max idx max_logs) with
      | .error e => .error e
      | .ok logs => .ok (some logs)

/-- The function `dpu_event_log_print`: the lines sent to the printer. -/
def dpu_event_log_print (dpu_event_log_max max_win : Nat) (decon : decon_device)
    (max_logs : Nat) : Except Fault (List dpu_line) :=
  match dpu_event_log_visit dpu_event_log_max decon max_logs with
  | .error e => .error e
  | .ok none => .ok []
  | .ok (some logs) =>
    .ok ([dpu_line.rule, dpu_line.title, dpu_line.rule]
      ++ (logs.map (dpu_log_lines max_win)).flatten ++ [dpu_line.rule])

/-! ## Histories of calls -/

/-- The device right after a successful `dpu_init_debug` whose first
allocation succeeded: `capacity` zeroed records, the cursor at -1 and the
counters of the zero-allocated device. -/
def dpu_fresh (capacity : Nat) : decon_device :=
  { d := { event_log := some (List.replicate capacity dpu_log_zero),
           event_log_cnt := capacity,
           event_log_idx := -1 } }

/-- One call of a recorder, with the values it obtains from outside. -/
inductive dpu_call where
  | log (type : Nat) (index : Int) (env : dpu_env)
  | atomic_commit (index : Int) (ktime : Nat) (dbg_dma_addr : Nat → Nat)
  | cmd (type d0 len ktime : Nat) (caller : List Nat)

/-- The clock value a call reads. -/
def dpu_call.ktime : dpu_call → Nat
  | .log _ _ env => env.ktime
  | .atomic_commit _ ktime _ => ktime
  | .cmd _ _ _ ktime _ => ktime

/-- The effect of one call on the device. -/
def dpu_call.apply (dpu_event_log_max keep_cnt max_win : Nat) (c : dpu_call)
    (decon : decon_device) : Except Fault decon_device :=
  match c with
  | .log type index env => DPU_EVENT_LOG dpu_event_log_max keep_cnt type index env decon
  | .atomic_commit index ktime dbg_dma_addr =>
    DPU_EVENT_LOG_ATOMIC_COMMIT dpu_event_log_max max_win index ktime dbg_dma_addr decon
  | .cmd type d0 len ktime caller =>
    match DPU_EVENT_LOG_CMD dpu_event_log_max type d0 len ktime caller (some decon) with
    | .error e => .error e
    | .ok none => .ok decon
    | .ok (some decon1) => .ok decon1

/-- The record a call has stored, read from the slot of the new cursor, or
`none` when the call left the cursor where it was (suppressed or rejected). -/
def dpu_stored_by (dpu_event_log_max : Nat) (before after : decon_device) : Option dpu_log :=
  if after.d.event_log_idx = before.d.event_log_idx then none
  else
    match after.d.event_log with
    | none => none
    | some buf => log_at buf (to_s32 (dpu_slot dpu_event_log_max after.d.event_log_idx))

/-- A single-threaded history: the calls are applied one after the other.
The result is the device they leave and the records they stored, in call
order. -/
def dpu_run (dpu_event_log_max keep_cnt max_win : Nat) :
    List dpu_call → decon_device → Except Fault (decon_device × List dpu_log)
  | [], decon => .ok (decon, [])
  | c :: cs, decon =>
    match c.apply dpu_event_log_max keep_cnt max_win decon with
    | .error e => .error e
    | .ok decon1 =>
      match dpu_run dpu_event_log_max keep_cnt max_win cs decon1 with
      | .error e => .error e
      | .ok (decon2, stored) =>
        .ok (decon2, (dpu_stored_by dpu_event_log_max decon decon1).toList ++ stored)

/-- The event lines of a report: the lines `dpu_line.event`. -/
def dpu_event_lines (report : List dpu_line) : List dpu_line :=
  report.filter fun l => match l with
    | .event _ _ _ _ => true
    | _ => false

/-- A history followed by one `dpu_event_log_print`: the records the history
stored, and the report printed from the device it left. -/
def dpu_replay (dpu_event_log_max keep_cnt max_win : Nat) (calls : List dpu_call)
    (decon : decon_device) (max_logs : Nat) : Except Fault (List dpu_log × List dpu_line) :=
  match dpu_run dpu_event_log_max keep_cnt max_win calls decon with
  | .error e => .error e
  | .ok (decon1, stored) =>
    match dpu_event_log_print dpu_event_log_max max_win decon1 max_logs with
    | .error e => .error e
    | .ok report => .ok (stored, report)

/-- The buffer is available: `event_log` points to `dpu_event_log_max`
records, and `dpu_event_log_max` is positive and fits a C `int`. -/
def dpu_log_ready (dpu_event_log_max : Nat) (decon : decon_device) : Prop :=
  0 < dpu_event_log_max ∧ dpu_event_log_max ≤ 2147483647 ∧
    decon.d.event_log.map List.length = some dpu_event_log_max

instance (dpu_event_log_max : Nat) (decon : decon_device) :
    Decidable (dpu_log_ready dpu_event_log_max decon) := by
  unfold dpu_log_ready
  infer_instance

/-- Consecutive `DPU_EVENT_LOG(DPU_EVT_DECON_FRAMESTART, 0, ..)` calls, one for
each clock value. -/
def dpu_framestart_calls (ktimes : List Nat) : List dpu_call :=
  ktimes.map fun t => .log DPU_EVT_DECON_FRAMESTART 0 { ktime := t }

/-- The example scenario of the spec: six frame-start events, one underrun,
one frame-start, one second apart. -/
def dpu_scenario_calls : List dpu_call :=
  dpu_framestart_calls [1000000000, 2000000000, 3000000000, 4000000000, 5000000000,
      6000000000]
    ++ [.log DPU_EVT_DSIM_UNDERRUN 0 { ktime := 7000000000 },
        .log DPU_EVT_DECON_FRAMESTART 0 { ktime := 8000000000 }]

/-- A device with an available buffer of 8 records and three configured
windows: a buffer-backed one on channel 2, a disabled one, a solid colour. -/
def dpu_sample_device : decon_device :=
  { dpu_fresh 8 with
    win_config :=
      [{ state := DPU_WIN_STATE_BUFFER, src_w := 1080, src_h := 2400, dst_w := 1080,
         dst_h := 2400, format := 3, dpp_ch := 2 },
       {},
       { state := DPU_WIN_STATE_COLOR, dst_y := 2300, dst_w := 1080, dst_h := 100 }] }

/-- The ring invariant of a single-threaded history on a fresh buffer that has
stored the records `stored`, in this order: the cursor is the number of
records minus one, the record of cursor value `j` lies in slot
`j % dpu_event_log_max` as long as fewer than `dpu_event_log_max` records
followed it, and the slots never written are zero. -/
def dpu_ring_inv (dpu_event_log_max : Nat) (decon : decon_device) (stored : List dpu_log) :
    Prop :=
  ∃ buf, decon.d.event_log = some buf ∧ buf.length = dpu_event_log_max ∧
    decon.d.event_log_idx = (stored.length : Int) - 1 ∧
    (∀ j, j < stored.length → stored.length ≤ j + dpu_event_log_max →
      buf[j % dpu_event_log_max]? = stored[j]?) ∧
    (∀ j, stored.length ≤ j → j < dpu_event_log_max → buf[j]? = some dpu_log_zero)

/-! ## Initialisation -/

/-- What `dpu_init_debug` obtains from outside: `vzalloc i n` tells whether the
`i`-th allocation, of `n` records, succeeds; `has_crtc` is `decon->crtc != NULL`;
the last two tell whether the debugfs node "event" and the directory "urgent"
could be created. -/
structure dpu_init_env where
  vzalloc : Nat → Nat → Bool
  has_crtc : Bool := true
  debugfs_event : Bool := true
  debugfs_urgent : Bool := true

/-- What `dpu_init_debug` leaves: its return value, the device, the sizes (in
records) of the allocations it attempted, in order, and whether it released
the storage with `vfree`. -/
structure dpu_init_result where
  ret : Int
  decon : decon_device
  attempts : List Nat
  freed : Bool

/-- The allocation loop of `dpu_init_debug`,
`for (i = 0; i < DPU_EVENT_LOG_RETRY; ++i)`: the first argument is the number
of rounds left (`DPU_EVENT_LOG_RETRY - i`), `event_cnt` the `u32` count
before the round and `attempts` the sizes tried so far. It yields
`decon->d.event_log`, the final `event_cnt` and the sizes tried. The shift
`event_cnt >> i` of the `u32` is defined in C for `i < 32`, so the model
stands for `DPU_EVENT_LOG_RETRY` up to 32. -/
def dpu_init_alloc (vzalloc : Nat → Nat → Bool) :
    Nat → Nat → Nat → List Nat → Option (List dpu_log) × Nat × List Nat
  | 0, _, event_cnt, attempts => (none, event_cnt, attempts)
  | left + 1, i, event_cnt, attempts =>
    let event_cnt1 := event_cnt >>> i
    if vzalloc i event_cnt1 then
      (some (List.replicate event_cnt1 dpu_log_zero), event_cnt1, attempts ++ [event_cnt1])
    else dpu_init_alloc vzalloc left (i + 1) event_cnt1 (attempts ++ [event_cnt1])

/-- The error code `-ENOENT`. -/
def ENOENT_neg : Int := -2

/-- The function `dpu_init_debug`; `retry` is the constant
`DPU_EVENT_LOG_RETRY`, whose definition is not among the sources. The debugfs
entries it creates do not belong to the device state kept here; on the two
error paths the storage is released and `event_log` keeps its value. -/
def dpu_init_debug (dpu_event_log_max retry : Nat) (env : dpu_init_env)
    (decon : decon_device) : dpu_init_result :=
  let r := dpu_init_alloc env.vzalloc retry 0 (dpu_event_log_max % 4294967296) []
  let decon1 : decon_device :=
    { decon with d := { decon.d with event_log := r.1, event_log_cnt := r.2.1,
                                     event_log_idx := -1 } }
  if ¬ env.has_crtc then
    { ret := ENOENT_neg, decon := decon1, attempts := r.2.2, freed := true }
  else if ¬ env.debugfs_event then
    { ret := ENOENT_neg, decon := decon1, attempts := r.2.2, freed := true }
  else if ¬ env.debugfs_urgent then
    { ret := ENOENT_neg, decon := decon1, attempts := r.2.2, freed := true }
  else { ret := 0, decon := decon1, attempts := r.2.2, freed := false }

/-! ## The order of the replay -/

/-- The slots `dpu_event_log_print` would visit if no time stamp stopped it:
from the slot after the start index to `latest`, wrapping through 0. -/
def dpu_visit_order (dpu_event_log_max : Nat) (event_log_idx : Int) (max_logs : Nat) :
    List Nat :=
  let latest := dpu_slot dpu_event_log_max event_log_idx
  let start := (dpu_event_log_start dpu_event_log_max event_log_idx max_logs).toNat
  let n := if start < latest then latest - start else latest + dpu_event_log_max - start
  (List.range n).map fun k => (start + 1 + k) % dpu_event_log_max

/-- A time stamp whose `tv_sec` is not 0. -/
def dpu_has_seconds (log : dpu_log) : Bool := log.time / NSEC_PER_SEC ≠ 0

/-- A history of `n` calls of a type that is never coalesced
(`DPU_EVT_DECON_ENABLED`), one second apart from 1 s on. -/
def dpu_plain_calls (n : Nat) : List dpu_call :=
  (List.range n).map fun k => .log DPU_EVT_DECON_ENABLED 0 { ktime := (k + 1) * 1000000000 }

/-- An allocator that fails at the first attempt and succeeds afterwards. -/
def dpu_alloc_second : dpu_init_env := { vzalloc := fun i _ => decide (i ≠ 0) }

/-- An allocator that always fails. -/
def dpu_alloc_never : dpu_init_env := { vzalloc := fun _ _ => false }

/-- The time columns of a line of the report: seconds and microseconds of an
event line, nothing for the other lines. -/
def dpu_line_stamp : dpu_line → Option (Nat × Nat)
  | .event tv_sec usec _ _ => some (tv_sec, usec)
  | _ => none

/-- The lines of the report as a function of the time stamps alone: the
seconds and microseconds of the stamps found in the given slots, up to the
first stamp with zero seconds. -/
def dpu_stamps_of (times : List Nat) (order : List Nat) : List (Option (Nat × Nat)) :=
  ((order.map fun s => times.getD s 0).takeWhile fun t => decide (t / NSEC_PER_SEC ≠ 0)).map
    fun t => some (t / NSEC_PER_SEC, t % NSEC_PER_SEC / NSEC_PER_USEC)

/-- A device of capacity 4 that holds three records stamped 1 s, 2 s and 3 s
with the given tags, the cursor on the third. -/
def dpu_three_records (t0 t1 t2 : Nat) : decon_device :=
  { d := { event_log := some [{ time := 1000000000, type := t0 },
                              { time := 2000000000, type := t1 },
                              { time := 3000000000, type := t2 }, dpu_log_zero],
           event_log_cnt := 4,
           event_log_idx := 2 } }

/-- The window a line of the report belongs to: the `i` of a `WIN%d` line,
nothing for the other lines. -/
def dpu_line_window : dpu_line → Option Nat
  | .win i _ _ _ _ _ _ _ _ _ _ _ _ _ => some i
  | _ => none

/-- A device whose buffer holds `capacity` zeroed records, with the write
cursor at the given value. -/
def dpu_at_cursor (capacity : Nat) (cursor : Int) : decon_device :=
  { d := { event_log := some (List.replicate capacity dpu_log_zero),
           event_log_cnt := capacity,
           event_log_idx := cursor } }

/-- An environment in which every allocation succeeds and `decon->crtc` is
NULL. -/
def dpu_no_crtc : dpu_init_env := { vzalloc := fun _ _ => true, has_crtc := false }

/-! ## The LUT parser of debugfs -/

/-- Modelled from the spec: the element width 16 of `enum elem_size` (declared
in a header that is not among the sources; `exynos_debugfs_add_lut` takes
`elem_size >> 3` as the size in bytes, so the enumerators are the widths in
bits). -/
def ELEM_SIZE_16 : Nat := 16

/-- Modelled from the spec: the element width 32 of `enum elem_size`. -/
def ELEM_SIZE_32 : Nat := 32

/-- The error code `-EINVAL`. -/
def EINVAL_neg : Int := -22

/-- The successive results of `strsep(&lut_buf, " ")` until it returns NULL:
the pieces of the text between single spaces. Two spaces in a row, a space at
either end and the empty text give an empty piece. -/
def strsep_tokens : List Char → List (List Char)
  | [] => [[]]
  | c :: cs =>
    if c = ' ' then [] :: strsep_tokens cs
    else
      match strsep_tokens cs with
      | t :: ts => (c :: t) :: ts
      | [] => [[c]]

/-- The `while ((token = strsep(&lut_buf, " ")))` loop of `get_lut` over the
tokens still to come; `kstrto token` is the value `kstrtou16` or `kstrtou32`
stores (`none` when it returns an error, in which case it stores nothing), `i`
the index and `lut` the table. A store beyond the table leaves defined
behaviour. -/
def get_lut_loop (kstrto : String → Option Nat) (count : Nat) :
    List (List Char) → Nat → List Nat → Except Fault (Int × List Nat)
  | [], _, lut => .ok (0, lut)
  | token :: rest, i, lut =>
    if i ≥ count then .ok (0, lut)
    else
      match kstrto (String.mk token) with
      | none => .ok (EINVAL_neg, lut)
      | some v =>
        if i < lut.length then get_lut_loop kstrto count rest (i + 1) (lut.set i v)
        else .error .out_of_bounds

/-- The function `get_lut(lut_buf, count, pcount, lut, elem_size)`: its return
value and the table `*lut` it leaves. `kstrtou16` and `kstrtou32` are the
kernel parsers. The value the function gives `pcount` is never read. -/
def get_lut (kstrtou16 kstrtou32 : String → Option Nat) (lut_buf : String)
    (count pcount : Nat) (lut : List Nat) (elem_size : Nat) :
    Except Fault (Int × List Nat) :=
  if elem_size = ELEM_SIZE_16 then
    let _pcount1 := if pcount = 0 ∨ pcount > count then count else pcount
    get_lut_loop kstrtou16 count (strsep_tokens lut_buf.toList) 0 lut
  else if elem_size = ELEM_SIZE_32 then
    let _pcount1 := if pcount = 0 ∨ pcount > count then count else pcount
    get_lut_loop kstrtou32 count (strsep_tokens lut_buf.toList) 0 lut
  else .ok (EINVAL_neg, lut)

/-- A parser for the examples, not the kernel one: it accepts a non-empty run
of decimal digits whose value is below 2^16 and nothing else, where
`kstrtou16` with base 0 also accepts a leading `+`, the prefixes `0x` and `0`
(hexadecimal, octal) and one trailing newline. -/
def kstrto_digits (token : String) : Option Nat :=
  let cs := token.toList
  let v := cs.foldl (fun n c => 10 * n + (c.toNat - 48)) 0
  if cs ≠ [] ∧ cs.all Char.isDigit ∧ v < 65536 then some v else none

/-! ## The display quality enhancer -/

/-- Modelled from the spec: a pointer held by the DQE state (the structures are
declared in a header that is not among the sources): NULL, a blob supplied by
the caller, or one of the members of `struct exynos_dqe` whose address
`__exynos_dqe_update` takes. -/
inductive dqe_ptr where
  | null
  | blob (addr : Nat)
  | force_linear_matrix
  | force_gamma_matrix
  | cgc_dither_override_val
  | disp_dither_override_val
  deriving DecidableEq, Repr, Inhabited

/-- Modelled from the spec: `struct exynos_dqe_state`, the fields
`__exynos_dqe_update` reads and writes. -/
structure exynos_dqe_state where
  enabled : Bool := false
  degamma_lut : dqe_ptr := .null
  cgc_lut : dqe_ptr := .null
  linear_matrix : dqe_ptr := .null
  gamma_matrix : dqe_ptr := .null
  regamma_lut : dqe_ptr := .null
  disp_dither_config : dqe_ptr := .null
  cgc_dither_config : dqe_ptr := .null
  deriving DecidableEq, Repr, Inhabited

/-- Modelled from the spec: `struct dither_debug_override`, as
`exynos_debugfs_add_dqe_override` exports it. -/
structure dither_debug_override where
  force_en : Bool := false
  verbose : Bool := false
  val : Nat := 0
  deriving DecidableEq, Repr, Inhabited

/-- Modelled from the spec: the fields `en` and `dirty` of `struct exynos_atc`
and the rest of the configuration as one value. -/
structure exynos_atc where
  en : Bool := false
  dirty : Bool := false
  params : Nat := 0
  deriving DecidableEq, Repr, Inhabited

/-- Modelled from the spec: `struct exynos_dqe`, the fields
`__exynos_dqe_update` and `exynos_atc_update` read and write; `in_bpc` and
`out_bpc` are `dqe->decon->config.in_bpc` and `.out_bpc`. -/
structure exynos_dqe where
  state : exynos_dqe_state := {}
  initialized : Bool := false
  force_disabled : Bool := false
  force_lm : Bool := false
  force_gm : Bool := false
  cgc_dither_override : dither_debug_override := {}
  disp_dither_override : dither_debug_override := {}
  cgc_first_write : Bool := false
  force_atc_config : exynos_atc := {}
  verbose_atc : Bool := false
  in_bpc : Nat := 0
  out_bpc : Nat := 0
  deriving DecidableEq, Repr, Inhabited

/-- One call into the register layer (`dqe_cal.h`, `decon_cal.h`), with its
arguments; `dqe_reg_set_disp_dither_local en` is the call on the local
`dither_config` whose only non-zero field is `en`. -/
inductive dqe_reg_call where
  | decon_reg_set_dqe_enable (id : Nat) (en : Bool)
  | dqe_reg_init (width height : Nat)
  | dqe_reg_set_cgc_dither (config : dqe_ptr)
  | dqe_reg_set_disp_dither (config : dqe_ptr)
  | dqe_reg_set_disp_dither_local (en : Bool)
  | dqe_reg_print_dither (cgc : Bool)
  | dqe_reg_set_degamma_lut (lut : dqe_ptr)
  | dqe_reg_set_cgc_lut (lut : dqe_ptr)
  | dqe_reg_set_linear_matrix (m : dqe_ptr)
  | dqe_reg_set_gamma_matrix (m : dqe_ptr)
  | dqe_reg_set_regamma_lut (lut : dqe_ptr)
  | dqe_reg_set_atc (config : Option exynos_atc)
  | dqe_reg_print_atc
  | decon_reg_update_req_dqe (id : Nat)
  deriving DecidableEq, Repr

/-- The function `exynos_atc_update`: the DQE it leaves and the register calls
it makes. -/
def exynos_atc_update (dqe : exynos_dqe) : exynos_dqe × List dqe_reg_call :=
  let r : exynos_dqe × List dqe_reg_call :=
    if dqe.force_atc_config.dirty then
      if dqe.force_atc_config.en then
        ({ dqe with force_atc_config := { dqe.force_atc_config with dirty := false } },
          [.dqe_reg_set_atc (some dqe.force_atc_config)])
      else (dqe, [.dqe_reg_set_atc none])
    else (dqe, [])
  (r.1, r.2 ++ (if dqe.verbose_atc then [.dqe_reg_print_atc] else []))

/-- The dither part of `__exynos_dqe_update`, after `force_lm` and `force_gm`:
the CGC dither and the display dither, each followed by its verbose print. -/
def exynos_dqe_update_dither (dqe : exynos_dqe) (state : exynos_dqe_state) :
    exynos_dqe × List dqe_reg_call :=
  let r1 : exynos_dqe × List dqe_reg_call :=
    if dqe.cgc_dither_override.force_en then
      ({ dqe with state := { dqe.state with cgc_dither_config := .cgc_dither_override_val } },
        [.dqe_reg_set_cgc_dither .cgc_dither_override_val])
    else if dqe.state.cgc_dither_config ≠ state.cgc_dither_config then
      ({ dqe with state := { dqe.state with cgc_dither_config := state.cgc_dither_config } },
        [.dqe_reg_set_cgc_dither state.cgc_dither_config])
    else (dqe, [])
  let c1 := r1.2 ++ (if dqe.cgc_dither_override.verbose then [.dqe_reg_print_dither true] else [])
  let dqe1 := r1.1
  let r2 : exynos_dqe × List dqe_reg_call :=
    if dqe1.disp_dither_override.force_en then
      ({ dqe1 with state := { dqe1.state with
            disp_dither_config := .disp_dither_override_val } },
        [.dqe_reg_set_disp_dither .disp_dither_override_val])
    else if state.disp_dither_config = .null then
      ({ dqe1 with state := { dqe1.state with disp_dither_config := .null } },
        [.dqe_reg_set_disp_dither_local (decide (dqe1.in_bpc = 10 ∧ dqe1.out_bpc = 8))])
    else if dqe1.state.disp_dither_config ≠ state.disp_dither_config then
      ({ dqe1 with state := { dqe1.state with
            disp_dither_config := state.disp_dither_config } },
        [.dqe_reg_set_disp_dither state.disp_dither_config])
    else (dqe1, [])
  (r2.1, c1 ++ r2.2
    ++ (if dqe1.disp_dither_override.verbose then [.dqe_reg_print_dither false] else []))

/-- The LUT and matrix part of `__exynos_dqe_update`: each table is programmed
when the tracked pointer differs from the requested one; the CGC LUT is
written once more on the following update. -/
def exynos_dqe_update_luts (dqe : exynos_dqe) (state : exynos_dqe_state) :
    exynos_dqe × List dqe_reg_call :=
  let r1 : exynos_dqe × List dqe_reg_call :=
    if dqe.state.degamma_lut ≠ state.degamma_lut then
      ({ dqe with state := { dqe.state with degamma_lut := state.degamma_lut } },
        [.dqe_reg_set_degamma_lut state.degamma_lut])
    else (dqe, [])
  let r2 : exynos_dqe × List dqe_reg_call :=
    if r1.1.state.cgc_lut ≠ state.cgc_lut then
      ({ r1.1 with state := { r1.1.state with cgc_lut := state.cgc_lut },
                   cgc_first_write := true },
        [.dqe_reg_set_cgc_lut state.cgc_lut])
    else if r1.1.cgc_first_write then
      ({ r1.1 with cgc_first_write := false }, [.dqe_reg_set_cgc_lut r1.1.state.cgc_lut])
    else (r1.1, [])
  let r3 : exynos_dqe × List dqe_reg_call :=
    if r2.1.state.linear_matrix ≠ state.linear_matrix then
      ({ r2.1 with state := { r2.1.state with linear_matrix := state.linear_matrix } },
        [.dqe_reg_set_linear_matrix state.linear_matrix])
    else (r2.1, [])
  let r4 : exynos_dqe × List dqe_reg_call :=
    if r3.1.state.gamma_matrix ≠ state.gamma_matrix then
      ({ r3.1 with state := { r3.1.state with gamma_matrix := state.gamma_matrix } },
        [.dqe_reg_set_gamma_matrix state.gamma_matrix])
    else (r3.1, [])
  let r5 : exynos_dqe × List dqe_reg_call :=
    if r4.1.state.regamma_lut ≠ state.regamma_lut then
      ({ r4.1 with state := { r4.1.state with regamma_lut := state.regamma_lut } },
        [.dqe_reg_set_regamma_lut state.regamma_lut])
    else (r4.1, [])
  (r5.1, r1.2 ++ r2.2 ++ r3.2 ++ r4.2 ++ r5.2)

/-- The function `__exynos_dqe_update(dqe, state, width, height)`: the DQE and
the requested state it leaves, and the register calls it makes, in order. -/
def __exynos_dqe_update (dqe : exynos_dqe) (state : exynos_dqe_state) (width height : Nat) :
    exynos_dqe × exynos_dqe_state × List dqe_reg_call :=
  let enabled := state.enabled && !dqe.force_disabled
  let dqe1 := { dqe with state := { dqe.state with enabled := enabled } }
  let c1 := [dqe_reg_call.decon_reg_set_dqe_enable 0 enabled]
  if !enabled then (dqe1, state, c1)
  else
    let c2 := if !dqe1.initialized then [dqe_reg_call.dqe_reg_init width height] else []
    let dqe2 := if !dqe1.initialized then { dqe1 with initialized := true } else dqe1
    let state1 := if dqe2.force_lm then { state with linear_matrix := .force_linear_matrix }
                  else state
    let state2 := if dqe2.force_gm then { state1 with gamma_matrix := .force_gamma_matrix }
                  else state1
    let r3 := exynos_dqe_update_dither dqe2 state2
    let r4 := exynos_dqe_update_luts r3.1 state2
    let r5 := exynos_atc_update r4.1
    (r5.1, state2, c1 ++ c2 ++ r3.2 ++ r4.2 ++ r5.2 ++ [.decon_reg_update_req_dqe 0])

/-- The function `exynos_dqe_update`, which calls `dqe->funcs->update`;
`exynos_dqe_register` sets `dqe->funcs` to `dqe_funcs`, whose `update` is
`__exynos_dqe_update`. -/
def exynos_dqe_update (dqe : exynos_dqe) (state : exynos_dqe_state) (width height : Nat) :
    exynos_dqe × exynos_dqe_state × List dqe_reg_call :=
  __exynos_dqe_update dqe state width height

/-- The invariant of the most recent records of a single-threaded history
that has stored the records `stored`, in this order: the cursor is an `int`,
and the record stored `j` claims before the latest one lies in the slot of
the cursor value `cursor - j`, as long as `j` is below the capacity and that
cursor value is not negative. -/
def dpu_recent_inv (dpu_event_log_max : Nat) (decon : decon_device) (stored : List dpu_log) :
    Prop :=
  ∃ buf, decon.d.event_log = some buf ∧ buf.length = dpu_event_log_max ∧
    -2147483648 ≤ decon.d.event_log_idx ∧ decon.d.event_log_idx < 2147483648 ∧
    ∀ j : Nat, j < stored.length → j < dpu_event_log_max →
      (j : Int) ≤ decon.d.event_log_idx →
      buf[dpu_slot dpu_event_log_max (decon.d.event_log_idx - j)]?
        = stored[stored.length - 1 - j]?

/-- The device and the records that `n` plain calls leave on a fresh
buffer. -/
def dpu_plain_history (dpu_event_log_max keep_cnt max_win n : Nat) :
    decon_device × List dpu_log :=
  match dpu_run dpu_event_log_max keep_cnt max_win (dpu_plain_calls n)
      (dpu_fresh dpu_event_log_max) with
  | .ok r => r
  | .error _ => (dpu_fresh dpu_event_log_max, [])

/-! ## Theorems -/

/-! ### Machine integers, slots and the recorders -/

theorem to_s32_slot (cap : Nat) (n : Nat) (h0 : 0 < cap) (h1 : cap ≤ 2147483647) :
    to_s32 ((n % cap : Nat) : Int) = ((n % cap : Nat) : Int) := by
  have := Nat.mod_lt n h0
  unfold to_s32 to_u32
  split <;> omega

theorem to_s32_dpu_slot (cap : Nat) (c : Int) (h0 : 0 < cap) (h1 : cap ≤ 2147483647) :
    to_s32 (dpu_slot cap c : Int) = (dpu_slot cap c : Int) :=
  to_s32_slot cap _ h0 h1

theorem dpu_slot_lt (cap : Nat) (c : Int) (h0 : 0 < cap) : dpu_slot cap c < cap :=
  Nat.mod_lt _ h0

theorem log_at_nat (buf : List dpu_log) (n : Nat) : log_at buf (n : Int) = buf[n]? := by
  unfold log_at
  simp

theorem getElem?_getD_of_lt (buf : List dpu_log) (i : Nat) (h : i < buf.length) :
    buf[i]? = some (buf.getD i dpu_log_zero) := by
  simp [List.getD_eq_getElem?_getD, List.getElem?_eq_getElem h]

theorem log_set_nat (buf : List dpu_log) (n : Nat) (v : dpu_log) :
    log_set buf (n : Int) v = buf.set n v := by
  unfold log_set
  simp

theorem ready_buf {cap : Nat} {decon : decon_device} (h : dpu_log_ready cap decon) :
    ∃ buf, decon.d.event_log = some buf ∧ buf.length = cap := by
  obtain ⟨_, _, h3⟩ := h
  cases hb : decon.d.event_log with
  | none => simp [hb] at h3
  | some buf => exact ⟨buf, rfl, by simpa [hb] using h3⟩

theorem claim_slot_ok {cap : Nat} (buf : List dpu_log) (decon : decon_device)
    (h0 : 0 < cap) (h1 : cap ≤ 2147483647) (hl : buf.length = cap) :
    dpu_claim_slot cap buf decon =
      .ok ({ decon with d := { decon.d with
              event_log_idx := atomic_inc_return decon.d.event_log_idx } },
           (dpu_slot cap (atomic_inc_return decon.d.event_log_idx) : Int),
           buf.getD (dpu_slot cap (atomic_inc_return decon.d.event_log_idx)) dpu_log_zero) := by
  have hlt : dpu_slot cap (atomic_inc_return decon.d.event_log_idx) < buf.length := by
    rw [hl]; exact Nat.mod_lt _ h0
  have hs := fun c => to_s32_dpu_slot cap c h0 h1
  have hc : cap ≠ 0 := Nat.pos_iff_ne_zero.mp h0
  unfold dpu_claim_slot
  rw [if_neg hc]
  simp only [hs]
  rw [log_at_nat, getElem?_getD_of_lt _ _ hlt]

theorem ignore_loop_succ (cap : Nat) (buf : List dpu_log) (type : Nat) (latest : Int)
    (n offset : Nat) :
    dpu_event_ignore_loop cap buf type latest (n + 1) offset =
      match log_at buf (to_s32 (dpu_slot cap (latest + cap - offset))) with
      | none => .error .out_of_bounds
      | some log =>
        if type ≠ log.type then .ok false
        else dpu_event_ignore_loop cap buf type latest n (offset + 1) := rfl

theorem ignore_loop_ok {cap : Nat} (buf : List dpu_log) (type : Nat) (latest : Int)
    (h0 : 0 < cap) (h1 : cap ≤ 2147483647) (hl : buf.length = cap) (n offset : Nat) :
    ∃ b : Bool, dpu_event_ignore_loop cap buf type latest n offset = .ok b ∧
      (b = true ↔ ∀ j, j < n → ∀ l,
        buf[dpu_slot cap (latest + cap - ((offset + j : Nat) : Int))]? = some l →
          l.type = type) := by
  have hs := fun c => to_s32_dpu_slot cap c h0 h1
  induction n generalizing offset with
  | zero => exact ⟨true, rfl, by simp⟩
  | succ n ih =>
    have hlt : dpu_slot cap (latest + cap - (offset : Int)) < buf.length := by
      rw [hl]; exact Nat.mod_lt _ h0
    obtain ⟨l0, hl0⟩ : ∃ l0, buf[dpu_slot cap (latest + cap - (offset : Int))]? = some l0 :=
      ⟨_, List.getElem?_eq_getElem hlt⟩
    rw [ignore_loop_succ, hs, log_at_nat, hl0]
    simp only []
    by_cases ht : type = l0.type
    · rw [if_neg (by simpa using ht)]
      obtain ⟨b, hb, hiff⟩ := ih (offset + 1)
      refine ⟨b, hb, hiff.trans ⟨fun h j hj l hjl => ?_, fun h j hj l hjl => ?_⟩⟩
      · cases j with
        | zero =>
          rw [Nat.add_zero, hl0] at hjl
          cases hjl
          exact ht.symm
        | succ j =>
          have e : offset + (j + 1) = offset + 1 + j := by omega
          rw [e] at hjl
          exact h j (by omega) l hjl
      · have e : offset + 1 + j = offset + (j + 1) := by omega
        rw [e] at hjl
        exact h (j + 1) (by omega) l hjl
    · rw [if_pos (by simpa using ht)]
      refine ⟨false, rfl, ?_⟩
      simp only [Bool.false_eq_true, false_iff]
      intro h
      exact ht (h 0 (by omega) l0 (by rw [Nat.add_zero]; exact hl0)).symm

theorem ignore_ok {cap : Nat} (buf : List dpu_log) (K type : Nat) (d : decon_debug)
    (h0 : 0 < cap) (h1 : cap ≤ 2147483647) (hl : buf.length = cap)
    (hb : d.event_log = some buf) :
    ∃ b : Bool, dpu_event_ignore cap K type d = .ok b ∧
      (b = true ↔ ∀ j, j < K → ∀ l,
        buf[dpu_slot cap ((dpu_slot cap d.event_log_idx : Int) + cap - (j : Int))]? = some l →
          l.type = type) := by
  have hs := fun c => to_s32_dpu_slot cap c h0 h1
  have hc : cap ≠ 0 := Nat.pos_iff_ne_zero.mp h0
  obtain ⟨b, hb1, hiff⟩ := ignore_loop_ok buf type (dpu_slot cap d.event_log_idx : Int)
    h0 h1 hl K 0
  refine ⟨b, ?_, ?_⟩
  · unfold dpu_event_ignore
    rw [if_neg hc]
    simp only [hb, hs]
    exact hb1
  · simpa using hiff

theorem gate_frame (type : Nat) (d : decon_debug) :
    (dpu_event_log_gate type d).1.event_log = d.event_log ∧
    (dpu_event_log_gate type d).1.event_log_idx = d.event_log_idx ∧
    (dpu_event_log_gate type d).1.event_log_cnt = d.event_log_cnt := by
  unfold dpu_event_log_gate
  simp only []
  split_ifs <;> exact ⟨rfl, rfl, rfl⟩

/-- Normal form of `DPU_EVENT_LOG` on an available buffer: the counters are
those the first switch leaves; the call either stops there (`b = true`) or
claims the next slot and fills it. -/
theorem DPU_EVENT_LOG_cases {cap : Nat} {buf : List dpu_log} (K type : Nat) (index : Int)
    (env : dpu_env) (decon : decon_device)
    (h0 : 0 < cap) (h1 : cap ≤ 2147483647) (hl : buf.length = cap)
    (hb : decon.d.event_log = some buf) (hi : ¬ index < 0) :
    ∃ b : Bool,
      DPU_EVENT_LOG cap K type index env decon =
        .ok (if b then { decon with d := (dpu_event_log_gate type decon.d).1 }
             else dpu_store buf (dpu_slot cap (atomic_inc_return decon.d.event_log_idx) : Int)
               (dpu_log_record type env
                 { decon with d := { (dpu_event_log_gate type decon.d).1 with
                     event_log_idx := atomic_inc_return decon.d.event_log_idx } }
                 (buf.getD (dpu_slot cap (atomic_inc_return decon.d.event_log_idx))
                   dpu_log_zero))
               { decon with d := { (dpu_event_log_gate type decon.d).1 with
                   event_log_idx := atomic_inc_return decon.d.event_log_idx } }) ∧
      (b = true ↔ (dpu_event_log_gate type decon.d).2 = none ∨
        ((dpu_event_log_gate type decon.d).2 = some true ∧
          ∀ j, j < K → ∀ l,
            buf[dpu_slot cap ((dpu_slot cap decon.d.event_log_idx : Int) + cap - (j : Int))]?
              = some l → l.type = type)) := by
  obtain ⟨g1, g2, _⟩ := gate_frame type decon.d
  unfold DPU_EVENT_LOG
  rw [if_neg hi]
  simp only [hb]
  rcases hg : dpu_event_log_gate type decon.d with ⟨d1, o⟩
  rw [hg] at g1 g2
  simp only at g1 g2
  cases o with
  | none => exact ⟨true, by simp, by simp⟩
  | some sk =>
    have hcl := claim_slot_ok buf { decon with d := d1 } h0 h1 hl
    simp only [g2] at hcl
    cases sk with
    | false =>
      refine ⟨false, ?_, by simp⟩
      simp only [hcl]
      simp
    | true =>
      obtain ⟨b, hb1, hiff⟩ := ignore_ok buf K type d1 h0 h1 hl (g1.trans hb)
      rw [g2] at hiff
      simp only [if_true, hb1]
      cases b with
      | true => exact ⟨true, by simp, by simpa using hiff⟩
      | false =>
        refine ⟨false, ?_, by simpa using hiff⟩
        simp only [hcl]
        simp

theorem ready_of_buf {cap : Nat} {decon : decon_device} (buf : List dpu_log)
    (h0 : 0 < cap) (h1 : cap ≤ 2147483647) (hb : decon.d.event_log = some buf)
    (hl : buf.length = cap) : dpu_log_ready cap decon :=
  ⟨h0, h1, by rw [hb]; simp [hl]⟩

theorem atomic_inc_return_ne (x : Int) : atomic_inc_return x ≠ x := by
  unfold atomic_inc_return to_s32 to_u32
  split <;> omega

theorem dpu_store_event_log (buf : List dpu_log) (slot : Nat) (r : dpu_log)
    (decon : decon_device) :
    (dpu_store buf (slot : Int) r decon).d.event_log = some (buf.set slot r) := by
  simp [dpu_store, log_set_nat]

theorem dpu_store_ready {cap : Nat} (buf : List dpu_log) (slot : Nat) (r : dpu_log)
    (decon : decon_device) (h0 : 0 < cap) (h1 : cap ≤ 2147483647) (hl : buf.length = cap) :
    dpu_log_ready cap (dpu_store buf (slot : Int) r decon) :=
  ready_of_buf (buf.set slot r) h0 h1 (dpu_store_event_log buf slot r decon)
    (by simpa using hl)

/-- Normal form of `DPU_EVENT_LOG_ATOMIC_COMMIT` on an available buffer. -/
theorem ATOMIC_COMMIT_ok {cap : Nat} {buf : List dpu_log} (max_win : Nat) (index : Int)
    (ktime : Nat) (dbg_dma_addr : Nat → Nat) (decon : decon_device)
    (h0 : 0 < cap) (h1 : cap ≤ 2147483647) (hl : buf.length = cap)
    (hb : decon.d.event_log = some buf) (hi : ¬ index < 0) :
    DPU_EVENT_LOG_ATOMIC_COMMIT cap max_win index ktime dbg_dma_addr decon =
      .ok (dpu_store buf (dpu_slot cap (atomic_inc_return decon.d.event_log_idx) : Int)
        (dpu_atomic_record max_win ktime decon.win_config dbg_dma_addr
          (buf.getD (dpu_slot cap (atomic_inc_return decon.d.event_log_idx)) dpu_log_zero))
        { decon with d := { decon.d with
            event_log_idx := atomic_inc_return decon.d.event_log_idx,
            auto_refresh_frames := 0 } }) := by
  have hcl := claim_slot_ok buf decon h0 h1 hl
  simp only [DPU_EVENT_LOG_ATOMIC_COMMIT, if_neg hi, hb, hcl]

/-- Normal form of `DPU_EVENT_LOG_CMD` on an available buffer. -/
theorem CMD_ok {cap : Nat} {buf : List dpu_log} (type d0 len ktime : Nat) (caller : List Nat)
    (decon : decon_device)
    (h0 : 0 < cap) (h1 : cap ≤ 2147483647) (hl : buf.length = cap)
    (hb : decon.d.event_log = some buf) :
    DPU_EVENT_LOG_CMD cap type d0 len ktime caller (some decon) =
      .ok (some (dpu_store buf (dpu_slot cap (atomic_inc_return decon.d.event_log_idx) : Int)
        (dpu_cmd_record type d0 len ktime caller
          (buf.getD (dpu_slot cap (atomic_inc_return decon.d.event_log_idx)) dpu_log_zero))
        { decon with d := { decon.d with
            event_log_idx := atomic_inc_return decon.d.event_log_idx } })) := by
  have hcl := claim_slot_ok buf decon h0 h1 hl
  simp only [DPU_EVENT_LOG_CMD, hb, hcl]

/-- What a recorder may do to the buffer and the cursor: nothing, or advance
the cursor by one claim and overwrite the slot of the new cursor with a
record stamped with the clock value of the call. -/
theorem apply_effect {cap : Nat} (K max_win : Nat) (c : dpu_call) (decon : decon_device)
    (hr : dpu_log_ready cap decon) :
    ∃ decon1, c.apply cap K max_win decon = .ok decon1 ∧ dpu_log_ready cap decon1 ∧
      ((decon1.d.event_log = decon.d.event_log ∧
          decon1.d.event_log_idx = decon.d.event_log_idx) ∨
       ∃ buf r, decon.d.event_log = some buf ∧ r.time = c.ktime ∧
          decon1.d.event_log_idx = atomic_inc_return decon.d.event_log_idx ∧
          decon1.d.event_log =
            some (buf.set (dpu_slot cap (atomic_inc_return decon.d.event_log_idx)) r)) := by
  obtain ⟨buf, hb, hl⟩ := ready_buf hr
  obtain ⟨h0, h1, _⟩ := hr
  cases c with
  | log type index env =>
    by_cases hi : index < 0
    · refine ⟨decon, ?_, ⟨h0, h1, by rw [hb]; simp [hl]⟩, Or.inl ⟨rfl, rfl⟩⟩
      simp [dpu_call.apply, DPU_EVENT_LOG, hi]
    · obtain ⟨b, hres, -⟩ := DPU_EVENT_LOG_cases K type index env decon h0 h1 hl hb hi
      obtain ⟨g1, g2, _⟩ := gate_frame type decon.d
      cases b with
      | true =>
        simp only [if_true] at hres
        exact ⟨_, hres, ready_of_buf buf h0 h1 (g1.trans hb) hl, Or.inl ⟨g1, g2⟩⟩
      | false =>
        simp only [Bool.false_eq_true, if_false] at hres
        exact ⟨_, hres, dpu_store_ready buf _ _ _ h0 h1 hl,
          Or.inr ⟨buf, _, hb, rfl, rfl, dpu_store_event_log buf _ _ _⟩⟩
  | atomic_commit index ktime dbg =>
    by_cases hi : index < 0
    · refine ⟨decon, ?_, ⟨h0, h1, by rw [hb]; simp [hl]⟩, Or.inl ⟨rfl, rfl⟩⟩
      simp [dpu_call.apply, DPU_EVENT_LOG_ATOMIC_COMMIT, hi]
    · have hres := ATOMIC_COMMIT_ok max_win index ktime dbg decon h0 h1 hl hb hi
      exact ⟨_, hres, dpu_store_ready buf _ _ _ h0 h1 hl,
          Or.inr ⟨buf, _, hb, rfl, rfl, dpu_store_event_log buf _ _ _⟩⟩
  | cmd type d0 len ktime caller =>
    have hres := CMD_ok type d0 len ktime caller decon h0 h1 hl hb
    have hres1 : (dpu_call.cmd type d0 len ktime caller).apply cap K max_win decon =
        .ok (dpu_store buf (dpu_slot cap (atomic_inc_return decon.d.event_log_idx) : Int)
          (dpu_cmd_record type d0 len ktime caller
            (buf.getD (dpu_slot cap (atomic_inc_return decon.d.event_log_idx)) dpu_log_zero))
          { decon with d := { decon.d with
              event_log_idx := atomic_inc_return decon.d.event_log_idx } }) := by
      simp only [dpu_call.apply, hres]
    exact ⟨_, hres1, dpu_store_ready buf _ _ _ h0 h1 hl,
          Or.inr ⟨buf, _, hb, rfl, rfl, dpu_store_event_log buf _ _ _⟩⟩
/-! ### The error counters -/

theorem gate_counters (type : Nat) (d : decon_debug)
    (ht : type = DPU_EVT_DSIM_UNDERRUN ∨ type = DPU_EVT_DSIM_CRC ∨ type = DPU_EVT_DSIM_ECC) :
    (dpu_event_log_gate type d).1.underrun_cnt =
      (if type = DPU_EVT_DSIM_UNDERRUN then (d.underrun_cnt + 1) % 4294967296
       else d.underrun_cnt) ∧
    (dpu_event_log_gate type d).1.crc_cnt =
      (if type = DPU_EVT_DSIM_CRC then (d.crc_cnt + 1) % 4294967296 else d.crc_cnt) ∧
    (dpu_event_log_gate type d).1.ecc_cnt =
      (if type = DPU_EVT_DSIM_ECC then (d.ecc_cnt + 1) % 4294967296 else d.ecc_cnt) := by
  rcases ht with h | h | h <;> subst h <;> exact ⟨rfl, rfl, rfl⟩

/-- The counters `DPU_EVENT_LOG` leaves on an available buffer are those of
its first switch, whether the record is stored or not. -/
theorem DPU_EVENT_LOG_counters {cap : Nat} (K type : Nat) (index : Int) (env : dpu_env)
    (decon : decon_device) (hr : dpu_log_ready cap decon) (hi : ¬ index < 0) :
    ∃ decon1, DPU_EVENT_LOG cap K type index env decon = .ok decon1 ∧
      dpu_log_ready cap decon1 ∧
      decon1.d.underrun_cnt = (dpu_event_log_gate type decon.d).1.underrun_cnt ∧
      decon1.d.crc_cnt = (dpu_event_log_gate type decon.d).1.crc_cnt ∧
      decon1.d.ecc_cnt = (dpu_event_log_gate type decon.d).1.ecc_cnt ∧
      decon1.d.auto_refresh_frames = (dpu_event_log_gate type decon.d).1.auto_refresh_frames := by
  obtain ⟨buf, hb, hl⟩ := ready_buf hr
  obtain ⟨h0, h1, _⟩ := hr
  obtain ⟨b, hres, -⟩ := DPU_EVENT_LOG_cases K type index env decon h0 h1 hl hb hi
  obtain ⟨g1, g2, _⟩ := gate_frame type decon.d
  cases b with
  | true =>
    simp only [if_true] at hres
    exact ⟨_, hres, ready_of_buf buf h0 h1 (g1.trans hb) hl, rfl, rfl, rfl, rfl⟩
  | false =>
    simp only [Bool.false_eq_true, if_false] at hres
    exact ⟨_, hres, dpu_store_ready buf _ _ _ h0 h1 hl, rfl, rfl, rfl, rfl⟩

theorem dpu_run_cons (cap K max_win : Nat) (c : dpu_call) (cs : List dpu_call)
    (decon : decon_device) :
    dpu_run cap K max_win (c :: cs) decon =
      match c.apply cap K max_win decon with
      | .error e => .error e
      | .ok decon1 =>
        match dpu_run cap K max_win cs decon1 with
        | .error e => .error e
        | .ok (decon2, stored) =>
          .ok (decon2, (dpu_stored_by cap decon decon1).toList ++ stored) := rfl

/-- C5, amended: on an available buffer, `n` calls of `DPU_EVENT_LOG` of one
of the types DSIM_UNDERRUN, DSIM_CRC, DSIM_ECC with indices at least 0 raise
the counter of that type by `n` modulo 2^32 (the counters are `u32`) and
leave the other two as they were, whatever the buffer holds and whether the
records are stored or suppressed. -/
theorem error_counters_count (cap K max_win type : Nat) (args : List (Int × dpu_env))
    (decon : decon_device) (hr : dpu_log_ready cap decon)
    (ht : type = DPU_EVT_DSIM_UNDERRUN ∨ type = DPU_EVT_DSIM_CRC ∨ type = DPU_EVT_DSIM_ECC)
    (hi : ∀ a ∈ args, 0 ≤ a.1)
    (hu : decon.d.underrun_cnt < 4294967296) (hc : decon.d.crc_cnt < 4294967296)
    (he : decon.d.ecc_cnt < 4294967296) :
    ∃ decon1 stored,
      dpu_run cap K max_win (args.map fun a => dpu_call.log type a.1 a.2) decon
        = .ok (decon1, stored) ∧
      decon1.d.underrun_cnt =
        (if type = DPU_EVT_DSIM_UNDERRUN then (decon.d.underrun_cnt + args.length) % 4294967296
         else decon.d.underrun_cnt) ∧
      decon1.d.crc_cnt =
        (if type = DPU_EVT_DSIM_CRC then (decon.d.crc_cnt + args.length) % 4294967296
         else decon.d.crc_cnt) ∧
      decon1.d.ecc_cnt =
        (if type = DPU_EVT_DSIM_ECC then (decon.d.ecc_cnt + args.length) % 4294967296
         else decon.d.ecc_cnt) := by
  induction args generalizing decon with
  | nil =>
    refine ⟨decon, [], rfl, ?_, ?_, ?_⟩ <;> split <;> simp <;> omega
  | cons a args ih =>
    have ha : ¬ a.1 < 0 := not_lt.mpr (hi a (List.mem_cons_self _ _))
    obtain ⟨d1, hd1, hr1, hu1, hc1, he1, -⟩ :=
      DPU_EVENT_LOG_counters K type a.1 a.2 decon hr ha
    obtain ⟨gu, gc, ge⟩ := gate_counters type decon.d ht
    rw [gu] at hu1
    rw [gc] at hc1
    rw [ge] at he1
    have hu2 : d1.d.underrun_cnt < 4294967296 := by rw [hu1]; split <;> omega
    have hc2 : d1.d.crc_cnt < 4294967296 := by rw [hc1]; split <;> omega
    have he2 : d1.d.ecc_cnt < 4294967296 := by rw [he1]; split <;> omega
    obtain ⟨d2, stored, hrun, hu3, hc3, he3⟩ :=
      ih d1 hr1 (fun x hx => hi x (List.mem_cons_of_mem _ hx)) hu2 hc2 he2
    refine ⟨d2, (dpu_stored_by cap decon d1).toList ++ stored, ?_, ?_, ?_, ?_⟩
    · rw [List.map_cons, dpu_run_cons]
      simp only [dpu_call.apply, hd1, hrun]
    · rw [hu3, hu1, List.length_cons]
      split <;> omega
    · rw [hc3, hc1, List.length_cons]
      split <;> omega
    · rw [he3, he1, List.length_cons]
      split <;> omega

/-- A concrete instance: two underruns on a fresh buffer of capacity 8. -/
theorem error_counters_count_witness :
    ∃ decon1 stored,
      dpu_run 8 4 6 ([(0, { ktime := 1000000000 }), (0, { ktime := 2000000000 })].map
          fun a => dpu_call.log DPU_EVT_DSIM_UNDERRUN a.1 a.2) (dpu_fresh 8)
        = .ok (decon1, stored) ∧
      decon1.d.underrun_cnt =
        (if DPU_EVT_DSIM_UNDERRUN = DPU_EVT_DSIM_UNDERRUN then
          ((dpu_fresh 8).d.underrun_cnt + 2) % 4294967296
         else (dpu_fresh 8).d.underrun_cnt) ∧
      decon1.d.crc_cnt =
        (if DPU_EVT_DSIM_UNDERRUN = DPU_EVT_DSIM_CRC then
          ((dpu_fresh 8).d.crc_cnt + 2) % 4294967296
         else (dpu_fresh 8).d.crc_cnt) ∧
      decon1.d.ecc_cnt =
        (if DPU_EVT_DSIM_UNDERRUN = DPU_EVT_DSIM_ECC then
          ((dpu_fresh 8).d.ecc_cnt + 2) % 4294967296
         else (dpu_fresh 8).d.ecc_cnt) :=
  error_counters_count 8 4 6 DPU_EVT_DSIM_UNDERRUN
    [(0, { ktime := 1000000000 }), (0, { ktime := 2000000000 })] (dpu_fresh 8)
    ⟨by decide, by decide, rfl⟩ (Or.inl rfl) (by decide) (by decide) (by decide) (by decide)

/-- C5, as stated, fails when the counter stands at 2^32 - 1: one more
underrun leaves 0, not 2^32. -/
theorem underrun_counter_wraps :
    ¬ ∃ decon1,
        DPU_EVENT_LOG 8 4 DPU_EVT_DSIM_UNDERRUN 0 { ktime := 1000000000 }
          { dpu_fresh 8 with d := { (dpu_fresh 8).d with underrun_cnt := 4294967295 } }
          = .ok decon1 ∧
        decon1.d.underrun_cnt = 4294967295 + 1 := by
  rintro ⟨decon1, h, h1⟩
  have e : (DPU_EVENT_LOG 8 4 DPU_EVT_DSIM_UNDERRUN 0 { ktime := 1000000000 }
      { dpu_fresh 8 with d := { (dpu_fresh 8).d with underrun_cnt := 4294967295 } }).map
      (fun r => r.d.underrun_cnt) = .ok 0 := rfl
  rw [h] at e
  simp only [Except.map, Except.ok.injEq] at e
  omega

/-! ### The commit snapshot -/

theorem stored_by_store {cap : Nat} (buf : List dpu_log) (r : dpu_log)
    (decon decon1 : decon_device) (h0 : 0 < cap) (h1 : cap ≤ 2147483647)
    (hl : buf.length = cap)
    (hidx : decon1.d.event_log_idx = atomic_inc_return decon.d.event_log_idx)
    (hlog : decon1.d.event_log =
      some (buf.set (dpu_slot cap (atomic_inc_return decon.d.event_log_idx)) r)) :
    dpu_stored_by cap decon decon1 = some r := by
  have hne : ¬ decon1.d.event_log_idx = decon.d.event_log_idx := by
    rw [hidx]; exact atomic_inc_return_ne _
  have hlt : dpu_slot cap (atomic_inc_return decon.d.event_log_idx) < buf.length := by
    rw [hl]; exact Nat.mod_lt _ h0
  unfold dpu_stored_by
  rw [if_neg hne, hlog]
  simp only [hidx, to_s32_dpu_slot cap _ h0 h1, log_at_nat]
  rw [List.getElem?_set_eq_of_lt _ hlt]

theorem snapshot_getD (max_win : Nat) (win_config : List dpu_bts_win_config)
    (dbg_dma_addr : Nat → Nat) (old : List dpu_log_win) (i : Nat) (hi : i < max_win) :
    (dpu_atomic_snapshot max_win win_config dbg_dma_addr old).getD i {} =
      { win := win_config.getD i {},
        dma_addr := if (win_config.getD i {}).state = DPU_WIN_STATE_BUFFER
                    then dbg_dma_addr (win_config.getD i {}).dpp_ch
                    else (old.getD i {}).dma_addr } := by
  unfold dpu_atomic_snapshot
  rw [List.getD_eq_getElem?_getD, List.getElem?_map, List.getElem?_range hi]
  rfl

theorem print_depends_on_d (cap max_win max_logs : Nat) (a b : decon_device) (h : a.d = b.d) :
    dpu_event_log_print cap max_win a max_logs = dpu_event_log_print cap max_win b max_logs := by
  unfold dpu_event_log_print dpu_event_log_visit
  rw [h]

/-- C8: `DPU_EVENT_LOG_ATOMIC_COMMIT` stores a record that holds, for every
window, the configuration `decon->bts.win_config[i]` of the moment of the call
and, for a window in state BUFFER, the DMA address of its channel. The window
lines rendered for the record are those of that configuration. Whatever the
rest of the device (the live configuration table) becomes afterwards, the
stored record and the report stay the same: the replay reads `decon->d`
only. -/
theorem snapshot_isolation (cap max_win : Nat) (index : Int) (ktime : Nat)
    (dbg_dma_addr : Nat → Nat) (decon : decon_device) (hr : dpu_log_ready cap decon)
    (hi : 0 ≤ index) :
    ∃ decon1 log,
      DPU_EVENT_LOG_ATOMIC_COMMIT cap max_win index ktime dbg_dma_addr decon = .ok decon1 ∧
      dpu_stored_by cap decon decon1 = some log ∧
      log.type = DPU_EVT_ATOMIC_COMMIT ∧
      (∀ i, i < max_win →
        (log.data.atomic_win_config.getD i {}).win = decon.win_config.getD i {} ∧
        ((decon.win_config.getD i {}).state = DPU_WIN_STATE_BUFFER →
          (log.data.atomic_win_config.getD i {}).dma_addr =
            dbg_dma_addr (decon.win_config.getD i {}).dpp_ch)) ∧
      dpu_print_log_atomic max_win log.data.atomic_win_config =
        ((List.range max_win).filterMap fun i =>
          if (decon.win_config.getD i {}).state = DPU_WIN_STATE_DISABLED then none
          else some (dpu_line.win i (decon.win_config.getD i {}).state
            (if (decon.win_config.getD i {}).state = DPU_WIN_STATE_BUFFER
              then dbg_dma_addr (decon.win_config.getD i {}).dpp_ch else 0)
            (decon.win_config.getD i {}).src_x (decon.win_config.getD i {}).src_y
            (decon.win_config.getD i {}).src_w (decon.win_config.getD i {}).src_h
            (decon.win_config.getD i {}).dst_x (decon.win_config.getD i {}).dst_y
            (decon.win_config.getD i {}).dst_w (decon.win_config.getD i {}).dst_h
            (if (decon.win_config.getD i {}).state = DPU_WIN_STATE_BUFFER
              then some (decon.win_config.getD i {}).dpp_ch else none)
            (decon.win_config.getD i {}).format (decon.win_config.getD i {}).comp_src)) ∧
      ∀ later : decon_device, later.d = decon1.d →
        dpu_stored_by cap decon later = some log ∧
        ∀ max_logs, dpu_event_log_print cap max_win later max_logs =
          dpu_event_log_print cap max_win decon1 max_logs := by
  obtain ⟨buf, hb, hl⟩ := ready_buf hr
  obtain ⟨h0, h1, _⟩ := hr
  have hres := ATOMIC_COMMIT_ok max_win index ktime dbg_dma_addr decon h0 h1 hl hb
    (not_lt.mpr hi)
  refine ⟨_, dpu_atomic_record max_win ktime decon.win_config dbg_dma_addr
    (buf.getD (dpu_slot cap (atomic_inc_return decon.d.event_log_idx)) dpu_log_zero),
    hres, ?_, rfl, ?_, ?_, ?_⟩
  · exact stored_by_store buf _ decon _ h0 h1 hl rfl (dpu_store_event_log buf _ _ _)
  · intro i hi
    have e := snapshot_getD max_win decon.win_config dbg_dma_addr
      (buf.getD (dpu_slot cap (atomic_inc_return decon.d.event_log_idx))
        dpu_log_zero).data.atomic_win_config i hi
    simp only [dpu_atomic_record]
    rw [e]
    exact ⟨rfl, fun hs => if_pos hs⟩
  · unfold dpu_print_log_atomic
    apply List.filterMap_congr
    intro i hi
    have e := snapshot_getD max_win decon.win_config dbg_dma_addr
      (buf.getD (dpu_slot cap (atomic_inc_return decon.d.event_log_idx))
        dpu_log_zero).data.atomic_win_config i (List.mem_range.mp hi)
    simp only [dpu_atomic_record]
    rw [e]
    generalize decon.win_config.getD i {} = w
    dsimp only
    by_cases hs : w.state = DPU_WIN_STATE_BUFFER
    · simp only [hs, if_true]
    · simp only [hs, if_false]
  · intro later hlater
    refine ⟨?_, fun max_logs => print_depends_on_d cap max_win max_logs _ _ hlater⟩
    exact stored_by_store buf _ decon later h0 h1 hl (by rw [hlater]; rfl)
      (by rw [hlater]; exact dpu_store_event_log buf _ _ _)

/-- A concrete instance: one commit on the sample device. -/
theorem snapshot_isolation_witness :
    dpu_log_ready 8 dpu_sample_device ∧ (0 : Int) ≤ 0 ∧
    ∃ decon1 log,
      DPU_EVENT_LOG_ATOMIC_COMMIT 8 6 0 5000000000 (fun ch => 4096 * (ch + 1))
        dpu_sample_device = .ok decon1 ∧
      dpu_stored_by 8 dpu_sample_device decon1 = some log ∧
      log.type = DPU_EVT_ATOMIC_COMMIT ∧
      ∀ later : decon_device, later.d = decon1.d →
        dpu_stored_by 8 dpu_sample_device later = some log ∧
        ∀ max_logs, dpu_event_log_print 8 6 later max_logs =
          dpu_event_log_print 8 6 decon1 max_logs :=
  ⟨⟨by decide, by decide, rfl⟩, by decide,
    match snapshot_isolation 8 6 0 5000000000 (fun ch => 4096 * (ch + 1)) dpu_sample_device
      ⟨by decide, by decide, rfl⟩ (by decide) with
    | ⟨decon1, log, h1, h2, h3, _, _, h6⟩ => ⟨decon1, log, h1, h2, h3, h6⟩⟩

/-! ### Slot arithmetic -/

theorem dpu_slot_nat (cap n : Nat) (h : n < 4294967296) :
    dpu_slot cap (n : Int) = n % cap := by
  have e : to_u32 (n : Int) = n := by unfold to_u32; omega
  unfold dpu_slot
  rw [e]

theorem dpu_slot_nat_lt (cap n : Nat) (h : n < cap) (h1 : cap ≤ 2147483647) :
    dpu_slot cap (n : Int) = n := by
  rw [dpu_slot_nat cap n (by omega), Nat.mod_eq_of_lt h]

theorem dpu_slot_back (cap a j : Nat) (h1 : cap ≤ 2147483647) (ha : a < cap) (hj : j ≤ a) :
    dpu_slot cap ((a : Int) + cap - j) = a - j := by
  have e : (a : Int) + cap - j = ((a - j + cap : Nat) : Int) := by omega
  rw [e, dpu_slot_nat cap _ (by omega), Nat.add_mod_right, Nat.mod_eq_of_lt (by omega)]

theorem dpu_slot_back_wrap (cap a : Nat) (h0 : 0 < cap) (h1 : cap ≤ 2147483647) :
    dpu_slot cap ((a : Int) + cap - ((a + 1 : Nat) : Int)) = cap - 1 := by
  have e : (a : Int) + cap - ((a + 1 : Nat) : Int) = ((cap - 1 : Nat) : Int) := by omega
  rw [e, dpu_slot_nat cap _ (by omega), Nat.mod_eq_of_lt (by omega)]

theorem atomic_inc_return_nat (n : Nat) (h : n ≤ 2147483647) :
    atomic_inc_return ((n : Int) - 1) = n := by
  unfold atomic_inc_return to_s32 to_u32
  split <;> omega

theorem gate_framestart (d : decon_debug) :
    (dpu_event_log_gate DPU_EVT_DECON_FRAMESTART d).1 =
      { d with auto_refresh_frames := (d.auto_refresh_frames + 1) % 4294967296 } ∧
    (dpu_event_log_gate DPU_EVT_DECON_FRAMESTART d).2 =
      (if (d.auto_refresh_frames + 1) % 4294967296 > 3 then none else some true) := by
  unfold dpu_event_log_gate
  simp only [if_true]
  split <;> exact ⟨rfl, rfl⟩

/-! ### Coalescing of frame-start events: the general statement -/

/-- One frame-start call, `n` frame-starts after a fresh start with no other
call in between: the streak counter is `n`, the first
`min n (min K (min 3 cap))` slots hold frame-start records and the others are
zero. The call stores a record exactly when that number grows. -/
theorem framestart_step {cap : Nat} (K n : Nat) (env : dpu_env) (decon : decon_device)
    (buf : List dpu_log) (h0 : 0 < cap) (h1 : cap ≤ 2147483647)
    (hb : decon.d.event_log = some buf) (hl : buf.length = cap)
    (harf : decon.d.auto_refresh_frames = n) (hn : n + 1 < 4294967296)
    (hidx : decon.d.event_log_idx = ((min n (min K (min 3 cap)) : Nat) : Int) - 1)
    (hty : ∀ i l, buf[i]? = some l →
      l.type = if i < min n (min K (min 3 cap)) then DPU_EVT_DECON_FRAMESTART else 0) :
    ∃ decon1 buf1,
      DPU_EVENT_LOG cap K DPU_EVT_DECON_FRAMESTART 0 env decon = .ok decon1 ∧
      decon1.d.event_log = some buf1 ∧ buf1.length = cap ∧
      decon1.d.auto_refresh_frames = n + 1 ∧
      decon1.d.event_log_idx = ((min (n + 1) (min K (min 3 cap)) : Nat) : Int) - 1 ∧
      (∀ i l, buf1[i]? = some l →
        l.type = if i < min (n + 1) (min K (min 3 cap)) then DPU_EVT_DECON_FRAMESTART
                 else 0) ∧
      (dpu_stored_by cap decon decon1).toList.length =
        min (n + 1) (min K (min 3 cap)) - min n (min K (min 3 cap)) := by
  obtain ⟨b, hres, hiff⟩ :=
    DPU_EVENT_LOG_cases K DPU_EVT_DECON_FRAMESTART 0 env decon h0 h1 hl hb (by decide)
  obtain ⟨g1, g2⟩ := gate_framestart decon.d
  rw [harf, Nat.mod_eq_of_lt hn] at g1 g2
  rw [g2] at hiff
  have hmod : ∀ i, i < cap → ∃ l, buf[i]? = some l := fun i hi =>
    ⟨_, List.getElem?_eq_getElem (hl.symm ▸ hi)⟩
  -- the call stops before the claim
  have stop : b = true → min (n + 1) (min K (min 3 cap)) = min n (min K (min 3 cap)) →
      ∃ decon1 buf1,
      DPU_EVENT_LOG cap K DPU_EVT_DECON_FRAMESTART 0 env decon = .ok decon1 ∧
      decon1.d.event_log = some buf1 ∧ buf1.length = cap ∧
      decon1.d.auto_refresh_frames = n + 1 ∧
      decon1.d.event_log_idx = ((min (n + 1) (min K (min 3 cap)) : Nat) : Int) - 1 ∧
      (∀ i l, buf1[i]? = some l →
        l.type = if i < min (n + 1) (min K (min 3 cap)) then DPU_EVT_DECON_FRAMESTART
                 else 0) ∧
      (dpu_stored_by cap decon decon1).toList.length =
        min (n + 1) (min K (min 3 cap)) - min n (min K (min 3 cap)) := by
    intro hbt hM
    rw [hbt] at hres
    simp only [if_true] at hres
    rw [g1] at hres
    refine ⟨_, buf, hres, hb, hl, rfl, ?_, ?_, ?_⟩
    · rw [hM]; exact hidx
    · rw [hM]; exact hty
    · rw [hM]
      simp [dpu_stored_by]
  by_cases h3 : n + 1 > 3
  · -- the streak counter is above 3
    rw [if_pos h3] at hiff
    exact stop (hiff.mpr (Or.inl rfl)) (by omega)
  · rw [if_neg h3] at hiff
    by_cases hgrow : n < K ∧ n < cap
    · -- the window is not full of frame-starts: the record is stored
      have hM0 : min n (min K (min 3 cap)) = n := by omega
      have hM1 : min (n + 1) (min K (min 3 cap)) = n + 1 := by omega
      rw [hM0] at hidx hty
      have hbf : b = false := by
        cases b with
        | false => rfl
        | true =>
          exfalso
          obtain hw := (hiff.mp rfl).resolve_left (by simp)
          obtain ⟨-, hw⟩ := hw
          rcases Nat.eq_zero_or_pos n with hz | hp
          · obtain ⟨l, hl0⟩ := hmod (dpu_slot cap
              ((dpu_slot cap decon.d.event_log_idx : Int) + cap - ((0 : Nat) : Int)))
              (dpu_slot_lt cap _ h0)
            have t1 := hw 0 (by omega) l hl0
            have t2 := hty _ l hl0
            rw [if_neg (by omega)] at t2
            rw [t1] at t2
            exact absurd t2 (by decide)
          · have e1 : decon.d.event_log_idx = ((n - 1 : Nat) : Int) := by rw [hidx]; omega
            have e2 : dpu_slot cap ((dpu_slot cap decon.d.event_log_idx : Int) + cap
                - ((n : Nat) : Int)) = cap - 1 := by
              rw [e1, dpu_slot_nat_lt cap (n - 1) (by omega) h1]
              have := dpu_slot_back_wrap cap (n - 1) h0 h1
              have e3 : n - 1 + 1 = n := by omega
              rw [e3] at this
              exact this
            obtain ⟨l, hl0⟩ := hmod (cap - 1) (by omega)
            have t1 := hw n hgrow.1 l (by rw [e2]; exact hl0)
            have t2 := hty _ l hl0
            rw [if_neg (by omega)] at t2
            rw [t1] at t2
            exact absurd t2 (by decide)
      rw [hbf] at hres
      simp only [Bool.false_eq_true, if_false] at hres
      have einc : atomic_inc_return decon.d.event_log_idx = (n : Int) := by
        rw [hidx]; exact atomic_inc_return_nat n (by omega)
      have eslot : dpu_slot cap (atomic_inc_return decon.d.event_log_idx) = n := by
        rw [einc]; exact dpu_slot_nat_lt cap n hgrow.2 h1
      rw [eslot, g1] at hres
      have hst := stored_by_store buf
        (dpu_log_record DPU_EVT_DECON_FRAMESTART env
          { decon with d := { ({ decon.d with auto_refresh_frames := n + 1 } : decon_debug) with
              event_log_idx := atomic_inc_return decon.d.event_log_idx } }
          (buf.getD n dpu_log_zero)) decon
        (dpu_store buf (n : Int)
          (dpu_log_record DPU_EVT_DECON_FRAMESTART env
            { decon with d := { ({ decon.d with auto_refresh_frames := n + 1 } : decon_debug)
                with event_log_idx := atomic_inc_return decon.d.event_log_idx } }
            (buf.getD n dpu_log_zero))
          { decon with d := { ({ decon.d with auto_refresh_frames := n + 1 } : decon_debug) with
              event_log_idx := atomic_inc_return decon.d.event_log_idx } })
        h0 h1 hl rfl (by rw [eslot]; exact dpu_store_event_log buf _ _ _)
      refine ⟨_, _, hres, dpu_store_event_log buf _ _ _, by simpa using hl, rfl, ?_, ?_, ?_⟩
      · rw [hM1]
        show atomic_inc_return decon.d.event_log_idx = _
        rw [einc]; omega
      · intro i l hil
        rw [hM1]
        by_cases hin : i = n
        · subst hin
          rw [List.getElem?_set_eq_of_lt _ (by omega)] at hil
          cases hil
          rw [if_pos (by omega)]
          rfl
        · rw [List.getElem?_set_ne (fun e => hin e.symm)] at hil
          rw [hty i l hil]
          by_cases hi2 : i < n
          · rw [if_pos hi2, if_pos (by omega)]
          · rw [if_neg hi2, if_neg (by omega)]
      · rw [hst, hM0, hM1]
        simp
    · -- the window is full of frame-starts: the call is suppressed
      have hM : min (n + 1) (min K (min 3 cap)) = min n (min K (min 3 cap)) := by omega
      refine stop (hiff.mpr (Or.inr ⟨rfl, ?_⟩)) hM
      intro j hj l hjl
      have t := hty _ l hjl
      by_cases hcK : cap ≤ K
      · have hM2 : min n (min K (min 3 cap)) = cap := by omega
        rw [hM2, if_pos (by
          have := List.getElem?_eq_some_iff.mp hjl
          obtain ⟨hlt, -⟩ := this
          omega)] at t
        exact t
      · have hM2 : min n (min K (min 3 cap)) = K := by omega
        rw [hM2] at hidx t
        have e1 : decon.d.event_log_idx = ((K - 1 : Nat) : Int) := by rw [hidx]; omega
        have e2 : dpu_slot cap ((dpu_slot cap decon.d.event_log_idx : Int) + cap
            - ((j : Nat) : Int)) = K - 1 - j := by
          rw [e1, dpu_slot_nat_lt cap (K - 1) (by omega) h1]
          exact dpu_slot_back cap (K - 1) j h1 (by omega) (by omega)
        rw [e2, if_pos (by omega)] at t
        exact t

theorem framestart_run {cap : Nat} (K max_win : Nat) (ktimes : List Nat)
    (h0 : 0 < cap) (h1 : cap ≤ 2147483647) :
    ∀ (n : Nat) (decon : decon_device) (buf : List dpu_log),
      decon.d.event_log = some buf → buf.length = cap →
      decon.d.auto_refresh_frames = n → n + ktimes.length < 4294967296 →
      decon.d.event_log_idx = ((min n (min K (min 3 cap)) : Nat) : Int) - 1 →
      (∀ i l, buf[i]? = some l →
        l.type = if i < min n (min K (min 3 cap)) then DPU_EVT_DECON_FRAMESTART else 0) →
      ∃ decon1 stored buf1,
        dpu_run cap K max_win (dpu_framestart_calls ktimes) decon = .ok (decon1, stored) ∧
        decon1.d.event_log = some buf1 ∧
        (∀ i l, buf1[i]? = some l →
          l.type = if i < min (n + ktimes.length) (min K (min 3 cap))
                   then DPU_EVT_DECON_FRAMESTART else 0) ∧
        stored.length =
          min (n + ktimes.length) (min K (min 3 cap)) - min n (min K (min 3 cap)) := by
  induction ktimes with
  | nil =>
    intro n decon buf hb _ _ _ _ hty
    exact ⟨decon, [], buf, rfl, hb, by simpa using hty, by simp⟩
  | cons t ts ih =>
    intro n decon buf hb hl harf hn hidx hty
    rw [List.length_cons] at hn
    obtain ⟨d1, b1, hd1, hb1, hl1, harf1, hidx1, hty1, hst1⟩ :=
      framestart_step K n { ktime := t } decon buf h0 h1 hb hl harf (by omega) hidx hty
    obtain ⟨d2, stored, b2, hrun, hb2, hty2, hlen⟩ :=
      ih (n + 1) d1 b1 hb1 hl1 harf1 (by omega) hidx1 hty1
    have e : n + (ts.length + 1) = n + 1 + ts.length := by omega
    refine ⟨d2, (dpu_stored_by cap decon d1).toList ++ stored, b2, ?_, hb2, ?_, ?_⟩
    · unfold dpu_framestart_calls
      rw [List.map_cons, dpu_run_cons]
      simp only [dpu_call.apply, hd1]
      unfold dpu_framestart_calls at hrun
      rw [hrun]
    · rw [List.length_cons, e]; exact hty2
    · rw [List.length_append, hst1, hlen, List.length_cons, e]
      omega

/-- C3, amended: after `total` consecutive frame-start calls on a fresh
buffer (streak counter 0, `total` below 2^32), the records retained are
exactly `min total (min K (min 3 capacity))` frame-starts, in the first slots
of the buffer: never more than K, and never more than 3, the threshold of the
streak counter. The suppressed calls are the others; their number is
`total - K` only when K is at most 3 and at most the capacity. -/
theorem framestart_coalescing (cap K max_win : Nat) (ktimes : List Nat)
    (h0 : 0 < cap) (h1 : cap ≤ 2147483647) (ht : ktimes.length < 4294967296) :
    ∃ decon stored buf,
      dpu_run cap K max_win (dpu_framestart_calls ktimes) (dpu_fresh cap)
        = .ok (decon, stored) ∧
      decon.d.event_log = some buf ∧
      stored.length = min ktimes.length (min K (min 3 cap)) ∧
      stored.length ≤ K ∧
      (∀ i l, buf[i]? = some l →
        (l.type = DPU_EVT_DECON_FRAMESTART ↔ i < min ktimes.length (min K (min 3 cap)))) ∧
      (min K (min 3 cap) < ktimes.length →
        ktimes.length - stored.length = ktimes.length - min K (min 3 cap)) ∧
      (K ≤ 3 → K ≤ cap → K < ktimes.length →
        ktimes.length - stored.length = ktimes.length - K) := by
  obtain ⟨decon, stored, buf, hrun, hb, hty, hlen⟩ :=
    framestart_run K max_win ktimes h0 h1 0 (dpu_fresh cap) (List.replicate cap dpu_log_zero)
      rfl (by simp) rfl (by omega) (by simp [dpu_fresh])
      (by
        intro i l hil
        rw [List.getElem?_replicate] at hil
        split at hil
        · cases hil
          simp [dpu_log_zero]
        · cases hil)
  simp only [Nat.zero_add, Nat.zero_min, Nat.sub_zero] at hty hlen
  refine ⟨decon, stored, buf, hrun, hb, hlen, by omega, ?_, by omega, by omega⟩
  intro i l hil
  rw [hty i l hil]
  by_cases hi : i < min ktimes.length (min K (min 3 cap))
  · simp [hi]
  · simp [hi, DPU_EVT_DECON_FRAMESTART]

/-- A concrete instance: five frame-starts with K = 4 and capacity 8. -/
theorem framestart_coalescing_witness :
    (0 < 8) ∧ (8 ≤ 2147483647) ∧
    ∃ decon stored buf,
      dpu_run 8 4 6 (dpu_framestart_calls [1000000000, 2000000000, 3000000000, 4000000000,
        5000000000]) (dpu_fresh 8) = .ok (decon, stored) ∧
      decon.d.event_log = some buf ∧
      stored.length = min 5 (min 4 (min 3 8)) ∧
      stored.length ≤ 4 :=
  ⟨by decide, by decide,
    match framestart_coalescing 8 4 6 [1000000000, 2000000000, 3000000000, 4000000000,
      5000000000] (by decide) (by decide) (by decide) with
    | ⟨decon, stored, buf, h1, h2, h3, h4, _⟩ => ⟨decon, stored, buf, h1, h2, h3, h4⟩⟩

/-! ### The walk of the replay -/

theorem walk_succ (cap : Nat) (buf : List dpu_log) (latest : Int) (fuel : Nat) (idx : Int) :
    dpu_event_log_walk cap buf latest (fuel + 1) idx =
      match log_at buf (if to_u32 (to_s32 (idx + 1)) ≥ cap then 0 else to_s32 (idx + 1)) with
      | none => .error .out_of_bounds
      | some log =>
        if log.time / NSEC_PER_SEC = 0 then .ok []
        else if latest ≠ (if to_u32 (to_s32 (idx + 1)) ≥ cap then 0 else to_s32 (idx + 1)) then
          match dpu_event_log_walk cap buf latest fuel
              (if to_u32 (to_s32 (idx + 1)) ≥ cap then 0 else to_s32 (idx + 1)) with
          | .error e => .error e
          | .ok rest => .ok (log :: rest)
        else .ok [log] := rfl

/-- The increment `if (++idx >= dpu_event_log_max) idx = 0` on an index inside
the buffer is the successor modulo the capacity. -/
theorem walk_next (cap i : Nat) (h1 : cap ≤ 2147483647) (hi : i < cap) :
    (if to_u32 (to_s32 ((i : Int) + 1)) ≥ cap then (0 : Int) else to_s32 ((i : Int) + 1))
      = (((i + 1) % cap : Nat) : Int) := by
  have e1 : to_s32 ((i : Int) + 1) = ((i + 1 : Nat) : Int) := by
    unfold to_s32 to_u32
    split <;> omega
  have e2 : to_u32 ((i + 1 : Nat) : Int) = i + 1 := by unfold to_u32; omega
  rw [e1, e2]
  by_cases h : i + 1 = cap
  · rw [if_pos (by omega), h, Nat.mod_self]
    rfl
  · rw [if_neg (by omega), Nat.mod_eq_of_lt (by omega)]

theorem ring_succ_add (cap i k : Nat) :
    ((i + 1) % cap + 1 + k) % cap = (i + 1 + (k + 1)) % cap := by
  rw [Nat.add_assoc, Nat.mod_add_mod]
  congr 1
  omega

/-- The walk from index `i` to `latest`, `n + 1` slots further on the ring,
through slots whose time stamps have non-zero seconds, renders these
`n + 1` records in order. -/
theorem walk_visit {cap : Nat} (buf : List dpu_log) (L : Nat) (h0 : 0 < cap)
    (h1 : cap ≤ 2147483647) (hl : buf.length = cap) :
    ∀ (n fuel i : Nat), i < cap → n + 1 ≤ fuel → (i + (n + 1)) % cap = L →
      (∀ k, 1 ≤ k → k ≤ n → (i + k) % cap ≠ L) →
      (∀ k, k ≤ n → ∀ l, buf[(i + 1 + k) % cap]? = some l → l.time / NSEC_PER_SEC ≠ 0) →
      dpu_event_log_walk cap buf (L : Int) fuel (i : Int) =
        .ok ((List.range (n + 1)).map fun k => buf.getD ((i + 1 + k) % cap) dpu_log_zero) := by
  intro n
  induction n with
  | zero =>
    intro fuel i hi hf hL _ hts
    obtain ⟨f, rfl⟩ : ∃ f, fuel = f + 1 := ⟨fuel - 1, by omega⟩
    have hlt : (i + 1) % cap < buf.length := by rw [hl]; exact Nat.mod_lt _ h0
    rw [walk_succ, walk_next cap i h1 hi, log_at_nat, getElem?_getD_of_lt _ _ hlt]
    simp only []
    rw [if_neg (hts 0 (by omega) _ (getElem?_getD_of_lt _ _ hlt))]
    rw [if_neg (by rw [← hL]; simp)]
    rfl
  | succ n ih =>
    intro fuel i hi hf hL hne hts
    obtain ⟨f, rfl⟩ : ∃ f, fuel = f + 1 := ⟨fuel - 1, by omega⟩
    have hlt : (i + 1) % cap < buf.length := by rw [hl]; exact Nat.mod_lt _ h0
    rw [walk_succ, walk_next cap i h1 hi, log_at_nat, getElem?_getD_of_lt _ _ hlt]
    simp only []
    rw [if_neg (hts 0 (by omega) _ (getElem?_getD_of_lt _ _ hlt))]
    have hne1 : (L : Int) ≠ (((i + 1) % cap : Nat) : Int) := by
      have := hne 1 (by omega) (by omega)
      omega
    rw [if_pos hne1]
    have hrec := ih f ((i + 1) % cap) (Nat.mod_lt _ h0) (by omega)
      (by rw [Nat.mod_add_mod]; rw [← hL]; congr 1; omega)
      (fun k hk1 hk2 => by
        rw [Nat.mod_add_mod]
        have := hne (k + 1) (by omega) (by omega)
        rwa [show i + (k + 1) = i + 1 + k by omega] at this)
      (fun k hk l hkl => by
        apply hts (k + 1) (by omega) l
        rwa [ring_succ_add] at hkl)
    rw [hrec]
    simp only []
    rw [List.range_succ_eq_map (n + 1), List.map_cons, List.map_map]
    congr 2
    apply List.map_congr_left
    intro k _
    simp only [Function.comp, Nat.add_zero]
    rw [ring_succ_add]

/-! ### The ring invariant -/

theorem mod_ne_of_lt_of_sub_lt (cap j n : Nat) (hj : j < n) (hd : n - j < cap) :
    j % cap ≠ n % cap := by
  intro h
  have h2 : (n - j) % cap = 0 := Nat.sub_mod_eq_zero_of_mod_eq h.symm
  have h3 : cap ∣ n - j := Nat.dvd_of_mod_eq_zero h2
  have h4 := Nat.le_of_dvd (by omega) h3
  omega

theorem ring_inv_fresh (cap : Nat) : dpu_ring_inv cap (dpu_fresh cap) [] := by
  refine ⟨List.replicate cap dpu_log_zero, rfl, by simp, rfl, ?_, ?_⟩
  · intro j hj
    simp at hj
  · intro j _ hj
    rw [List.getElem?_replicate, if_pos hj]

theorem stored_by_unchanged (cap : Nat) (decon decon1 : decon_device)
    (h : decon1.d.event_log_idx = decon.d.event_log_idx) :
    dpu_stored_by cap decon decon1 = none := by
  unfold dpu_stored_by
  rw [if_pos h]

/-- One call keeps the ring invariant, with the record it stored (if any)
appended to the history; that record carries the clock value of the call. -/
theorem ring_step {cap : Nat} (K max_win : Nat) (c : dpu_call) (decon : decon_device)
    (hr : dpu_log_ready cap decon) :
    ∃ decon1, c.apply cap K max_win decon = .ok decon1 ∧ dpu_log_ready cap decon1 ∧
      (∀ l ∈ (dpu_stored_by cap decon decon1).toList, l.time = c.ktime) ∧
      ∀ pre, dpu_ring_inv cap decon pre →
        pre.length + (dpu_stored_by cap decon decon1).toList.length ≤ 2147483648 →
        dpu_ring_inv cap decon1 (pre ++ (dpu_stored_by cap decon decon1).toList) := by
  obtain ⟨decon1, hres, hr1, heff⟩ := apply_effect K max_win c decon hr
  obtain ⟨h0, h1, _⟩ := hr
  refine ⟨decon1, hres, hr1, ?_, ?_⟩
  · rcases heff with ⟨_, hidx⟩ | ⟨buf, r, hb, hrt, hidx, hlog⟩
    · rw [stored_by_unchanged cap decon decon1 hidx]
      simp
    · obtain ⟨buf', hb', hl'⟩ := ready_buf ⟨h0, h1, by assumption⟩
      rw [hb] at hb'
      cases hb'
      rw [stored_by_store buf r decon decon1 h0 h1 hl' hidx hlog]
      simpa using hrt
  · intro pre hinv hbound
    rcases heff with ⟨hlog, hidx⟩ | ⟨buf, r, hb, hrt, hidx, hlog⟩
    · rw [stored_by_unchanged cap decon decon1 hidx, Option.toList, List.append_nil]
      obtain ⟨buf, hb, hl, hi, hring, hzero⟩ := hinv
      exact ⟨buf, hlog.trans hb, hl, hidx.trans hi, hring, hzero⟩
    · obtain ⟨buf', hb', hl, hi, hring, hzero⟩ := hinv
      rw [hb] at hb'
      cases hb'
      have hst := stored_by_store buf r decon decon1 h0 h1 hl hidx hlog
      rw [hst] at hbound ⊢
      simp only [Option.toList, List.length_cons, List.length_nil] at hbound
      have einc : atomic_inc_return decon.d.event_log_idx = (pre.length : Int) := by
        rw [hi]; exact atomic_inc_return_nat pre.length (by omega)
      have eslot : dpu_slot cap (atomic_inc_return decon.d.event_log_idx)
          = pre.length % cap := by
        rw [einc]; exact dpu_slot_nat cap pre.length (by omega)
      rw [eslot] at hlog
      have hslt : pre.length % cap < buf.length := by rw [hl]; exact Nat.mod_lt _ h0
      refine ⟨_, hlog, by simpa using hl, ?_, ?_, ?_⟩
      · rw [hidx, einc]
        simp only [Option.toList, List.length_append, List.length_cons, List.length_nil]
        omega
      · intro j hj hjc
        simp only [Option.toList, List.length_append, List.length_cons,
          List.length_nil] at hj hjc
        by_cases hjn : j = pre.length
        · subst hjn
          rw [List.getElem?_set_eq_of_lt _ hslt]
          simp [Option.toList]
        · have hjl : j < pre.length := by omega
          have hne := mod_ne_of_lt_of_sub_lt cap j pre.length hjl (by omega)
          rw [List.getElem?_set_ne (fun e => hne e.symm), hring j hjl (by omega)]
          simp only [Option.toList]
          rw [List.getElem?_append_left hjl]
      · intro j hj hjc
        simp only [Option.toList, List.length_append, List.length_cons,
          List.length_nil] at hj
        have hne : pre.length % cap ≠ j := by
          rw [Nat.mod_eq_of_lt (by omega)]
          omega
        rw [List.getElem?_set_ne hne]
        exact hzero j (by omega) hjc

/-- A single-threaded history on an available buffer runs to its end, and
keeps the ring invariant as long as the cursor stays within `int`; every
record it stores carries the clock value of a call. -/
theorem ring_run {cap : Nat} (K max_win : Nat) (calls : List dpu_call) :
    ∀ (decon : decon_device), dpu_log_ready cap decon →
      ∃ decon1 stored, dpu_run cap K max_win calls decon = .ok (decon1, stored) ∧
        dpu_log_ready cap decon1 ∧
        (∀ l ∈ stored, ∃ c ∈ calls, l.time = c.ktime) ∧
        ∀ pre, dpu_ring_inv cap decon pre → pre.length + stored.length ≤ 2147483648 →
          dpu_ring_inv cap decon1 (pre ++ stored) := by
  induction calls with
  | nil =>
    intro decon hr
    exact ⟨decon, [], rfl, hr, by simp, fun pre hinv _ => by simpa using hinv⟩
  | cons c cs ih =>
    intro decon hr
    obtain ⟨d1, hd1, hr1, ht1, hstep⟩ := ring_step K max_win c decon hr
    obtain ⟨d2, stored, hrun, hr2, ht2, hrest⟩ := ih d1 hr1
    refine ⟨d2, (dpu_stored_by cap decon d1).toList ++ stored, ?_, hr2, ?_, ?_⟩
    · rw [dpu_run_cons]
      simp only [hd1, hrun]
    · intro l hl
      rcases List.mem_append.mp hl with h | h
      · exact ⟨c, List.mem_cons_self _ _, ht1 l h⟩
      · obtain ⟨c', hc', hlc⟩ := ht2 l h
        exact ⟨c', List.mem_cons_of_mem _ hc', hlc⟩
    · intro pre hinv hbound
      rw [List.length_append] at hbound
      have h1 := hstep pre hinv (by omega)
      have h2 := hrest _ h1 (by rw [List.length_append]; omega)
      rwa [List.append_assoc] at h2

/-! ### Replay of the most recent records -/

theorem start_of_cursor (cap len m : Nat) (h0 : 0 < cap) (h1 : cap ≤ 2147483647)
    (hm : m ≤ cap) (hlen : m < len) (hb : len ≤ 2147483648) :
    dpu_event_log_start cap ((len : Int) - 1) m = (((len - 1 - m) % cap : Nat) : Int) := by
  have e1 : to_u64 ((len : Int) - 1) = len - 1 := by unfold to_u64; omega
  have e2 : to_u64 ((len : Int) - 1 - (m : Int)) = len - 1 - m := by unfold to_u64; omega
  have em : (if m > cap then cap else m) = m := if_neg (by omega)
  unfold dpu_event_log_start
  simp only [em]
  rw [e1, if_neg (by omega), e2]
  exact to_s32_slot cap _ h0 h1

theorem ring_slot_add (cap len m k : Nat) (hlen : m < len) :
    ((len - 1 - m) % cap + 1 + k) % cap = (len - m + k) % cap := by
  rw [Nat.add_assoc, Nat.mod_add_mod]
  congr 1
  omega

/-- On a device that satisfies the ring invariant for a history of more than
`m` records (`1 ≤ m ≤ capacity`, cursor within `int`) with time stamps of at
least one second, the replay visits exactly the `m` most recent records,
oldest first. -/
theorem ring_visit {cap : Nat} (decon : decon_device) (stored : List dpu_log) (m : Nat)
    (h0 : 0 < cap) (h1 : cap ≤ 2147483647) (hinv : dpu_ring_inv cap decon stored)
    (hm1 : 1 ≤ m) (hm : m ≤ cap) (hlen : m < stored.length)
    (hb : stored.length ≤ 2147483648) (hts : ∀ l ∈ stored, NSEC_PER_SEC ≤ l.time) :
    dpu_event_log_visit cap decon m = .ok (some (stored.drop (stored.length - m))) := by
  obtain ⟨buf, hlog, hl, hidx, hring, -⟩ := hinv
  have hc : cap ≠ 0 := Nat.pos_iff_ne_zero.mp h0
  have eidx : decon.d.event_log_idx = ((stored.length - 1 : Nat) : Int) := by
    rw [hidx]; omega
  have elatest : to_s32 (dpu_slot cap decon.d.event_log_idx : Int)
      = (((stored.length - 1) % cap : Nat) : Int) := by
    rw [to_s32_dpu_slot cap _ h0 h1, eidx, dpu_slot_nat cap _ (by omega)]
  have estart := start_of_cursor cap stored.length m h0 h1 hm hlen hb
  rw [← hidx] at estart
  -- the slots the walk visits hold the last `m` records
  have hslot : ∀ k, k < m →
      buf[((stored.length - 1 - m) % cap + 1 + k) % cap]? = stored[stored.length - m + k]? := by
    intro k hk
    rw [ring_slot_add cap stored.length m k hlen]
    exact hring (stored.length - m + k) (by omega) (by omega)
  obtain ⟨n, rfl⟩ : ∃ n, m = n + 1 := ⟨m - 1, by omega⟩
  have hwalk := walk_visit buf ((stored.length - 1) % cap) h0 h1 hl n cap
    ((stored.length - 1 - (n + 1)) % cap) (Nat.mod_lt _ h0) hm
    (by rw [Nat.mod_add_mod]; congr 1; omega)
    (fun k hk1 hk2 => by
      rw [Nat.mod_add_mod]
      exact mod_ne_of_lt_of_sub_lt cap _ _ (by omega) (by omega))
    (fun k hk l hkl => by
      rw [hslot k (by omega)] at hkl
      have hmem : l ∈ stored := List.getElem?_mem hkl
      have := hts l hmem
      have hpos : 0 < l.time / NSEC_PER_SEC := Nat.div_pos this (by decide)
      omega)
  unfold dpu_event_log_visit
  rw [if_neg hc]
  simp only [hlog, elatest, estart, hwalk]
  congr 2
  apply List.ext_getElem?
  intro k
  rw [List.getElem?_map, List.getElem?_drop]
  by_cases hk : k < n + 1
  · rw [List.getElem?_range hk, Option.map_some']
    have h2 := hslot k hk
    have hj : stored.length - (n + 1) + k < stored.length := by omega
    rw [List.getElem?_eq_getElem hj] at h2 ⊢
    rw [List.getD_eq_getElem?_getD, h2]
    rfl
  · rw [List.getElem?_eq_none (by simpa using hk), Option.map_none',
      List.getElem?_eq_none (by omega)]

theorem event_lines_atomic (max_win : Nat) (win_config : List dpu_log_win) :
    dpu_event_lines (dpu_print_log_atomic max_win win_config) = [] := by
  unfold dpu_event_lines dpu_print_log_atomic
  rw [List.filter_eq_nil_iff]
  intro x hx
  rw [List.mem_filterMap] at hx
  obtain ⟨i, -, hi⟩ := hx
  simp only [] at hi
  split at hi
  · cases hi
  · cases hi
    simp

theorem event_lines_log (max_win : Nat) (log : dpu_log) :
    dpu_event_lines (dpu_log_lines max_win log) = [dpu_event_line log] := by
  have h := event_lines_atomic max_win log.data.atomic_win_config
  unfold dpu_log_lines
  unfold dpu_event_lines at h ⊢
  rw [List.filter_cons]
  simp only [dpu_event_line, if_true]
  split
  · rw [h]
  · rfl

theorem event_lines_logs (max_win : Nat) (logs : List dpu_log) :
    dpu_event_lines ((logs.map (dpu_log_lines max_win)).flatten) = logs.map dpu_event_line := by
  induction logs with
  | nil => rfl
  | cons l ls ih =>
    have h := event_lines_log max_win l
    unfold dpu_event_lines at h ih ⊢
    rw [List.map_cons, List.flatten_cons, List.filter_append, h, ih]
    rfl

/-- The event lines of a report are the event lines of the records the replay
visited, one for each, in the same order. -/
theorem event_lines_report (max_win : Nat) (logs : List dpu_log) :
    dpu_event_lines ([dpu_line.rule, dpu_line.title, dpu_line.rule]
      ++ (logs.map (dpu_log_lines max_win)).flatten ++ [dpu_line.rule])
      = logs.map dpu_event_line := by
  have h := event_lines_logs max_win logs
  unfold dpu_event_lines at h ⊢
  rw [List.filter_append, List.filter_append, h]
  simp

theorem print_of_visit (cap max_win max_logs : Nat) (decon : decon_device)
    (logs : List dpu_log) (h : dpu_event_log_visit cap decon max_logs = .ok (some logs)) :
    dpu_event_log_print cap max_win decon max_logs =
      .ok ([dpu_line.rule, dpu_line.title, dpu_line.rule]
        ++ (logs.map (dpu_log_lines max_win)).flatten ++ [dpu_line.rule]) := by
  unfold dpu_event_log_print
  rw [h]

/-- C2, amended: a single-threaded history on a fresh buffer whose calls all
read a clock of at least one second; if it stored more than `capacity`
records (and at most 2^31, so that the `int` cursor has not wrapped),
`dpu_event_log_print` with `max_logs = capacity` renders exactly the
`capacity` most recently stored records, oldest first and most recent last:
`capacity` event lines. -/
theorem replay_after_wrap (cap K max_win : Nat) (calls : List dpu_call)
    (h0 : 0 < cap) (h1 : cap ≤ 2147483647) (hk : ∀ c ∈ calls, NSEC_PER_SEC ≤ c.ktime) :
    ∃ decon stored,
      dpu_run cap K max_win calls (dpu_fresh cap) = .ok (decon, stored) ∧
      (cap < stored.length → stored.length ≤ 2147483648 →
        ∃ report,
          dpu_event_log_print cap max_win decon cap = .ok report ∧
          report = [dpu_line.rule, dpu_line.title, dpu_line.rule]
            ++ ((stored.drop (stored.length - cap)).map (dpu_log_lines max_win)).flatten
            ++ [dpu_line.rule] ∧
          dpu_event_lines report = (stored.drop (stored.length - cap)).map dpu_event_line ∧
          (dpu_event_lines report).length = cap) := by
  obtain ⟨decon, stored, hrun, -, htime, hinv⟩ :=
    ring_run K max_win calls (dpu_fresh cap) ⟨h0, h1, by simp [dpu_fresh]⟩
  refine ⟨decon, stored, hrun, fun hlen hb => ?_⟩
  have hring := hinv [] (ring_inv_fresh cap) (by simpa using hb)
  rw [List.nil_append] at hring
  have hts : ∀ l ∈ stored, NSEC_PER_SEC ≤ l.time := by
    intro l hl
    obtain ⟨c, hc, hlc⟩ := htime l hl
    rw [hlc]
    exact hk c hc
  have hv := ring_visit decon stored cap h0 h1 hring h0 (Nat.le_refl _) hlen hb hts
  refine ⟨_, print_of_visit cap max_win cap decon _ hv, rfl, event_lines_report _ _, ?_⟩
  rw [event_lines_report, List.length_map, List.length_drop]
  omega

/-- A concrete instance: three records on a buffer of capacity 2. -/
theorem replay_after_wrap_witness :
    (0 < 2) ∧ (2 ≤ 2147483647) ∧
    ∃ decon stored,
      dpu_run 2 4 6
        [.log DPU_EVT_DECON_ENABLED 0 { ktime := 1000000000 },
         .log DPU_EVT_DSIM_ENABLED 0 { ktime := 2000000000 },
         .log DPU_EVT_PLANE_UPDATE 0 { ktime := 3000000000 }] (dpu_fresh 2)
        = .ok (decon, stored) ∧
      (2 < stored.length → stored.length ≤ 2147483648 →
        ∃ report,
          dpu_event_log_print 2 6 decon 2 = .ok report ∧
          report = [dpu_line.rule, dpu_line.title, dpu_line.rule]
            ++ ((stored.drop (stored.length - 2)).map (dpu_log_lines 6)).flatten
            ++ [dpu_line.rule] ∧
          dpu_event_lines report = (stored.drop (stored.length - 2)).map dpu_event_line ∧
          (dpu_event_lines report).length = 2) :=
  ⟨by decide, by decide,
    replay_after_wrap 2 4 6
      [.log DPU_EVT_DECON_ENABLED 0 { ktime := 1000000000 },
       .log DPU_EVT_DSIM_ENABLED 0 { ktime := 2000000000 },
       .log DPU_EVT_PLANE_UPDATE 0 { ktime := 3000000000 }]
      (by decide) (by decide) (by
        intro c hc
        simp only [List.mem_cons, List.mem_singleton, List.not_mem_nil, or_false] at hc
        rcases hc with rfl | rfl | rfl <;> decide)⟩

/-- Records stamped within the first second: with capacity 2, three records
stored at 0.1 s, 0.2 s and 0.3 s exceed the capacity, and
`dpu_event_log_print` with `max_logs = 2` renders none of them: the walk
tests `tv_sec` and stops at the first record it visits, although that record
has a time stamp. -/
theorem replay_stops_at_subsecond_stamp :
    ¬ ∃ stored report,
        dpu_replay 2 4 6
          [.log DPU_EVT_DECON_ENABLED 0 { ktime := 100000000 },
           .log DPU_EVT_DSIM_ENABLED 0 { ktime := 200000000 },
           .log DPU_EVT_PLANE_UPDATE 0 { ktime := 300000000 }] (dpu_fresh 2) 2
          = .ok (stored, report) ∧
        (dpu_event_lines report).length = 2 := by
  rintro ⟨stored, report, h, h2⟩
  have e : (dpu_replay 2 4 6
      [.log DPU_EVT_DECON_ENABLED 0 { ktime := 100000000 },
       .log DPU_EVT_DSIM_ENABLED 0 { ktime := 200000000 },
       .log DPU_EVT_PLANE_UPDATE 0 { ktime := 300000000 }] (dpu_fresh 2) 2).map
      (fun r => (r.1.length, (dpu_event_lines r.2).length)) = .ok (3, 0) := rfl
  rw [h] at e
  simp only [Except.map, Except.ok.injEq, Prod.mk.injEq] at e
  omega

/-- On a device that satisfies the ring invariant for a history of at most
`min max_logs capacity` records (capacity at least 2, time stamps of at least
one second), the replay visits the stored records except the first one: the
walk starts at slot 1. -/
theorem ring_visit_short {cap : Nat} (decon : decon_device) (stored : List dpu_log)
    (m : Nat) (h2 : 2 ≤ cap) (h1 : cap ≤ 2147483647) (hinv : dpu_ring_inv cap decon stored)
    (hlen1 : 1 ≤ stored.length) (hlenm : stored.length ≤ m) (hlenc : stored.length ≤ cap)
    (hts : ∀ l ∈ stored, NSEC_PER_SEC ≤ l.time) :
    dpu_event_log_visit cap decon m = .ok (some stored.tail) := by
  obtain ⟨buf, hlog, hl, hidx, hring, hzero⟩ := hinv
  have h0 : 0 < cap := by omega
  have hc : cap ≠ 0 := Nat.pos_iff_ne_zero.mp h0
  have eidx : decon.d.event_log_idx = ((stored.length - 1 : Nat) : Int) := by
    rw [hidx]; omega
  have elatest : to_s32 (dpu_slot cap decon.d.event_log_idx : Int)
      = ((stored.length - 1 : Nat) : Int) := by
    rw [to_s32_dpu_slot cap _ h0 h1, eidx, dpu_slot_nat_lt cap _ (by omega) h1]
  have estart : dpu_event_log_start cap decon.d.event_log_idx m = ((0 : Nat) : Int) := by
    have e1 : to_u64 (((stored.length - 1 : Nat) : Int)) = stored.length - 1 := by
      unfold to_u64; omega
    unfold dpu_event_log_start
    simp only []
    rw [eidx, e1, if_pos (by split <;> omega)]
    rfl
  unfold dpu_event_log_visit
  rw [if_neg hc]
  simp only [hlog, elatest, estart]
  by_cases hone : stored.length = 1
  · -- a single record: slot 1 has never been written
    obtain ⟨f, hf⟩ : ∃ f, cap = f + 1 := ⟨cap - 1, by omega⟩
    have hw : dpu_event_log_walk cap buf ((stored.length - 1 : Nat) : Int) (f + 1)
        ((0 : Nat) : Int) = .ok [] := by
      rw [walk_succ, walk_next cap 0 h1 h0, log_at_nat,
        Nat.mod_eq_of_lt (by omega : 0 + 1 < cap), hzero 1 (by omega) (by omega)]
      rfl
    have hw2 : dpu_event_log_walk cap buf ((stored.length - 1 : Nat) : Int) cap
        ((0 : Nat) : Int) = .ok [] := by
      rw [hf] at hw ⊢
      exact hw
    rw [hw2]
    have : stored.tail = [] := by
      cases stored with
      | nil => rfl
      | cons a t =>
        simp only [List.length_cons] at hone
        have : t = [] := List.eq_nil_of_length_eq_zero (by omega)
        rw [this]
        rfl
    rw [this]
  · obtain ⟨n, hn⟩ : ∃ n, stored.length - 1 = n + 1 := ⟨stored.length - 2, by omega⟩
    have hslot : ∀ k, k ≤ n → buf[(0 + 1 + k) % cap]? = stored[k + 1]? := by
      intro k hk
      have e : (0 + 1 + k) % cap = (k + 1) % cap := by congr 1; omega
      rw [e]
      exact hring (k + 1) (by omega) (by omega)
    have hwalk := walk_visit buf (stored.length - 1) h0 h1 hl n cap 0 h0 (by omega)
      (by rw [Nat.zero_add, ← hn]; exact Nat.mod_eq_of_lt (by omega))
      (fun k hk1 hk2 => by
        rw [Nat.zero_add, Nat.mod_eq_of_lt (by omega)]
        omega)
      (fun k hk l hkl => by
        rw [hslot k hk] at hkl
        have hmem : l ∈ stored := List.getElem?_mem hkl
        have := hts l hmem
        have hpos : 0 < l.time / NSEC_PER_SEC := Nat.div_pos this (by decide)
        omega)
    rw [hwalk]
    simp only []
    congr 2
    apply List.ext_getElem?
    intro k
    rw [List.getElem?_map, ← List.drop_one, List.getElem?_drop]
    by_cases hk : k < n + 1
    · rw [List.getElem?_range hk, Option.map_some']
      have h3 := hslot k (by omega)
      have hj : k + 1 < stored.length := by omega
      rw [List.getElem?_eq_getElem hj] at h3
      rw [List.getD_eq_getElem?_getD, h3, Nat.add_comm 1 k, List.getElem?_eq_getElem hj]
      rfl
    · rw [List.getElem?_eq_none (by simpa using hk), Option.map_none',
        List.getElem?_eq_none (by omega)]

/-- The replay of a history that has not filled the window asked for: with a
capacity of at least 2, after at most `min max_logs capacity` stored records
(at least one), all stamped with at least one second, `dpu_event_log_print`
renders every stored record but the oldest. -/
theorem print_drops_oldest_record (cap K max_win max_logs : Nat) (calls : List dpu_call)
    (h2 : 2 ≤ cap) (h1 : cap ≤ 2147483647) (hk : ∀ c ∈ calls, NSEC_PER_SEC ≤ c.ktime) :
    ∃ decon stored,
      dpu_run cap K max_win calls (dpu_fresh cap) = .ok (decon, stored) ∧
      (1 ≤ stored.length → stored.length ≤ max_logs → stored.length ≤ cap →
        ∃ report,
          dpu_event_log_print cap max_win decon max_logs = .ok report ∧
          dpu_event_lines report = stored.tail.map dpu_event_line ∧
          (dpu_event_lines report).length = stored.length - 1) := by
  obtain ⟨decon, stored, hrun, -, htime, hinv⟩ :=
    ring_run K max_win calls (dpu_fresh cap) ⟨by omega, h1, by simp [dpu_fresh]⟩
  refine ⟨decon, stored, hrun, fun hl1 hlm hlc => ?_⟩
  have hring := hinv [] (ring_inv_fresh cap) (by simp; omega)
  rw [List.nil_append] at hring
  have hts : ∀ l ∈ stored, NSEC_PER_SEC ≤ l.time := by
    intro l hl
    obtain ⟨c, hc, hlc⟩ := htime l hl
    rw [hlc]
    exact hk c hc
  have hv := ring_visit_short decon stored max_logs h2 h1 hring hl1 hlm hlc hts
  refine ⟨_, print_of_visit cap max_win max_logs decon _ hv, event_lines_report _ _, ?_⟩
  rw [event_lines_report, List.length_map, List.length_tail]

/-! ### The streak cut-off -/

theorem gate_cutoff (type : Nat) (d : decon_debug)
    (h : (type = DPU_EVT_DECON_FRAMESTART ∧ (d.auto_refresh_frames + 1) % 4294967296 > 3) ∨
      ((type = DPU_EVT_DECON_FRAMEDONE ∨ type = DPU_EVT_DPP_FRAMEDONE
          ∨ type = DPU_EVT_DSIM_FRAMEDONE) ∧ d.auto_refresh_frames > 3)) :
    (dpu_event_log_gate type d).2 = none := by
  rcases h with ⟨rfl, h⟩ | ⟨h1, h⟩
  · rw [(gate_framestart d).2, if_pos h]
  · unfold dpu_event_log_gate
    have hne : type ≠ DPU_EVT_DECON_FRAMESTART := by
      rcases h1 with rfl | rfl | rfl <;> decide
    simp only [if_neg hne, if_pos h1, if_pos h]

/-- C20: when the streak counter exceeds 3 (for a frame-start, after the
increment of the call itself), a `DPU_EVENT_LOG` call of type frame-start or
frame-done (DECON, DPP, DSIM) returns with the buffer and the write cursor as
they were, whatever the buffer holds. -/
theorem streak_cutoff (dpu_event_log_max keep_cnt type : Nat) (index : Int) (env : dpu_env)
    (decon : decon_device)
    (h : (type = DPU_EVT_DECON_FRAMESTART ∧
        (decon.d.auto_refresh_frames + 1) % 4294967296 > 3) ∨
      ((type = DPU_EVT_DECON_FRAMEDONE ∨ type = DPU_EVT_DPP_FRAMEDONE
          ∨ type = DPU_EVT_DSIM_FRAMEDONE) ∧ decon.d.auto_refresh_frames > 3)) :
    ∃ decon1, DPU_EVENT_LOG dpu_event_log_max keep_cnt type index env decon = .ok decon1 ∧
      decon1.d.event_log = decon.d.event_log ∧
      decon1.d.event_log_idx = decon.d.event_log_idx := by
  have hg := gate_cutoff type decon.d h
  obtain ⟨g1, g2, -⟩ := gate_frame type decon.d
  unfold DPU_EVENT_LOG
  by_cases hi : index < 0
  · rw [if_pos hi]
    exact ⟨decon, rfl, rfl, rfl⟩
  · rw [if_neg hi]
    cases hb : decon.d.event_log with
    | none => exact ⟨decon, rfl, hb, rfl⟩
    | some buf =>
      simp only []
      rcases hgate : dpu_event_log_gate type decon.d with ⟨d1, o⟩
      rw [hgate] at hg g1 g2
      simp only at hg g1 g2
      subst hg
      exact ⟨_, rfl, g1.trans hb, g2⟩

/-- A concrete instance: a fifth frame-start and a frame-done after four
frame-starts on a buffer of capacity 8. -/
theorem streak_cutoff_witness :
    ((DPU_EVT_DECON_FRAMESTART = DPU_EVT_DECON_FRAMESTART ∧
        (({ dpu_fresh 8 with d := { (dpu_fresh 8).d with auto_refresh_frames := 4 } }
          : decon_device).d.auto_refresh_frames + 1) % 4294967296 > 3) ∨
      ((DPU_EVT_DECON_FRAMESTART = DPU_EVT_DECON_FRAMEDONE
          ∨ DPU_EVT_DECON_FRAMESTART = DPU_EVT_DPP_FRAMEDONE
          ∨ DPU_EVT_DECON_FRAMESTART = DPU_EVT_DSIM_FRAMEDONE) ∧
        ({ dpu_fresh 8 with d := { (dpu_fresh 8).d with auto_refresh_frames := 4 } }
          : decon_device).d.auto_refresh_frames > 3)) ∧
    ∃ decon1, DPU_EVENT_LOG 8 3 DPU_EVT_DECON_FRAMESTART 0 { ktime := 5000000000 }
        { dpu_fresh 8 with d := { (dpu_fresh 8).d with auto_refresh_frames := 4 } }
        = .ok decon1 ∧
      decon1.d.event_log = (dpu_fresh 8).d.event_log ∧
      decon1.d.event_log_idx = (dpu_fresh 8).d.event_log_idx :=
  ⟨Or.inl ⟨rfl, by decide⟩,
   streak_cutoff 8 3 DPU_EVT_DECON_FRAMESTART 0 { ktime := 5000000000 }
     { dpu_fresh 8 with d := { (dpu_fresh 8).d with auto_refresh_frames := 4 } }
     (Or.inl ⟨rfl, by decide⟩)⟩

/-! ### Types that are never coalesced -/

theorem gate_plain (type : Nat) (d : decon_debug)
    (ht : type ≠ DPU_EVT_DECON_FRAMESTART ∧ type ≠ DPU_EVT_DECON_FRAMEDONE ∧
      type ≠ DPU_EVT_DPP_FRAMEDONE ∧ type ≠ DPU_EVT_DSIM_FRAMEDONE ∧
      type ≠ DPU_EVT_TE_INTERRUPT ∧ type ≠ DPU_EVT_DSIM_UNDERRUN ∧
      type ≠ DPU_EVT_DSIM_CRC ∧ type ≠ DPU_EVT_DSIM_ECC) :
    dpu_event_log_gate type d = (d, some false) := by
  obtain ⟨h1, h2, h3, h4, h5, h6, h7, h8⟩ := ht
  unfold dpu_event_log_gate
  rw [if_neg h1, if_neg (by simp [h2, h3, h4]), if_neg h5, if_neg h6, if_neg h7, if_neg h8]

/-- C19, amended: a `DPU_EVENT_LOG` call (available buffer, index at least 0)
of a type other than frame-start, the three frame-done types, TE interrupt
and the three error types DSIM_UNDERRUN, DSIM_CRC, DSIM_ECC is never
suppressed: it advances the write cursor by one claim (plus one, wrapping at
`INT_MAX`) and stores a record of that type, stamped with the clock of the
call, in the slot of the new cursor, whatever the buffer holds. -/
theorem plain_type_stored (cap K type : Nat) (index : Int) (env : dpu_env)
    (decon : decon_device) (hr : dpu_log_ready cap decon) (hi : 0 ≤ index)
    (ht : type ≠ DPU_EVT_DECON_FRAMESTART ∧ type ≠ DPU_EVT_DECON_FRAMEDONE ∧
      type ≠ DPU_EVT_DPP_FRAMEDONE ∧ type ≠ DPU_EVT_DSIM_FRAMEDONE ∧
      type ≠ DPU_EVT_TE_INTERRUPT ∧ type ≠ DPU_EVT_DSIM_UNDERRUN ∧
      type ≠ DPU_EVT_DSIM_CRC ∧ type ≠ DPU_EVT_DSIM_ECC) :
    ∃ decon1 log,
      DPU_EVENT_LOG cap K type index env decon = .ok decon1 ∧
      decon1.d.event_log_idx = atomic_inc_return decon.d.event_log_idx ∧
      (-2147483648 ≤ decon.d.event_log_idx → decon.d.event_log_idx < 2147483647 →
        decon1.d.event_log_idx = decon.d.event_log_idx + 1) ∧
      dpu_stored_by cap decon decon1 = some log ∧
      log.type = type ∧ log.time = env.ktime := by
  obtain ⟨buf, hb, hl⟩ := ready_buf hr
  obtain ⟨h0, h1, _⟩ := hr
  obtain ⟨b, hres, hiff⟩ :=
    DPU_EVENT_LOG_cases K type index env decon h0 h1 hl hb (not_lt.mpr hi)
  have hg := gate_plain type decon.d ht
  rw [hg] at hiff hres
  have hbf : b = false := by
    cases b with
    | false => rfl
    | true =>
      exfalso
      rcases hiff.mp rfl with h | ⟨h, -⟩
      · cases h
      · cases h
  rw [hbf] at hres
  simp only [Bool.false_eq_true, if_false] at hres
  refine ⟨_, dpu_log_record type env
      { decon with d := { decon.d with
          event_log_idx := atomic_inc_return decon.d.event_log_idx } }
      (buf.getD (dpu_slot cap (atomic_inc_return decon.d.event_log_idx)) dpu_log_zero),
    hres, rfl, ?_, ?_, rfl, rfl⟩
  · intro hlo hhi
    show atomic_inc_return decon.d.event_log_idx = _
    unfold atomic_inc_return to_s32 to_u32
    split <;> omega
  · exact stored_by_store buf _ decon _ h0 h1 hl rfl (dpu_store_event_log buf _ _ _)

/-- A concrete instance: `DPU_EVT_DECON_ENABLED` on a fresh buffer of capacity 8. -/
theorem plain_type_stored_witness :
    dpu_log_ready 8 (dpu_fresh 8) ∧ (0 : Int) ≤ 0 ∧
    ∃ decon1 log,
      DPU_EVENT_LOG 8 3 DPU_EVT_DECON_ENABLED 0 { ktime := 1000000000 } (dpu_fresh 8)
        = .ok decon1 ∧
      decon1.d.event_log_idx = atomic_inc_return (dpu_fresh 8).d.event_log_idx ∧
      dpu_stored_by 8 (dpu_fresh 8) decon1 = some log ∧
      log.type = DPU_EVT_DECON_ENABLED :=
  ⟨by decide, by decide,
    match plain_type_stored 8 3 DPU_EVT_DECON_ENABLED 0 { ktime := 1000000000 } (dpu_fresh 8)
      (by decide) (by decide) (by decide) with
    | ⟨decon1, log, h1, h2, _, h4, h5, _⟩ => ⟨decon1, log, h1, h2, h4, h5⟩⟩

/-- C19, as stated, fails for the error types: with K = 3 and capacity 8, the
fourth of four consecutive underruns on a fresh buffer is suppressed, so four
calls store three records. -/
theorem underrun_is_coalesced :
    ¬ ∃ decon stored,
        dpu_run 8 3 6
          [.log DPU_EVT_DSIM_UNDERRUN 0 { ktime := 1000000000 },
           .log DPU_EVT_DSIM_UNDERRUN 0 { ktime := 2000000000 },
           .log DPU_EVT_DSIM_UNDERRUN 0 { ktime := 3000000000 },
           .log DPU_EVT_DSIM_UNDERRUN 0 { ktime := 4000000000 }] (dpu_fresh 8)
          = .ok (decon, stored) ∧
        stored.length = 4 := by
  rintro ⟨decon, stored, h, h4⟩
  have e : (dpu_run 8 3 6
      [.log DPU_EVT_DSIM_UNDERRUN 0 { ktime := 1000000000 },
       .log DPU_EVT_DSIM_UNDERRUN 0 { ktime := 2000000000 },
       .log DPU_EVT_DSIM_UNDERRUN 0 { ktime := 3000000000 },
       .log DPU_EVT_DSIM_UNDERRUN 0 { ktime := 4000000000 }] (dpu_fresh 8)).map
      (fun r => r.2.length) = .ok 3 := rfl
  rw [h] at e
  simp only [Except.map, Except.ok.injEq] at e
  omega

/-! ### The window of `dpu_event_ignore` -/

theorem ring_back (cap L r : Nat) (hL : L < cap) (hr : r ≤ L + cap) :
    (L + cap - r) % cap = if r ≤ L then L - r else L + cap - r := by
  by_cases h : r ≤ L
  · rw [if_pos h]
    have e : L + cap - r = L - r + cap := by omega
    rw [e, Nat.add_mod_right, Nat.mod_eq_of_lt (by omega)]
  · rw [if_neg h, Nat.mod_eq_of_lt (by omega)]

theorem dpu_slot_back_any (cap L j : Nat) (h1 : cap ≤ 2147483647) (hL : L < cap)
    (hj : j ≤ L + cap) :
    dpu_slot cap ((L : Int) + cap - j) = if j ≤ L then L - j else L + cap - j := by
  have e : (L : Int) + cap - j = ((L + cap - j : Nat) : Int) := by omega
  rw [e, dpu_slot_nat cap _ (by omega), ring_back cap L j hL hj]

/-- C18: on an available buffer `dpu_event_ignore(type)` returns true exactly
when each of the `K = DPU_EVENT_KEEP_CNT` records before the cursor, the ones
in slots `latest`, `latest - 1`, ..., `latest - K + 1` modulo the capacity
(`latest` being the cursor modulo the capacity), has the type `type`; one
record of another type in that window makes it return false. The slot
`latest - j` modulo the capacity is written in natural numbers,
`(latest + capacity - j % capacity) % capacity`. -/
theorem ignore_window (cap K type : Nat) (decon : decon_device)
    (hr : dpu_log_ready cap decon) :
    ∃ (b : Bool) (buf : List dpu_log),
      dpu_event_ignore cap K type decon.d = .ok b ∧ decon.d.event_log = some buf ∧
      (b = true ↔ ∀ j, j < K → ∀ l,
        buf[(dpu_slot cap decon.d.event_log_idx + cap - j % cap) % cap]? = some l →
          l.type = type) ∧
      (b = false ↔ ∃ j, j < K ∧ ∃ l,
        buf[(dpu_slot cap decon.d.event_log_idx + cap - j % cap) % cap]? = some l ∧
          l.type ≠ type) := by
  obtain ⟨buf, hb, hl⟩ := ready_buf hr
  obtain ⟨h0, h1, _⟩ := hr
  obtain ⟨b, hres, hiff⟩ := ignore_ok buf K type decon.d h0 h1 hl hb
  have hL : dpu_slot cap decon.d.event_log_idx < cap := dpu_slot_lt cap _ h0
  generalize dpu_slot cap decon.d.event_log_idx = L at hiff hL ⊢
  have hmath : ∀ j, (L + cap - j % cap) % cap
      = if j % cap ≤ L then L - j % cap else L + cap - j % cap := fun j =>
    ring_back cap L (j % cap) hL (by have := Nat.mod_lt j h0; omega)
  have hmain : b = true ↔ ∀ j, j < K → ∀ l,
      buf[(L + cap - j % cap) % cap]? = some l → l.type = type := by
    rw [hiff]
    constructor
    · intro h j hj l hjl
      have hr1 : j % cap < cap := Nat.mod_lt j h0
      have hr2 : j % cap ≤ j := Nat.mod_le j cap
      apply h (j % cap) (by omega) l
      rw [dpu_slot_back_any cap L (j % cap) h1 hL (by omega)]
      rw [hmath j] at hjl
      exact hjl
    · intro h j hj l hjl
      by_cases hjc : j ≤ L + cap
      · rw [dpu_slot_back_any cap L j h1 hL hjc] at hjl
        apply h j hj l
        rw [hmath j]
        by_cases hj1 : j < cap
        · rw [Nat.mod_eq_of_lt hj1]
          exact hjl
        · have e : j % cap = j - cap := by
            rw [Nat.mod_eq_sub_mod (by omega), Nat.mod_eq_of_lt (by omega)]
          rw [e, if_pos (by omega)]
          rw [if_neg (by omega)] at hjl
          have e2 : L - (j - cap) = L + cap - j := by omega
          rw [e2]
          exact hjl
      · -- the window is longer than the ring: every slot belongs to it
        have ht : dpu_slot cap ((L : Int) + cap - j) < cap := dpu_slot_lt cap _ h0
        generalize dpu_slot cap ((L : Int) + cap - j) = t at hjl ht
        by_cases htL : t ≤ L
        · apply h (L - t) (by omega) l
          rw [hmath, Nat.mod_eq_of_lt (by omega), if_pos (by omega)]
          have e : L - (L - t) = t := by omega
          rw [e]
          exact hjl
        · apply h (L + cap - t) (by omega) l
          rw [hmath, Nat.mod_eq_of_lt (by omega), if_neg (by omega)]
          have e : L + cap - (L + cap - t) = t := by omega
          rw [e]
          exact hjl
  refine ⟨b, buf, hres, hb, hmain, ?_⟩
  constructor
  · intro hbf
    by_contra hne
    have : b = true := hmain.mpr (by
      intro j hj l hjl
      by_contra hlt
      exact hne ⟨j, hj, l, hjl, hlt⟩)
    rw [hbf] at this
    cases this
  · rintro ⟨j, hj, l, hjl, hlt⟩
    cases hbt : b with
    | false => rfl
    | true => exact absurd (hmain.mp hbt j hj l hjl) hlt

/-- A concrete instance: the window on a fresh buffer of capacity 8, K = 3. -/
theorem ignore_window_witness :
    dpu_log_ready 8 (dpu_fresh 8) ∧
    ∃ (b : Bool) (buf : List dpu_log),
      dpu_event_ignore 8 3 DPU_EVT_TE_INTERRUPT (dpu_fresh 8).d = .ok b ∧
      (dpu_fresh 8).d.event_log = some buf ∧
      (b = true ↔ ∀ j, j < 3 → ∀ l,
        buf[(dpu_slot 8 (dpu_fresh 8).d.event_log_idx + 8 - j % 8) % 8]? = some l →
          l.type = DPU_EVT_TE_INTERRUPT) :=
  ⟨by decide,
    match ignore_window 8 3 DPU_EVT_TE_INTERRUPT (dpu_fresh 8) (by decide) with
    | ⟨b, buf, h1, h2, h3, _⟩ => ⟨b, buf, h1, h2, h3⟩⟩

/-! ### Cursors and slots -/

theorem int_emod_ne (cap x y : Int) (h : 0 < y - x) (h2 : y - x < cap) :
    x % cap ≠ y % cap := by
  intro he
  have hd : cap ∣ y - x := Int.dvd_of_emod_eq_zero (by
    rw [Int.sub_emod, he, sub_self, Int.zero_emod])
  have := Int.le_of_dvd h hd
  omega

theorem dpu_slot_cast (cap : Nat) (c : Int) :
    ((dpu_slot cap c : Nat) : Int) = (c % 4294967296) % (cap : Int) := by
  unfold dpu_slot to_u32
  rw [Int.natCast_mod, Int.toNat_of_nonneg (Int.emod_nonneg _ (by decide))]

theorem slot_ne_of_lt (cap : Nat) (c1 c2 : Int) (r1 : -2147483648 ≤ c1 ∧ c1 < 2147483648)
    (r2 : -2147483648 ≤ c2 ∧ c2 < 2147483648) (hlt : c1 < c2) (hd : c2 - c1 < cap)
    (hs : (0 ≤ c1 ↔ 0 ≤ c2) ∨ cap ∣ 4294967296) :
    dpu_slot cap c1 ≠ dpu_slot cap c2 := by
  intro he
  have he2 : ((dpu_slot cap c1 : Nat) : Int) = (dpu_slot cap c2 : Nat) := by rw [he]
  rw [dpu_slot_cast, dpu_slot_cast] at he2
  rcases hs with hs | hs
  · refine int_emod_ne cap (c1 % 4294967296) (c2 % 4294967296) ?_ ?_ he2
    · by_cases h : 0 ≤ c1
      · have := hs.mp h
        omega
      · have := fun h2 => h (hs.mpr h2)
        omega
    · by_cases h : 0 ≤ c1
      · have := hs.mp h
        omega
      · have := fun h2 => h (hs.mpr h2)
        omega
  · have hs2 : (cap : Int) ∣ 4294967296 := by exact_mod_cast hs
    rw [Int.emod_emod_of_dvd _ hs2, Int.emod_emod_of_dvd _ hs2] at he2
    exact int_emod_ne cap c1 c2 (by omega) hd he2

theorem to_s32_succ (x : Int) : to_s32 (to_s32 x + 1) = to_s32 (x + 1) := by
  unfold to_s32 to_u32
  split <;> split <;> split <;> omega

theorem atomic_inc_return_iterate (n : Nat) :
    atomic_inc_return^[n + 1] (-1) = to_s32 n := by
  induction n with
  | zero => rfl
  | succ k ih =>
    rw [Function.iterate_succ_apply', ih]
    unfold atomic_inc_return
    rw [to_s32_succ]
    rfl

/-- C15, amended: for every capacity and every two distinct cursor values in
the range of `int` that differ by less than the capacity, the slots
`cursor % dpu_event_log_max` are different, provided both cursors have the
same sign or the capacity divides 2^32. -/
theorem slot_collision_free (cap : Nat) (c1 c2 : Int)
    (r1 : -2147483648 ≤ c1 ∧ c1 < 2147483648) (r2 : -2147483648 ≤ c2 ∧ c2 < 2147483648)
    (hne : c1 ≠ c2) (hd : c1 - c2 < cap ∧ c2 - c1 < cap)
    (hs : (0 ≤ c1 ↔ 0 ≤ c2) ∨ cap ∣ 4294967296) :
    dpu_slot cap c1 ≠ dpu_slot cap c2 := by
  rcases lt_or_gt_of_ne hne with h | h
  · exact slot_ne_of_lt cap c1 c2 r1 r2 h hd.2 hs
  · exact (slot_ne_of_lt cap c2 c1 r2 r1 h hd.1 (hs.imp Iff.symm id)).symm

/-- A concrete instance: capacity 1024 and the cursors -1 and 0 on the two
sides of the wrap. -/
theorem slot_collision_free_witness :
    dpu_slot 1024 (-1) ≠ dpu_slot 1024 0 :=
  slot_collision_free 1024 (-1) 0 (by decide) (by decide) (by decide) (by decide)
    (Or.inr (by decide))

/-- C15 as stated fails: with capacity 3 the cursor value -1, which the
cursor takes at its 2^32-th claim, and the value 0 of the next claim are
distinct, differ by one and give the same slot 0. -/
theorem slot_collision_at_wrap :
    atomic_inc_return^[4294967296] (-1) = -1 ∧ atomic_inc_return (-1) = 0 ∧
    (-1 : Int) ≠ 0 ∧ (0 : Int) - (-1) < (3 : Nat) ∧
    dpu_slot 3 (-1) = 0 ∧ dpu_slot 3 0 = 0 := by
  refine ⟨?_, by decide, by decide, by decide, by decide, by decide⟩
  rw [atomic_inc_return_iterate 4294967295]
  decide

/-! ### The walk of the replay: where it stops -/

theorem ring_succ_if (cap i : Nat) (hi : i < cap) :
    (i + 1) % cap = if i + 1 = cap then 0 else i + 1 := by
  by_cases h : i + 1 = cap
  · rw [if_pos h, h, Nat.mod_self]
  · rw [if_neg h, Nat.mod_eq_of_lt (by omega)]

theorem range_succ_map_ring (buf : List dpu_log) (cap i m : Nat) :
    ((List.range (m + 1)).map fun k => buf.getD ((i + 1 + k) % cap) dpu_log_zero)
      = buf.getD ((i + 1) % cap) dpu_log_zero ::
        ((List.range m).map fun k => buf.getD (((i + 1) % cap + 1 + k) % cap) dpu_log_zero) := by
  rw [List.range_succ_eq_map m, List.map_cons, List.map_map]
  congr 1
  apply List.map_congr_left
  intro k _
  simp only [Function.comp]
  rw [ring_succ_add]

theorem has_seconds_iff (l : dpu_log) :
    dpu_has_seconds l = true ↔ l.time / NSEC_PER_SEC ≠ 0 := by
  simp [dpu_has_seconds]

/-- The walk from index `i` towards `latest` renders the records of the slots
`i + 1`, `i + 2`, ... up to `latest` (modulo the capacity) as long as their
time stamps have non-zero seconds, and stops at the first one that has not. -/
theorem walk_spec {cap : Nat} (buf : List dpu_log) (L : Nat) (h0 : 0 < cap)
    (h1 : cap ≤ 2147483647) (hl : buf.length = cap) (hL : L < cap) :
    ∀ (n fuel i : Nat), i < cap → n ≤ fuel →
      n = (if i < L then L - i else L + cap - i) →
      dpu_event_log_walk cap buf (L : Int) fuel (i : Int) =
        .ok (((List.range n).map fun k =>
          buf.getD ((i + 1 + k) % cap) dpu_log_zero).takeWhile dpu_has_seconds) := by
  intro n
  induction n with
  | zero =>
    intro fuel i hi _ hn
    split at hn <;> omega
  | succ m ih =>
    intro fuel i hi hf hn
    obtain ⟨f, rfl⟩ : ∃ f, fuel = f + 1 := ⟨fuel - 1, by omega⟩
    have hlt : (i + 1) % cap < buf.length := by rw [hl]; exact Nat.mod_lt _ h0
    rw [walk_succ, walk_next cap i h1 hi, log_at_nat, getElem?_getD_of_lt _ _ hlt,
      range_succ_map_ring]
    simp only []
    by_cases hz : (buf.getD ((i + 1) % cap) dpu_log_zero).time / NSEC_PER_SEC = 0
    · rw [if_pos hz, List.takeWhile_cons_of_neg
        (fun h => (has_seconds_iff _).mp h hz)]
    · rw [if_neg hz, List.takeWhile_cons_of_pos ((has_seconds_iff _).mpr hz)]
      have hs : (i + 1) % cap = i + 1 ∧ i + 1 < cap ∨ (i + 1) % cap = 0 ∧ i + 1 = cap := by
        by_cases h : i + 1 = cap
        · exact Or.inr ⟨by rw [h, Nat.mod_self], h⟩
        · exact Or.inl ⟨Nat.mod_eq_of_lt (by omega), by omega⟩
      generalize (i + 1) % cap = i1 at hs ⊢
      by_cases hne : (L : Int) ≠ ((i1 : Nat) : Int)
      · rw [if_pos hne]
        have hm : m = (if i1 < L then L - i1 else L + cap - i1) := by
          split at hn <;> split <;> omega
        rw [ih f i1 (by omega) (by omega) hm]
      · rw [if_neg hne]
        have hm : m = 0 := by
          split at hn <;> omega
        subst hm
        rfl

theorem start_nat {cap : Nat} (idx : Int) (m : Nat) (h0 : 0 < cap) (h1 : cap ≤ 2147483647) :
    ∃ s : Nat, dpu_event_log_start cap idx m = (s : Int) ∧ s < cap := by
  unfold dpu_event_log_start
  simp only []
  generalize (if m > cap then cap else m) = m1
  by_cases h : to_u64 idx < m1
  · rw [if_pos h]
    exact ⟨0, rfl, h0⟩
  · rw [if_neg h, to_s32_slot cap _ h0 h1]
    exact ⟨_, rfl, Nat.mod_lt _ h0⟩

theorem start_lt {cap : Nat} (idx : Int) (m : Nat) (h0 : 0 < cap) (h1 : cap ≤ 2147483647) :
    dpu_event_log_start cap idx m
        = (((dpu_event_log_start cap idx m).toNat : Nat) : Int) ∧
      (dpu_event_log_start cap idx m).toNat < cap := by
  obtain ⟨s, hs, hlt⟩ := start_nat idx m h0 h1
  rw [hs, Int.toNat_ofNat]
  exact ⟨rfl, hlt⟩

/-- On an available buffer `dpu_event_log_print` visits the slots of
`dpu_visit_order` in that order and renders their records up to, and not
including, the first one whose time stamp has zero seconds. -/
theorem visit_spec {cap : Nat} (decon : decon_device) (buf : List dpu_log) (max_logs : Nat)
    (h0 : 0 < cap) (h1 : cap ≤ 2147483647) (hb : decon.d.event_log = some buf)
    (hl : buf.length = cap) :
    dpu_event_log_visit cap decon max_logs =
      .ok (some (((dpu_visit_order cap decon.d.event_log_idx max_logs).map
        fun s => buf.getD s dpu_log_zero).takeWhile dpu_has_seconds)) := by
  obtain ⟨hs1, hs2⟩ := start_lt decon.d.event_log_idx max_logs h0 h1
  have hL := dpu_slot_lt cap decon.d.event_log_idx h0
  unfold dpu_event_log_visit dpu_visit_order
  rw [if_neg (by omega), hb]
  simp only []
  rw [to_s32_dpu_slot cap _ h0 h1, hs1, Int.toNat_ofNat]
  rw [walk_spec buf _ h0 h1 hl hL _ cap _ hs2 (by split <;> omega) rfl, List.map_map]
  rfl

/-! ### Where the replay stops -/

theorem takeWhile_length_lt_iff {α : Type} (p : α → Bool) (l : List α) :
    (l.takeWhile p).length < l.length ↔ ∃ x, x ∈ l ∧ p x = false := by
  induction l with
  | nil => simp
  | cons a t ih =>
    cases h : p a with
    | false => simp [List.takeWhile_cons, h]
    | true =>
      simp only [List.takeWhile_cons, h, if_true, List.length_cons, Nat.add_lt_add_iff_right,
        ih, List.mem_cons]
      constructor
      · rintro ⟨x, hx, hp⟩
        exact ⟨x, Or.inr hx, hp⟩
      · rintro ⟨x, hx | hx, hp⟩
        · rw [hx, h] at hp
          cases hp
        · exact ⟨x, hx, hp⟩

/-- The walk of `dpu_event_log_print` on an available buffer, as the code has
it: it goes through the slots of `dpu_visit_order` and the records rendered
are the visited records before the first one whose `tv_sec` is zero; it ends
before `latest` exactly when some visited record has `tv_sec` zero. -/
theorem walk_stops_at_zero_seconds (cap max_logs : Nat) (decon : decon_device)
    (hr : dpu_log_ready cap decon) :
    ∃ buf logs, decon.d.event_log = some buf ∧
      dpu_event_log_visit cap decon max_logs = .ok (some logs) ∧
      logs = ((dpu_visit_order cap decon.d.event_log_idx max_logs).map
        fun s => buf.getD s dpu_log_zero).takeWhile
          (fun log => decide (log.time / NSEC_PER_SEC ≠ 0)) ∧
      (logs.length < (dpu_visit_order cap decon.d.event_log_idx max_logs).length ↔
        ∃ s, s ∈ dpu_visit_order cap decon.d.event_log_idx max_logs ∧
          (buf.getD s dpu_log_zero).time / NSEC_PER_SEC = 0) := by
  obtain ⟨buf, hb, hl⟩ := ready_buf hr
  obtain ⟨h0, h1, _⟩ := hr
  have hv := visit_spec decon buf max_logs h0 h1 hb hl
  refine ⟨buf, _, hb, hv, rfl, ?_⟩
  have h := takeWhile_length_lt_iff dpu_has_seconds
    ((dpu_visit_order cap decon.d.event_log_idx max_logs).map fun s => buf.getD s dpu_log_zero)
  rw [List.length_map] at h
  rw [h]
  constructor
  · rintro ⟨x, hx, hp⟩
    obtain ⟨s, hs, rfl⟩ := List.mem_map.mp hx
    refine ⟨s, hs, ?_⟩
    by_contra hne
    rw [(has_seconds_iff _).mpr hne] at hp
    cases hp
  · rintro ⟨s, hs, hz⟩
    refine ⟨_, List.mem_map.mpr ⟨s, hs, rfl⟩, ?_⟩
    cases hp : dpu_has_seconds (buf.getD s dpu_log_zero) with
    | false => rfl
    | true => exact absurd hz ((has_seconds_iff _).mp hp)

/-- C14: the code at the failing input. With capacity 4 and three records
stamped 0.2 s, 0.5 s and 1.5 s, `dpu_event_log_print` with `max_logs = 4`
visits slot 1 first; its time stamp is 500000000 ns, not the zero sentinel,
and yet the walk stops there and renders nothing, the record of 1.5 s in
slot 2 included: `if (!ts.tv_sec) break;` tests the seconds of the stamp,
under the comment "If there is no timestamp, then exit directly". -/
theorem walk_stops_at_nonzero_stamp :
    ∃ decon stored buf,
      dpu_run 4 4 6
        [.log DPU_EVT_DECON_ENABLED 0 { ktime := 200000000 },
         .log DPU_EVT_DSIM_ENABLED 0 { ktime := 500000000 },
         .log DPU_EVT_PLANE_UPDATE 0 { ktime := 1500000000 }] (dpu_fresh 4)
        = .ok (decon, stored) ∧
      decon.d.event_log = some buf ∧
      dpu_visit_order 4 decon.d.event_log_idx 4 = [1, 2] ∧
      (buf.getD 1 dpu_log_zero).time = 500000000 ∧
      (buf.getD 1 dpu_log_zero).time ≠ 0 ∧
      (buf.getD 2 dpu_log_zero).time = 1500000000 ∧
      dpu_event_log_visit 4 decon 4 = .ok (some []) :=
  ⟨_, _, _, rfl, rfl, rfl, rfl, by decide, rfl, rfl⟩

/-! ### The replay of a buffer that was never written -/

theorem getD_replicate_zero (cap s : Nat) :
    (List.replicate cap dpu_log_zero).getD s dpu_log_zero = dpu_log_zero := by
  rw [List.getD_eq_getElem?_getD, List.getElem?_replicate]
  split <;> rfl

theorem takeWhile_zero_records (order : List Nat) (cap : Nat) :
    (order.map fun s => (List.replicate cap dpu_log_zero).getD s dpu_log_zero).takeWhile
      dpu_has_seconds = [] := by
  cases order with
  | nil => rfl
  | cons s t =>
    rw [List.map_cons, getD_replicate_zero]
    rfl

/-- C13: on a buffer that has never been written (every slot zero, the write
cursor at its initial value -1; the result is the same for any other value of
the cursor), for every capacity a buffer can have (from 1 to `INT_MAX`
records) and every `max_logs`, `dpu_event_log_print` completes without error
and emits no event line: the report is the three header lines and the closing
rule. -/
theorem fresh_print_no_event (cap max_win max_logs : Nat) (decon : decon_device)
    (h0 : 0 < cap) (h1 : cap ≤ 2147483647)
    (hb : decon.d.event_log = some (List.replicate cap dpu_log_zero)) :
    ∃ report, dpu_event_log_print cap max_win decon max_logs = .ok report ∧
      report = [dpu_line.rule, dpu_line.title, dpu_line.rule, dpu_line.rule] ∧
      dpu_event_lines report = [] := by
  have hv := visit_spec decon _ max_logs h0 h1 hb (List.length_replicate cap dpu_log_zero)
  rw [takeWhile_zero_records] at hv
  exact ⟨_, print_of_visit cap max_win max_logs decon [] hv, rfl, rfl⟩

/-- A concrete instance: the report of a fresh buffer of capacity 1024. -/
theorem fresh_print_no_event_witness :
    (dpu_fresh 1024).d.event_log_idx = -1 ∧
    ∃ report, dpu_event_log_print 1024 6 (dpu_fresh 1024) 512 = .ok report ∧
      report = [dpu_line.rule, dpu_line.title, dpu_line.rule, dpu_line.rule] ∧
      dpu_event_lines report = [] :=
  ⟨rfl, fresh_print_no_event 1024 6 512 (dpu_fresh 1024) (by decide) (by decide) rfl⟩

/-! ### The replay with `max_logs = 0` -/

/-- C12: the code at the failing input. With capacity 2, three records
stamped 1 s, 2 s and 3 s and `max_logs = 0`, the walk starts at `latest`
itself and the `do ... while` loop goes once round the ring: slots 1 and 0
are visited and two event lines are rendered, more than
`min(max_logs, capacity) = 0`. -/
theorem print_zero_max_logs_walks_ring :
    (dpu_replay 2 4 6 (dpu_plain_calls 3) (dpu_fresh 2) 0).map
      (fun r => (r.1.length, (dpu_event_lines r.2).length)) = .ok (3, 2) ∧
    (dpu_run 2 4 6 (dpu_plain_calls 3) (dpu_fresh 2)).map
      (fun r => (r.1.d.event_log_idx, dpu_visit_order 2 r.1.d.event_log_idx 0))
      = .ok (2, [1, 0]) :=
  ⟨rfl, rfl⟩

/-! ### Records with an unknown tag -/

theorem remark_unknown (log : dpu_log) (h : DPU_EVT_MAX ≤ log.type) :
    dpu_log_remark log = .plain := by
  have h42 : 42 ≤ log.type := h
  unfold dpu_log_remark
  simp only [DPU_EVT_DECON_RSC_OCCUPANCY, DPU_EVT_DSIM_COMMAND, DPU_EVT_DPP_FRAMEDONE,
    DPU_EVT_DMA_RECOVERY, DPU_EVT_ENTER_HIBERNATION_IN, DPU_EVT_ENTER_HIBERNATION_OUT,
    DPU_EVT_EXIT_HIBERNATION_IN, DPU_EVT_EXIT_HIBERNATION_OUT, DPU_EVT_PLANE_UPDATE,
    DPU_EVT_PLANE_DISABLE, DPU_EVT_REQ_CRTC_INFO_OLD, DPU_EVT_REQ_CRTC_INFO_NEW,
    DPU_EVT_BTS_RELEASE_BW, DPU_EVT_BTS_UPDATE_BW, DPU_EVT_BTS_CALC_BW, DPU_EVT_DSIM_UNDERRUN,
    DPU_EVT_DSIM_CRC, DPU_EVT_DSIM_ECC]
  repeat rw [if_neg (by omega)]

theorem lines_unknown (max_win : Nat) (log : dpu_log) (h : DPU_EVT_MAX ≤ log.type) :
    dpu_log_lines max_win log =
      [.event (log.time / NSEC_PER_SEC) (log.time % NSEC_PER_SEC / NSEC_PER_USEC) none .plain] := by
  have h42 : 42 ≤ log.type := h
  unfold dpu_log_lines dpu_event_line get_event_name
  rw [remark_unknown log h, if_pos h, if_neg (by unfold DPU_EVT_ATOMIC_COMMIT; omega)]

theorem stamps_of_logs (buf : List dpu_log) (order : List Nat) :
    ((((order.map fun s => buf.getD s dpu_log_zero).takeWhile dpu_has_seconds).map
      dpu_event_line).map dpu_line_stamp)
      = dpu_stamps_of (buf.map fun l => l.time) order := by
  unfold dpu_stamps_of
  have e1 : (order.map fun s => (buf.map fun l => l.time).getD s 0)
      = (order.map fun s => buf.getD s dpu_log_zero).map fun l => l.time := by
    rw [List.map_map]
    apply List.map_congr_left
    intro s _
    exact List.getD_map buf dpu_log_zero (fun l : dpu_log => l.time)
  rw [e1]
  generalize (order.map fun s => buf.getD s dpu_log_zero) = recs
  rw [List.takeWhile_map, List.map_map, List.map_map]
  rfl

/-- What the replay of an available buffer prints: one group of lines for
each visited record before the first time stamp with zero seconds; the time
columns of its event lines are a function of the stamps alone. -/
theorem print_spec {cap : Nat} (max_win max_logs : Nat) (decon : decon_device)
    (buf : List dpu_log) (h0 : 0 < cap) (h1 : cap ≤ 2147483647)
    (hb : decon.d.event_log = some buf) (hl : buf.length = cap) :
    ∃ report, dpu_event_log_print cap max_win decon max_logs = .ok report ∧
      dpu_event_lines report =
        (((dpu_visit_order cap decon.d.event_log_idx max_logs).map
          fun s => buf.getD s dpu_log_zero).takeWhile dpu_has_seconds).map dpu_event_line ∧
      (dpu_event_lines report).map dpu_line_stamp =
        dpu_stamps_of (buf.map fun l => l.time)
          (dpu_visit_order cap decon.d.event_log_idx max_logs) := by
  have hv := visit_spec decon buf max_logs h0 h1 hb hl
  refine ⟨_, print_of_visit cap max_win max_logs decon _ hv, event_lines_report _ _, ?_⟩
  rw [event_lines_report, stamps_of_logs]

theorem log_at_time (buf1 buf2 : List dpu_log)
    (ht : (buf1.map fun l => l.time) = buf2.map fun l => l.time) (idx : Int) :
    (log_at buf1 idx).map (fun l => l.time) = (log_at buf2 idx).map (fun l => l.time) := by
  unfold log_at
  split
  · rfl
  · rw [← List.getElem?_map, ← List.getElem?_map, ht]

/-- The walk over two buffers with the same time stamps takes the same steps:
it fails in the same way or renders records with the same stamps. -/
theorem walk_same_stamps (cap : Nat) (buf1 buf2 : List dpu_log) (latest : Int)
    (ht : (buf1.map fun l => l.time) = buf2.map fun l => l.time) :
    ∀ (fuel : Nat) (idx : Int),
      (dpu_event_log_walk cap buf1 latest fuel idx).map (List.map fun l => l.time)
        = (dpu_event_log_walk cap buf2 latest fuel idx).map (List.map fun l => l.time) := by
  intro fuel
  induction fuel with
  | zero => intro idx; rfl
  | succ f ih =>
    intro idx
    rw [walk_succ, walk_succ]
    generalize (if to_u32 (to_s32 (idx + 1)) ≥ cap then (0 : Int) else to_s32 (idx + 1)) = j
    have hj := log_at_time buf1 buf2 ht j
    have hrec := ih j
    cases h1 : log_at buf1 j with
    | none =>
      cases h2 : log_at buf2 j with
      | none => rfl
      | some b => rw [h1, h2] at hj; cases hj
    | some a =>
      cases h2 : log_at buf2 j with
      | none => rw [h1, h2] at hj; cases hj
      | some b =>
        rw [h1, h2] at hj
        have hab : a.time = b.time := Option.some.inj hj
        simp only []
        rw [hab]
        by_cases hz : b.time / NSEC_PER_SEC = 0
        · rw [if_pos hz, if_pos hz]
        · rw [if_neg hz, if_neg hz]
          by_cases hl : latest ≠ j
          · rw [if_pos hl, if_pos hl]
            cases r1 : dpu_event_log_walk cap buf1 latest f j with
            | error e1 =>
              cases r2 : dpu_event_log_walk cap buf2 latest f j with
              | error e2 =>
                rw [r1, r2] at hrec
                simp only [Except.map] at hrec ⊢
                exact hrec
              | ok l2 => rw [r1, r2] at hrec; cases hrec
            | ok l1 =>
              cases r2 : dpu_event_log_walk cap buf2 latest f j with
              | error e2 => rw [r1, r2] at hrec; cases hrec
              | ok l2 =>
                rw [r1, r2] at hrec
                simp only [Except.map, Except.ok.injEq] at hrec ⊢
                rw [List.map_cons, List.map_cons, hrec, hab]
          · rw [if_neg hl, if_neg hl]
            simp only [Except.map, List.map_cons, List.map_nil, hab]

theorem visit_same_stamps (cap max_logs : Nat) (decon decon2 : decon_device)
    (buf buf2 : List dpu_log) (hb : decon.d.event_log = some buf)
    (hb2 : decon2.d.event_log = some buf2)
    (hidx : decon2.d.event_log_idx = decon.d.event_log_idx)
    (ht : (buf.map fun l => l.time) = buf2.map fun l => l.time) :
    (dpu_event_log_visit cap decon2 max_logs).map (Option.map (List.map fun l => l.time))
      = (dpu_event_log_visit cap decon max_logs).map
          (Option.map (List.map fun l => l.time)) := by
  unfold dpu_event_log_visit
  by_cases hc : cap = 0
  · rw [if_pos hc, if_pos hc]
  · rw [if_neg hc, if_neg hc, hb, hb2, hidx]
    simp only []
    have h := walk_same_stamps cap buf buf2
      (to_s32 (dpu_slot cap decon.d.event_log_idx)) ht cap
      (dpu_event_log_start cap decon.d.event_log_idx max_logs)
    cases r1 : dpu_event_log_walk cap buf (to_s32 (dpu_slot cap decon.d.event_log_idx)) cap
        (dpu_event_log_start cap decon.d.event_log_idx max_logs) with
    | error e1 =>
      cases r2 : dpu_event_log_walk cap buf2 (to_s32 (dpu_slot cap decon.d.event_log_idx)) cap
          (dpu_event_log_start cap decon.d.event_log_idx max_logs) with
      | error e2 =>
        rw [r1, r2] at h
        simp only [Except.map, Except.error.injEq] at h ⊢
        exact h.symm
      | ok l2 => rw [r1, r2] at h; cases h
    | ok l1 =>
      cases r2 : dpu_event_log_walk cap buf2 (to_s32 (dpu_slot cap decon.d.event_log_idx)) cap
          (dpu_event_log_start cap decon.d.event_log_idx max_logs) with
      | error e2 => rw [r1, r2] at h; cases h
      | ok l2 =>
        rw [r1, r2] at h
        simp only [Except.map, Except.ok.injEq] at h ⊢
        rw [Option.map_some', Option.map_some', h]

/-- The time columns of the event lines of a report, from the records the
replay renders. -/
theorem print_stamps (cap max_win max_logs : Nat) (decon : decon_device) :
    (dpu_event_log_print cap max_win decon max_logs).map
        (fun r => (dpu_event_lines r).map dpu_line_stamp)
      = ((dpu_event_log_visit cap decon max_logs).map
          (Option.map (List.map fun l => l.time))).map
          (fun o => (o.getD []).map fun t =>
            some (t / NSEC_PER_SEC, t % NSEC_PER_SEC / NSEC_PER_USEC)) := by
  unfold dpu_event_log_print
  cases dpu_event_log_visit cap decon max_logs with
  | error e => rfl
  | ok o =>
    cases o with
    | none => rfl
    | some logs =>
      simp only [Except.map, Option.map_some', Option.getD_some, Except.ok.injEq]
      rw [event_lines_report, List.map_map, List.map_map]
      rfl

/-- C11: the walk of `dpu_event_log_print` never looks at the tags. A record
whose tag is outside the known range (`DPU_EVT_MAX` or above) is rendered as
one event line with the time, no name (the NULL of `get_event_name`) and no
remark. A second buffer with the same cursor and the same time stamps, its
tags and payloads arbitrary, makes the function end in the same way, with as
many event lines and the same time columns in the same order. On an available
buffer the function returns a report, with one event line for each visited
record before the first time stamp with zero seconds, so the walk goes on
past a record with an unknown tag to the following slots. -/
theorem unknown_tag_rendered (cap max_win max_logs : Nat) (decon decon2 : decon_device)
    (buf buf2 : List dpu_log) (hb : decon.d.event_log = some buf)
    (hb2 : decon2.d.event_log = some buf2)
    (hidx : decon2.d.event_log_idx = decon.d.event_log_idx)
    (ht : (buf.map fun l => l.time) = buf2.map fun l => l.time) :
    (∀ log, DPU_EVT_MAX ≤ log.type →
      dpu_event_line log = .event (log.time / NSEC_PER_SEC)
        (log.time % NSEC_PER_SEC / NSEC_PER_USEC) none .plain ∧
      dpu_log_lines max_win log = [dpu_event_line log]) ∧
    (dpu_event_log_print cap max_win decon2 max_logs).map
        (fun r => ((dpu_event_lines r).length, (dpu_event_lines r).map dpu_line_stamp))
      = (dpu_event_log_print cap max_win decon max_logs).map
        (fun r => ((dpu_event_lines r).length, (dpu_event_lines r).map dpu_line_stamp)) ∧
    (dpu_log_ready cap decon →
      ∃ report report2,
        dpu_event_log_print cap max_win decon max_logs = .ok report ∧
        dpu_event_log_print cap max_win decon2 max_logs = .ok report2 ∧
        dpu_event_lines report =
          (((dpu_visit_order cap decon.d.event_log_idx max_logs).map
            fun s => buf.getD s dpu_log_zero).takeWhile
              (fun log => decide (log.time / NSEC_PER_SEC ≠ 0))).map dpu_event_line ∧
        (dpu_event_lines report2).length = (dpu_event_lines report).length ∧
        (dpu_event_lines report2).map dpu_line_stamp
          = (dpu_event_lines report).map dpu_line_stamp) := by
  have hst : (dpu_event_log_print cap max_win decon2 max_logs).map
        (fun r => (dpu_event_lines r).map dpu_line_stamp)
      = (dpu_event_log_print cap max_win decon max_logs).map
        (fun r => (dpu_event_lines r).map dpu_line_stamp) := by
    rw [print_stamps, print_stamps, visit_same_stamps cap max_logs decon decon2 buf buf2 hb hb2 hidx ht]
  refine ⟨?_, ?_, ?_⟩
  · intro log hlog
    have h := lines_unknown max_win log hlog
    have h2 : dpu_log_lines max_win log = dpu_event_line log :: _ := rfl
    rw [h2] at h
    have h3 := List.cons.inj h
    exact ⟨h3.1, by rw [h2, h3.2]⟩
  · cases r1 : dpu_event_log_print cap max_win decon max_logs with
    | error e1 =>
      cases r2 : dpu_event_log_print cap max_win decon2 max_logs with
      | error e2 =>
        rw [r1, r2] at hst
        simp only [Except.map, Except.error.injEq] at hst ⊢
        exact hst
      | ok l2 => rw [r1, r2] at hst; cases hst
    | ok l1 =>
      cases r2 : dpu_event_log_print cap max_win decon2 max_logs with
      | error e2 => rw [r1, r2] at hst; cases hst
      | ok l2 =>
        rw [r1, r2] at hst
        simp only [Except.map, Except.ok.injEq] at hst ⊢
        have := congrArg List.length hst
        rw [List.length_map, List.length_map] at this
        rw [this, hst]
  · intro hr
    obtain ⟨h0, h1, h2⟩ := hr
    have hl : buf.length = cap := by
      rw [hb] at h2
      exact Option.some.inj h2
    have hl2 : buf2.length = cap := by
      have := congrArg List.length ht
      rw [List.length_map, List.length_map] at this
      omega
    obtain ⟨report, hp, he, hs⟩ := print_spec max_win max_logs decon buf h0 h1 hb hl
    obtain ⟨report2, hp2, _, hs2⟩ := print_spec max_win max_logs decon2 buf2 h0 h1 hb2 hl2
    rw [hidx, ← ht, ← hs] at hs2
    refine ⟨report, report2, hp, hp2, he, ?_, hs2⟩
    have := congrArg List.length hs2
    rwa [List.length_map, List.length_map] at this

/-- A concrete instance: capacity 4, records in slots 0 to 2, the one in
slot 1 with the unknown tag 99 in the first buffer and a known tag in the
second. -/
theorem unknown_tag_rendered_witness :
    dpu_log_ready 4 (dpu_three_records 1 99 7) ∧
    (dpu_three_records 1 2 7).d.event_log_idx = (dpu_three_records 1 99 7).d.event_log_idx ∧
    (dpu_three_records 1 99 7).d.event_log.map (List.map fun l => l.time)
      = (dpu_three_records 1 2 7).d.event_log.map (List.map fun l => l.time) ∧
    (dpu_event_log_print 4 6 (dpu_three_records 1 2 7) 4).map
        (fun r => ((dpu_event_lines r).length, (dpu_event_lines r).map dpu_line_stamp))
      = (dpu_event_log_print 4 6 (dpu_three_records 1 99 7) 4).map
        (fun r => ((dpu_event_lines r).length, (dpu_event_lines r).map dpu_line_stamp)) :=
  ⟨by decide, rfl, rfl,
    (unknown_tag_rendered 4 6 4 (dpu_three_records 1 99 7) (dpu_three_records 1 2 7) _ _
      rfl rfl rfl rfl).2.1⟩

/-- The report of that buffer: the record with the unknown tag 99 in slot 1
gets a line without a name, and the record after it is rendered. -/
theorem unknown_tag_report :
    dpu_event_log_print 4 6 (dpu_three_records 1 99 7) 4 =
      .ok [.rule, .title, .rule,
           .event 2 0 none .plain,
           .event 3 0 (some "DSIM_ENABLED") .plain,
           .rule] := rfl

/-! ### Initialisation -/

theorem init_alloc_zero (vz : Nat → Nat → Bool) (i c : Nat) (acc : List Nat) :
    dpu_init_alloc vz 0 i c acc = (none, c, acc) := rfl

theorem init_alloc_succ (vz : Nat → Nat → Bool) (left i c : Nat) (acc : List Nat) :
    dpu_init_alloc vz (left + 1) i c acc =
      if vz i (c >>> i) then
        (some (List.replicate (c >>> i) dpu_log_zero), c >>> i, acc ++ [c >>> i])
      else dpu_init_alloc vz left (i + 1) (c >>> i) (acc ++ [c >>> i]) := rfl

/-- The allocation loop, from round `i` with `left` rounds to go: the sizes
it tries, each the previous one shifted by the number of the round, and how
it ends. -/
theorem init_alloc_spec (vz : Nat → Nat → Bool) :
    ∀ (left i c : Nat) (acc : List Nat), ∃ new : List Nat,
      (dpu_init_alloc vz left i c acc).2.2 = acc ++ new ∧
      new.length ≤ left ∧
      (0 < left → new.head? = some (c >>> i)) ∧
      (∀ k, k + 1 < new.length →
        new.getD (k + 1) 0 = new.getD k 0 >>> (i + k + 1) ∧ vz (i + k) (new.getD k 0) = false) ∧
      (((dpu_init_alloc vz left i c acc).1 = none ∧ new.length = left ∧
          ∀ k, k < new.length → vz (i + k) (new.getD k 0) = false) ∨
        (∃ last, new.getLast? = some last ∧ vz (i + (new.length - 1)) last = true ∧
          (dpu_init_alloc vz left i c acc).1 = some (List.replicate last dpu_log_zero) ∧
          (dpu_init_alloc vz left i c acc).2.1 = last)) := by
  intro left
  induction left with
  | zero =>
    intro i c acc
    refine ⟨[], by rw [init_alloc_zero, List.append_nil], Nat.le_refl _, fun h => absurd h (by omega),
      fun k hk => absurd hk (by simp), Or.inl ⟨rfl, rfl, fun k hk => absurd hk (by simp)⟩⟩
  | succ left ih =>
    intro i c acc
    rw [init_alloc_succ]
    by_cases hv : vz i (c >>> i) = true
    · rw [if_pos hv]
      refine ⟨[c >>> i], rfl, by simp, fun _ => rfl, fun k hk => absurd hk (by simp),
        Or.inr ⟨c >>> i, rfl, by simpa using hv, rfl, rfl⟩⟩
    · rw [if_neg hv]
      have hv2 : vz i (c >>> i) = false := by simpa using hv
      obtain ⟨new, h1, h2, h3, h4, h5⟩ := ih (i + 1) (c >>> i) (acc ++ [c >>> i])
      refine ⟨(c >>> i) :: new, by rw [h1, List.append_assoc]; rfl, by simpa using h2,
        fun _ => rfl, ?_, ?_⟩
      · intro k hk
        rw [List.length_cons] at hk
        cases k with
        | zero =>
          have hl : 0 < left := by omega
          have hh := h3 hl
          cases new with
          | nil => simp at hk
          | cons a t =>
            simp only [List.head?_cons, Option.some.injEq] at hh
            subst hh
            exact ⟨rfl, hv2⟩
        | succ k =>
          obtain ⟨e1, e2⟩ := h4 k (by omega)
          refine ⟨?_, ?_⟩
          · show new.getD (k + 1) 0 = new.getD k 0 >>> (i + (k + 1) + 1)
            rw [e1]
            congr 1
            omega
          · show vz (i + (k + 1)) (new.getD k 0) = false
            rw [← e2]
            congr 1
            omega
      · rcases h5 with ⟨e1, e2, e3⟩ | ⟨last, e1, e2, e3, e4⟩
        · refine Or.inl ⟨e1, by simp [e2], ?_⟩
          intro k hk
          rw [List.length_cons] at hk
          cases k with
          | zero => exact hv2
          | succ k =>
            show vz (i + (k + 1)) (new.getD k 0) = false
            rw [← e3 k (by omega)]
            congr 1
            omega
        · refine Or.inr ⟨last, ?_, ?_, e3, e4⟩
          · cases new with
            | nil => simp at e1
            | cons a t => rw [List.getLast?_cons_cons]; exact e1
          · rw [List.length_cons]
            cases new with
            | nil => simp at e1
            | cons a t =>
              rw [← e2]
              congr 1
              simp only [List.length_cons]
              omega

theorem init_debug_fields (cap retry : Nat) (env : dpu_init_env) (decon : decon_device) :
    (dpu_init_debug cap retry env decon).attempts
        = (dpu_init_alloc env.vzalloc retry 0 (cap % 4294967296) []).2.2 ∧
      (dpu_init_debug cap retry env decon).decon.d.event_log
        = (dpu_init_alloc env.vzalloc retry 0 (cap % 4294967296) []).1 ∧
      (dpu_init_debug cap retry env decon).decon.d.event_log_cnt
        = (dpu_init_alloc env.vzalloc retry 0 (cap % 4294967296) []).2.1 ∧
      (dpu_init_debug cap retry env decon).decon.d.event_log_idx = -1 := by
  unfold dpu_init_debug
  simp only []
  split_ifs <;> exact ⟨rfl, rfl, rfl, rfl⟩

/-- C16, amended: `dpu_init_debug` first attempts to allocate the buffer at
the requested capacity and, after each failed attempt, retries at the
capacity of the previous attempt shifted right by the number of the retry
(`event_cnt = event_cnt >> i`: half of the previous attempt at the first
retry, a quarter of it at the second, and so on), making at most
`DPU_EVENT_LOG_RETRY` attempts in total; either every one of the
`DPU_EVENT_LOG_RETRY` attempts fails and `event_log` is left NULL, or the last
attempt made succeeds, which ends the retries, and the buffer holds the
records of that attempt. The shift is defined for `DPU_EVENT_LOG_RETRY` up to
32. -/
theorem init_retries (cap retry : Nat) (env : dpu_init_env) (decon : decon_device)
    (_hretry : retry ≤ 32) :
    ∃ attempts,
      (dpu_init_debug cap retry env decon).attempts = attempts ∧
      attempts.length ≤ retry ∧
      (0 < retry → attempts.head? = some (cap % 4294967296)) ∧
      (∀ k, k + 1 < attempts.length →
        attempts.getD (k + 1) 0 = attempts.getD k 0 >>> (k + 1) ∧
        env.vzalloc k (attempts.getD k 0) = false) ∧
      (((dpu_init_debug cap retry env decon).decon.d.event_log = none ∧
          attempts.length = retry ∧
          ∀ k, k < attempts.length → env.vzalloc k (attempts.getD k 0) = false) ∨
        (∃ last, attempts.getLast? = some last ∧
          env.vzalloc (attempts.length - 1) last = true ∧
          (dpu_init_debug cap retry env decon).decon.d.event_log
            = some (List.replicate last dpu_log_zero) ∧
          (dpu_init_debug cap retry env decon).decon.d.event_log_cnt = last)) := by
  obtain ⟨f1, f2, f3, _⟩ := init_debug_fields cap retry env decon
  obtain ⟨new, h1, h2, h3, h4, h5⟩ :=
    init_alloc_spec env.vzalloc retry 0 (cap % 4294967296) []
  rw [List.nil_append] at h1
  rw [f1, f2, f3, h1]
  refine ⟨new, rfl, h2, fun h => by rw [h3 h, Nat.shiftRight_zero], ?_, ?_⟩
  · intro k hk
    have := h4 k hk
    simpa only [Nat.zero_add] using this
  · rcases h5 with ⟨e1, e2, e3⟩ | ⟨last, e1, e2, e3, e4⟩
    · refine Or.inl ⟨e1, e2, fun k hk => ?_⟩
      have := e3 k hk
      simpa only [Nat.zero_add] using this
    · refine Or.inr ⟨last, e1, ?_, e3, e4⟩
      simpa only [Nat.zero_add] using e2

/-- A concrete instance: three attempts allowed, the first allocation of 1024
records fails and the second, of 512, succeeds. -/
theorem init_retries_witness :
    (dpu_init_debug 1024 3 dpu_alloc_second {}).attempts = [1024, 512] ∧
    (dpu_init_debug 1024 3 dpu_alloc_second {}).decon.d.event_log_cnt = 512 ∧
    ∃ attempts,
      (dpu_init_debug 1024 3 dpu_alloc_second {}).attempts = attempts ∧
      attempts.length ≤ 3 ∧
      (0 < 3 → attempts.head? = some (1024 % 4294967296)) ∧
      (∀ k, k + 1 < attempts.length →
        attempts.getD (k + 1) 0 = attempts.getD k 0 >>> (k + 1) ∧
        dpu_alloc_second.vzalloc k (attempts.getD k 0) = false) ∧
      (((dpu_init_debug 1024 3 dpu_alloc_second {}).decon.d.event_log = none ∧
          attempts.length = 3 ∧
          ∀ k, k < attempts.length → dpu_alloc_second.vzalloc k (attempts.getD k 0) = false) ∨
        (∃ last, attempts.getLast? = some last ∧
          dpu_alloc_second.vzalloc (attempts.length - 1) last = true ∧
          (dpu_init_debug 1024 3 dpu_alloc_second {}).decon.d.event_log
            = some (List.replicate last dpu_log_zero) ∧
          (dpu_init_debug 1024 3 dpu_alloc_second {}).decon.d.event_log_cnt = last)) :=
  ⟨rfl, rfl, init_retries 1024 3 dpu_alloc_second {} (by decide)⟩

/-- C16 as stated fails: with `DPU_EVENT_LOG_RETRY = 3`, a requested capacity
of 1024 and an allocator that always fails, the attempts are made at 1024,
512 and 128 records: the third is a quarter of the second, not half of it.
The log is left disabled. -/
theorem init_third_attempt_is_quarter :
    (dpu_init_debug 1024 3 dpu_alloc_never {}).attempts = [1024, 512, 128] ∧
    (128 : Nat) ≠ 512 / 2 ∧
    (dpu_init_debug 1024 3 dpu_alloc_never {}).decon.d.event_log = none :=
  ⟨rfl, by decide, rfl⟩

/-- C17: the code at the failing input. With `dpu_event_log_max = 8` and an
allocator that fails at the first attempt, `dpu_init_debug` returns 0 with a
buffer of 4 records (`event_log_cnt = 4`); the recorders still take the
cursor modulo `dpu_event_log_max = 8`, so the fifth `DPU_EVENT_LOG` call
addresses slot 4, outside the 4 records allocated. -/
theorem reduced_capacity_out_of_bounds :
    (dpu_init_debug 8 3 dpu_alloc_second {}).ret = 0 ∧
    (dpu_init_debug 8 3 dpu_alloc_second {}).attempts = [8, 4] ∧
    (dpu_init_debug 8 3 dpu_alloc_second {}).decon.d.event_log_cnt = 4 ∧
    (dpu_init_debug 8 3 dpu_alloc_second {}).decon.d.event_log.map List.length = some 4 ∧
    (dpu_run 8 3 6 (dpu_plain_calls 4) (dpu_init_debug 8 3 dpu_alloc_second {}).decon).map
      (fun r => (r.1.d.event_log_idx, dpu_slot 8 (atomic_inc_return r.1.d.event_log_idx)))
      = .ok (3, 4) ∧
    dpu_run 8 3 6 (dpu_plain_calls 5) (dpu_init_debug 8 3 dpu_alloc_second {}).decon
      = .error .out_of_bounds :=
  ⟨rfl, rfl, rfl, rfl, rfl, rfl⟩

/-! ### The commit resets the streak -/

/-- C21: on an available buffer and with an index of at least 0,
`DPU_EVENT_LOG_ATOMIC_COMMIT` returns with the streak counter
`auto_refresh_frames` at zero, whatever it was before. -/
theorem atomic_commit_resets_streak (cap max_win : Nat) (index : Int) (ktime : Nat)
    (dbg_dma_addr : Nat → Nat) (decon : decon_device) (hr : dpu_log_ready cap decon)
    (hi : 0 ≤ index) :
    ∃ decon1,
      DPU_EVENT_LOG_ATOMIC_COMMIT cap max_win index ktime dbg_dma_addr decon = .ok decon1 ∧
      decon1.d.auto_refresh_frames = 0 := by
  obtain ⟨buf, hb, hl⟩ := ready_buf hr
  obtain ⟨h0, h1, _⟩ := hr
  exact ⟨_, ATOMIC_COMMIT_ok max_win index ktime dbg_dma_addr decon h0 h1 hl hb
    (not_lt.mpr hi), rfl⟩

/-- A concrete instance: a commit on a buffer of capacity 8 whose streak
counter stands at 7. -/
theorem atomic_commit_resets_streak_witness :
    dpu_log_ready 8 { dpu_fresh 8 with d := { (dpu_fresh 8).d with auto_refresh_frames := 7 } } ∧
    (0 : Int) ≤ 0 ∧
    ∃ decon1,
      DPU_EVENT_LOG_ATOMIC_COMMIT 8 6 0 1000000000 (fun _ => 0)
        { dpu_fresh 8 with d := { (dpu_fresh 8).d with auto_refresh_frames := 7 } }
        = .ok decon1 ∧
      decon1.d.auto_refresh_frames = 0 :=
  ⟨by decide, by decide,
    atomic_commit_resets_streak 8 6 0 1000000000 (fun _ => 0)
      { dpu_fresh 8 with d := { (dpu_fresh 8).d with auto_refresh_frames := 7 } }
      (by decide) (by decide)⟩

/-! ### The cursor and the slot of a stored record -/

theorem atomic_inc_return_succ (x : Int) (h1 : -2147483648 ≤ x) (h2 : x < 2147483647) :
    atomic_inc_return x = x + 1 := by
  unfold atomic_inc_return to_s32 to_u32
  split <;> omega

theorem dpu_slot_nonneg (cap : Nat) (c : Int) (h1 : 0 ≤ c) (h2 : c < 4294967296) :
    dpu_slot cap c = c.toNat % cap := by
  have e : to_u32 c = c.toNat := by unfold to_u32; omega
  unfold dpu_slot
  rw [e]

/-- C22, amended: on an available buffer every call of a recorder returns,
and either it stores nothing and leaves the cursor and the buffer as they
were (a suppressed `DPU_EVENT_LOG`, or a call rejected for its negative
index), or it stores one record: the cursor advances by one in 32-bit
arithmetic (`atomic_inc_return`: plus one below `INT_MAX`, and `INT_MIN` after
`INT_MAX`) and the record is written into the slot whose index is the new
cursor, converted to `unsigned int`, modulo the capacity, which is the new
cursor modulo the capacity while the cursor is not negative; from the cursor
-1 of a fresh buffer the slot is 0. `DPU_EVENT_LOG_ATOMIC_COMMIT` with an
index of at least 0 and `DPU_EVENT_LOG_CMD` always store. -/
theorem record_advances_cursor (cap K max_win : Nat) (c : dpu_call) (decon : decon_device)
    (hr : dpu_log_ready cap decon) :
    ∃ decon1, c.apply cap K max_win decon = .ok decon1 ∧
      ((dpu_stored_by cap decon decon1 = none ∧
          decon1.d.event_log = decon.d.event_log ∧
          decon1.d.event_log_idx = decon.d.event_log_idx) ∨
       (∃ buf r, decon.d.event_log = some buf ∧
          dpu_stored_by cap decon decon1 = some r ∧
          decon1.d.event_log_idx = atomic_inc_return decon.d.event_log_idx ∧
          (-2147483648 ≤ decon.d.event_log_idx → decon.d.event_log_idx < 2147483647 →
            decon1.d.event_log_idx = decon.d.event_log_idx + 1) ∧
          (decon.d.event_log_idx = 2147483647 → decon1.d.event_log_idx = -2147483648) ∧
          decon1.d.event_log = some (buf.set (dpu_slot cap decon1.d.event_log_idx) r) ∧
          (0 ≤ decon1.d.event_log_idx →
            dpu_slot cap decon1.d.event_log_idx = decon1.d.event_log_idx.toNat % cap) ∧
          (decon.d.event_log_idx = -1 → dpu_slot cap decon1.d.event_log_idx = 0))) ∧
      (∀ type index env, c = .log type index env → index < 0 →
        decon1.d.event_log_idx = decon.d.event_log_idx) ∧
      (∀ index ktime dbg, c = .atomic_commit index ktime dbg →
        (index < 0 → decon1.d.event_log_idx = decon.d.event_log_idx) ∧
        (0 ≤ index → decon1.d.event_log_idx = atomic_inc_return decon.d.event_log_idx)) ∧
      (∀ type d0 len ktime caller, c = .cmd type d0 len ktime caller →
        decon1.d.event_log_idx = atomic_inc_return decon.d.event_log_idx) := by
  obtain ⟨decon1, hres, hr1, heff⟩ := apply_effect K max_win c decon hr
  obtain ⟨buf0, hb0, hl0⟩ := ready_buf hr
  obtain ⟨h0, h1, _⟩ := hr
  refine ⟨decon1, hres, ?_, ?_, ?_, ?_⟩
  · rcases heff with ⟨hlog, hidx⟩ | ⟨buf, r, hb, _, hidx, hlog⟩
    · exact Or.inl ⟨stored_by_unchanged cap decon decon1 hidx, hlog, hidx⟩
    · have hl : buf.length = cap := by
        rw [hb0] at hb
        cases hb
        exact hl0
      have hrange : -2147483648 ≤ decon1.d.event_log_idx ∧ decon1.d.event_log_idx < 2147483648 := by
        rw [hidx]
        unfold atomic_inc_return to_s32 to_u32
        split <;> omega
      refine Or.inr ⟨buf, r, hb, stored_by_store buf r decon decon1 h0 h1 hl hidx hlog, hidx,
        ?_, ?_, by rw [hidx]; exact hlog, ?_, ?_⟩
      · intro ha hb'
        rw [hidx]
        exact atomic_inc_return_succ _ ha hb'
      · intro ha
        rw [hidx, ha]
        decide
      · intro ha
        exact dpu_slot_nonneg cap _ ha (by omega)
      · intro ha
        rw [hidx, ha]
        show dpu_slot cap 0 = 0
        unfold dpu_slot
        exact Nat.zero_mod cap
  · intro type index env hc hi
    subst hc
    have e : dpu_call.apply cap K max_win (.log type index env) decon = .ok decon := by
      simp [dpu_call.apply, DPU_EVENT_LOG, hi]
    rw [e] at hres
    cases hres
    rfl
  · intro index ktime dbg hc
    subst hc
    constructor
    · intro hi
      have e : dpu_call.apply cap K max_win (.atomic_commit index ktime dbg) decon
          = .ok decon := by
        simp [dpu_call.apply, DPU_EVENT_LOG_ATOMIC_COMMIT, hi]
      rw [e] at hres
      cases hres
      rfl
    · intro hi
      have e := ATOMIC_COMMIT_ok max_win index ktime dbg decon h0 h1 hl0 hb0 (not_lt.mpr hi)
      have e2 : dpu_call.apply cap K max_win (.atomic_commit index ktime dbg) decon
          = DPU_EVENT_LOG_ATOMIC_COMMIT cap max_win index ktime dbg decon := rfl
      rw [e2, e] at hres
      cases hres
      rfl
  · intro type d0 len ktime caller hc
    subst hc
    have e := CMD_ok type d0 len ktime caller decon h0 h1 hl0 hb0
    have e2 : dpu_call.apply cap K max_win (.cmd type d0 len ktime caller) decon
        = .ok (dpu_store buf0 (dpu_slot cap (atomic_inc_return decon.d.event_log_idx) : Int)
        (dpu_cmd_record type d0 len ktime caller
          (buf0.getD (dpu_slot cap (atomic_inc_return decon.d.event_log_idx)) dpu_log_zero))
        { decon with d := { decon.d with
            event_log_idx := atomic_inc_return decon.d.event_log_idx } }) := by
      simp only [dpu_call.apply, e]
    rw [e2] at hres
    cases hres
    rfl

/-- A concrete instance: a DSIM command on a fresh buffer of capacity 8. -/
theorem record_advances_cursor_witness :
    dpu_log_ready 8 (dpu_fresh 8) ∧
    ∃ decon1, (dpu_call.cmd 5 1 2 1000000000 []).apply 8 3 6 (dpu_fresh 8) = .ok decon1 ∧
      decon1.d.event_log_idx = atomic_inc_return (dpu_fresh 8).d.event_log_idx :=
  ⟨by decide,
    match record_advances_cursor 8 3 6 (.cmd 5 1 2 1000000000 []) (dpu_fresh 8) (by decide) with
    | ⟨decon1, h, _, _, _, h5⟩ => ⟨decon1, h, h5 5 1 2 1000000000 [] rfl⟩⟩

/-- C22 as stated fails when the cursor stands at `INT_MAX`, as it does after
2^31 stored records: with capacity 3 a `DPU_EVENT_LOG` call that stores its
record leaves the cursor at -2147483648, not at 2147483648, and writes slot 2
(2147483648 modulo 3), while -2147483648 modulo 3 is 1. -/
theorem cursor_wraps_at_int_max :
    (DPU_EVENT_LOG 3 4 DPU_EVT_DECON_ENABLED 0 { ktime := 1000000000 }
        (dpu_at_cursor 3 2147483647)).map
      (fun d => (d.d.event_log_idx, d.d.event_log.map (fun b => b.map (fun l => l.type))))
      = .ok (-2147483648, some [0, 0, DPU_EVT_DECON_ENABLED]) ∧
    (-2147483648 : Int) ≠ 2147483647 + 1 ∧
    ((-2147483648 : Int) % 3).toNat = 1 :=
  ⟨rfl, by decide, by decide⟩

/-! ### The window lines of a commit -/

theorem print_log_atomic_windows (max_win : Nat) (win_config : List dpu_log_win) :
    (dpu_print_log_atomic max_win win_config).map dpu_line_window =
      ((List.range max_win).filter fun i =>
        decide ((win_config.getD i {}).win.state ≠ DPU_WIN_STATE_DISABLED)).map some := by
  unfold dpu_print_log_atomic
  induction List.range max_win with
  | nil => rfl
  | cons i t ih =>
    rw [List.filterMap_cons, List.filter_cons]
    by_cases h : (win_config.getD i {}).win.state = DPU_WIN_STATE_DISABLED
    · simp only [h, if_true, ne_eq, not_true_eq_false, decide_False, Bool.false_eq_true,
        if_false]
      exact ih
    · simp only [h, if_false, ne_eq, not_false_eq_true, decide_True, if_true, List.map_cons]
      rw [ih]
      rfl

/-- C23: for a commit-snapshot record the replay emits the event line and,
right after it, one `WIN` line for each window of the snapshot whose state is
not DISABLED, in increasing window index, and no line for a disabled window.
In the report of an available buffer the lines of each rendered record stand
together, in the order of the walk, between the header and the closing
rule. -/
theorem commit_window_lines (max_win : Nat) (log : dpu_log)
    (h : log.type = DPU_EVT_ATOMIC_COMMIT) :
    (∃ wins, dpu_log_lines max_win log = dpu_event_line log :: wins ∧
      wins = dpu_print_log_atomic max_win log.data.atomic_win_config ∧
      wins.map dpu_line_window =
        ((List.range max_win).filter fun i =>
          decide ((log.data.atomic_win_config.getD i {}).win.state
            ≠ DPU_WIN_STATE_DISABLED)).map some) ∧
    (∀ (cap max_logs : Nat) (decon : decon_device), dpu_log_ready cap decon →
      ∃ logs, dpu_event_log_visit cap decon max_logs = .ok (some logs) ∧
        dpu_event_log_print cap max_win decon max_logs =
          .ok ([dpu_line.rule, dpu_line.title, dpu_line.rule]
            ++ (logs.map (dpu_log_lines max_win)).flatten ++ [dpu_line.rule])) := by
  constructor
  · refine ⟨_, ?_, rfl, print_log_atomic_windows max_win _⟩
    unfold dpu_log_lines
    rw [if_pos h]
  · intro cap max_logs decon hr
    obtain ⟨buf, hb, hl⟩ := ready_buf hr
    obtain ⟨h0, h1, _⟩ := hr
    have hv := visit_spec decon buf max_logs h0 h1 hb hl
    exact ⟨_, hv, print_of_visit cap max_win max_logs decon _ hv⟩

/-- A concrete instance: the record a commit stores for three windows, the
second of them disabled. -/
theorem commit_window_lines_witness :
    (dpu_atomic_record 3 1000000000 dpu_sample_device.win_config (fun _ => 4096)
      dpu_log_zero).type = DPU_EVT_ATOMIC_COMMIT ∧
    ∃ wins,
      dpu_log_lines 3 (dpu_atomic_record 3 1000000000 dpu_sample_device.win_config
          (fun _ => 4096) dpu_log_zero)
        = dpu_event_line (dpu_atomic_record 3 1000000000 dpu_sample_device.win_config
          (fun _ => 4096) dpu_log_zero) :: wins ∧
      wins.map dpu_line_window = [some 0, some 2] :=
  ⟨rfl,
    match commit_window_lines 3 (dpu_atomic_record 3 1000000000 dpu_sample_device.win_config
      (fun _ => 4096) dpu_log_zero) rfl with
    | ⟨⟨wins, h1, _, h3⟩, _⟩ => ⟨wins, h1, h3⟩⟩

/-! ### Capacity zero and failed initialisation -/

/-- C25: the code at the failing input. With `dpu_event_log_max = 0` every
allocation of `dpu_init_debug` fails and `event_log` stays NULL; the three
recorders return at their NULL test, and `dpu_event_log_print` evaluates
`idx % dpu_event_log_max`, a remainder by zero, before its own. -/
theorem zero_capacity_remainder :
    (dpu_init_debug 0 3 dpu_alloc_never {}).decon.d.event_log = none ∧
    DPU_EVENT_LOG 0 4 DPU_EVT_DECON_ENABLED 0 {} (dpu_init_debug 0 3 dpu_alloc_never {}).decon
      = .ok (dpu_init_debug 0 3 dpu_alloc_never {}).decon ∧
    dpu_event_log_print 0 6 (dpu_init_debug 0 3 dpu_alloc_never {}).decon 512
      = .error .div_by_zero :=
  ⟨rfl, rfl, rfl⟩

/-- C26: the code at the failing input. With capacity 8, the allocation
succeeding and `decon->crtc` NULL, `dpu_init_debug` returns `-ENOENT` after
`vfree(decon->d.event_log)`, and `event_log` still points to the released
records; the next `DPU_EVENT_LOG` passes the NULL test, advances the cursor
to 0 and writes a record there. -/
theorem failed_init_keeps_event_log :
    (dpu_init_debug 8 3 dpu_no_crtc {}).ret = ENOENT_neg ∧
    (dpu_init_debug 8 3 dpu_no_crtc {}).freed = true ∧
    (dpu_init_debug 8 3 dpu_no_crtc {}).decon.d.event_log
      = some (List.replicate 8 dpu_log_zero) ∧
    (DPU_EVENT_LOG 8 4 DPU_EVT_DECON_ENABLED 0 { ktime := 1000000000 }
        (dpu_init_debug 8 3 dpu_no_crtc {}).decon).map
      (fun d => (d.d.event_log_idx, d.d.event_log.map (fun b => b.map (fun l => l.time))))
      = .ok (0, some [1000000000, 0, 0, 0, 0, 0, 0, 0]) :=
  ⟨rfl, rfl, rfl, rfl⟩

/-! ### The LUT parser -/

theorem get_lut_loop_nil (kstrto : String → Option Nat) (count i : Nat) (lut : List Nat) :
    get_lut_loop kstrto count [] i lut = .ok (0, lut) := rfl

theorem get_lut_loop_cons (kstrto : String → Option Nat) (count : Nat) (token : List Char)
    (rest : List (List Char)) (i : Nat) (lut : List Nat) :
    get_lut_loop kstrto count (token :: rest) i lut =
      if i ≥ count then .ok (0, lut)
      else
        match kstrto (String.mk token) with
        | none => .ok (EINVAL_neg, lut)
        | some v =>
          if i < lut.length then get_lut_loop kstrto count rest (i + 1) (lut.set i v)
          else .error .out_of_bounds := rfl

/-- The loop of `get_lut` from index `i` on a table of at least `count`
elements: it returns, with 0 exactly when each of the tokens it reaches (the
first `count - i` of those to come) parses and `-EINVAL` otherwise; it keeps
the length of the table and every element at or above `count` and below
`i`. -/
theorem get_lut_loop_spec (kstrto : String → Option Nat) (count : Nat) :
    ∀ (tokens : List (List Char)) (i : Nat) (lut : List Nat), count ≤ lut.length →
      ∃ ret lut1, get_lut_loop kstrto count tokens i lut = .ok (ret, lut1) ∧
        (ret = 0 ↔ ∀ t, t ∈ tokens.take (count - i) → (kstrto (String.mk t)).isSome = true) ∧
        (ret = 0 ∨ ret = EINVAL_neg) ∧
        lut1.length = lut.length ∧
        (∀ j, count ≤ j → lut1[j]? = lut[j]?) ∧
        (∀ j, j < i → lut1[j]? = lut[j]?) := by
  intro tokens
  induction tokens with
  | nil =>
    intro i lut _
    exact ⟨0, lut, rfl, by simp, Or.inl rfl, rfl, fun _ _ => rfl, fun _ _ => rfl⟩
  | cons token rest ih =>
    intro i lut hlen
    rw [get_lut_loop_cons]
    by_cases hi : i ≥ count
    · rw [if_pos hi]
      have e : count - i = 0 := by omega
      exact ⟨0, lut, rfl, by simp [e], Or.inl rfl, rfl, fun _ _ => rfl, fun _ _ => rfl⟩
    · rw [if_neg hi]
      obtain ⟨n, hn⟩ : ∃ n, count - i = n + 1 := ⟨count - i - 1, by omega⟩
      cases hk : kstrto (String.mk token) with
      | none =>
        refine ⟨EINVAL_neg, lut, rfl, ?_, Or.inr rfl, rfl, fun _ _ => rfl, fun _ _ => rfl⟩
        constructor
        · intro h
          exact absurd h (by decide)
        · intro h
          have := h token (by rw [hn, List.take_succ_cons]; exact List.mem_cons_self _ _)
          rw [hk] at this
          cases this
      | some v =>
        simp only []
        rw [if_pos (by omega)]
        obtain ⟨ret, lut1, h1, h2, h3, h4, h5, h6⟩ :=
          ih (i + 1) (lut.set i v) (by rw [List.length_set]; exact hlen)
        refine ⟨ret, lut1, h1, ?_, h3, by rw [h4, List.length_set], ?_, ?_⟩
        · rw [h2, hn, List.take_succ_cons]
          have e : count - (i + 1) = n := by omega
          rw [e]
          constructor
          · intro h t ht
            rcases List.mem_cons.mp ht with rfl | ht
            · rw [hk]; rfl
            · exact h t ht
          · intro h t ht
            exact h t (List.mem_cons_of_mem _ ht)
        · intro j hj
          rw [h5 j hj, List.getElem?_set_ne (by omega)]
        · intro j hj
          rw [h6 j (by omega), List.getElem?_set_ne (by omega)]

/-- C27: for every text, element size 16 or 32, `count` and `pcount`, on a
table of `count` elements (or more) `get_lut` returns, with 0 if each of the
first `min(count, number of tokens)` tokens that `strsep` cuts at the spaces
is accepted by the parser of the element width (`kstrtou16`, `kstrtou32`) and
`-EINVAL` otherwise; it writes no element with an index of `count` or more,
and `pcount` has no influence. -/
theorem get_lut_result (kstrtou16 kstrtou32 : String → Option Nat) (lut_buf : String)
    (count pcount : Nat) (lut : List Nat) (elem_size : Nat)
    (hs : elem_size = ELEM_SIZE_16 ∨ elem_size = ELEM_SIZE_32) (hlen : count ≤ lut.length) :
    ∃ ret lut1,
      get_lut kstrtou16 kstrtou32 lut_buf count pcount lut elem_size = .ok (ret, lut1) ∧
      (ret = 0 ↔ ∀ t, t ∈ (strsep_tokens lut_buf.toList).take
          (min count (strsep_tokens lut_buf.toList).length) →
        ((if elem_size = ELEM_SIZE_16 then kstrtou16 else kstrtou32) (String.mk t)).isSome
          = true) ∧
      (ret ≠ 0 → ret = EINVAL_neg) ∧
      lut1.length = lut.length ∧
      (∀ j, count ≤ j → lut1[j]? = lut[j]?) ∧
      get_lut kstrtou16 kstrtou32 lut_buf count 0 lut elem_size = .ok (ret, lut1) := by
  have htake : (strsep_tokens lut_buf.toList).take
      (min count (strsep_tokens lut_buf.toList).length)
      = (strsep_tokens lut_buf.toList).take count := by
    rw [List.take_eq_take]
    omega
  rw [htake]
  rcases hs with hs | hs
  · obtain ⟨ret, lut1, h1, h2, h3, h4, h5, _⟩ :=
      get_lut_loop_spec kstrtou16 count (strsep_tokens lut_buf.toList) 0 lut hlen
    have e : ∀ p, get_lut kstrtou16 kstrtou32 lut_buf count p lut elem_size
        = get_lut_loop kstrtou16 count (strsep_tokens lut_buf.toList) 0 lut := by
      intro p
      unfold get_lut
      rw [if_pos hs]
    rw [if_pos hs, e, e]
    refine ⟨ret, lut1, h1, h2, ?_, h4, h5, h1⟩
    intro hne
    rcases h3 with h3 | h3
    · exact absurd h3 hne
    · exact h3
  · have hne16 : ¬ elem_size = ELEM_SIZE_16 := by rw [hs]; decide
    obtain ⟨ret, lut1, h1, h2, h3, h4, h5, _⟩ :=
      get_lut_loop_spec kstrtou32 count (strsep_tokens lut_buf.toList) 0 lut hlen
    have e : ∀ p, get_lut kstrtou16 kstrtou32 lut_buf count p lut elem_size
        = get_lut_loop kstrtou32 count (strsep_tokens lut_buf.toList) 0 lut := by
      intro p
      unfold get_lut
      rw [if_neg hne16, if_pos hs]
    rw [if_neg hne16, e, e]
    refine ⟨ret, lut1, h1, h2, ?_, h4, h5, h1⟩
    intro hne
    rcases h3 with h3 | h3
    · exact absurd h3 hne
    · exact h3

/-- A concrete instance: four 16-bit elements, the third token not a
number. -/
theorem get_lut_result_witness :
    (ELEM_SIZE_16 = ELEM_SIZE_16 ∨ ELEM_SIZE_16 = ELEM_SIZE_32) ∧
    (4 : Nat) ≤ [0, 0, 0, 0].length ∧
    ∃ ret lut1,
      get_lut kstrto_digits kstrto_digits "10 20 x 40" 4 0 [0, 0, 0, 0] ELEM_SIZE_16
        = .ok (ret, lut1) ∧
      (ret ≠ 0 → ret = EINVAL_neg) ∧ lut1.length = 4 :=
  ⟨Or.inl rfl, by decide,
    match get_lut_result kstrto_digits kstrto_digits "10 20 x 40" 4 0 [0, 0, 0, 0] ELEM_SIZE_16
      (Or.inl rfl) (by decide) with
    | ⟨ret, lut1, h1, _, h3, h4, _, _⟩ => ⟨ret, lut1, h1, h3, h4⟩⟩

/-- Two runs of `get_lut` on a table of four elements: the text "10 20 x 40"
stores two values and returns `-EINVAL` at the third token; with `count = 2`
the same text returns 0, the loop leaving before the third token. -/
theorem get_lut_examples :
    get_lut kstrto_digits kstrto_digits "10 20 x 40" 4 0 [0, 0, 0, 0] ELEM_SIZE_16
      = .ok (EINVAL_neg, [10, 20, 0, 0]) ∧
    get_lut kstrto_digits kstrto_digits "10 20 x 40" 2 0 [0, 0, 0, 0] ELEM_SIZE_16
      = .ok (0, [10, 20, 0, 0]) :=
  ⟨rfl, rfl⟩

/-! ### The display quality enhancer -/

/-- C28: when the requested state has `enabled = false` or `force_disabled` is
set, `exynos_dqe_update` sets `dqe->state.enabled` to false and changes no
other field of the DQE nor any field of the requested state; its only
register call is `decon_reg_set_dqe_enable(0, false)`. -/
theorem dqe_update_disabled (dqe : exynos_dqe) (state : exynos_dqe_state) (width height : Nat)
    (h : state.enabled = false ∨ dqe.force_disabled = true) :
    exynos_dqe_update dqe state width height =
      ({ dqe with state := { dqe.state with enabled := false } }, state,
        [.decon_reg_set_dqe_enable 0 false]) := by
  have he : (state.enabled && !dqe.force_disabled) = false := by
    rcases h with h | h <;> simp [h]
  unfold exynos_dqe_update __exynos_dqe_update
  simp only [he]
  rfl

/-- A concrete instance: an enabled request on a DQE with `force_disabled`
set, a tracked CGC LUT and a dirty ATC configuration. -/
theorem dqe_update_disabled_witness :
    exynos_dqe_update
        { force_disabled := true, state := { enabled := true, cgc_lut := .blob 5 },
          cgc_first_write := true, force_atc_config := { en := true, dirty := true } }
        { enabled := true, cgc_lut := .blob 7 } 1080 2400 =
      ({ force_disabled := true, state := { enabled := false, cgc_lut := .blob 5 },
         cgc_first_write := true, force_atc_config := { en := true, dirty := true } },
        { enabled := true, cgc_lut := .blob 7 },
        [.decon_reg_set_dqe_enable 0 false]) :=
  dqe_update_disabled
    { force_disabled := true, state := { enabled := true, cgc_lut := .blob 5 },
      cgc_first_write := true, force_atc_config := { en := true, dirty := true } }
    { enabled := true, cgc_lut := .blob 7 } 1080 2400 (Or.inr rfl)

/-- The enabled path, for comparison: with `force_disabled` clear the same
request initialises the block and programs the display dither and the CGC
LUT. -/
theorem dqe_update_enabled_example :
    (exynos_dqe_update
        { state := { enabled := false, cgc_lut := .blob 5 } }
        { enabled := true, cgc_lut := .blob 7 } 1080 2400).2.2 =
      [.decon_reg_set_dqe_enable 0 true, .dqe_reg_init 1080 2400,
       .dqe_reg_set_disp_dither_local false, .dqe_reg_set_cgc_lut (.blob 7),
       .decon_reg_update_req_dqe 0] := rfl

/-! ### What a call that returns has done -/

theorem to_s32_of_nonneg (n : Nat) (hn : n < 4294967296) (h : 0 ≤ to_s32 (n : Int)) :
    to_s32 (n : Int) = (n : Int) := by
  unfold to_s32 to_u32 at h ⊢
  split at h <;> split <;> omega

theorem dpu_slot_u32 (cap : Nat) (c : Int) : dpu_slot cap c < 4294967296 := by
  unfold dpu_slot to_u32
  have h1 : (c % 4294967296).toNat < 4294967296 := by omega
  exact Nat.lt_of_le_of_lt (Nat.mod_le _ _) h1

theorem log_at_some (buf : List dpu_log) (n : Nat) (hn : n < 4294967296) (log : dpu_log)
    (h : log_at buf (to_s32 (n : Int)) = some log) :
    to_s32 (n : Int) = (n : Int) ∧ n < buf.length ∧ buf[n]? = some log := by
  unfold log_at at h
  by_cases hneg : to_s32 (n : Int) < 0
  · rw [if_pos hneg] at h
    cases h
  · rw [if_neg hneg] at h
    have e := to_s32_of_nonneg n hn (by omega)
    rw [e, Int.toNat_ofNat] at h
    refine ⟨e, ?_, h⟩
    by_contra hge
    rw [List.getElem?_eq_none (by omega)] at h
    cases h

/-- A slot claim that returns has advanced the cursor by one claim and found
the slot of the new cursor inside the buffer. -/
theorem claim_slot_of_ok {cap : Nat} (buf : List dpu_log) (decon decon1 : decon_device)
    (idx : Int) (log : dpu_log) (h : dpu_claim_slot cap buf decon = .ok (decon1, idx, log)) :
    decon1 = { decon with d := { decon.d with
        event_log_idx := atomic_inc_return decon.d.event_log_idx } } ∧
      idx = (dpu_slot cap (atomic_inc_return decon.d.event_log_idx) : Int) ∧
      to_s32 (dpu_slot cap (atomic_inc_return decon.d.event_log_idx) : Int)
        = (dpu_slot cap (atomic_inc_return decon.d.event_log_idx) : Int) ∧
      dpu_slot cap (atomic_inc_return decon.d.event_log_idx) < buf.length := by
  unfold dpu_claim_slot at h
  by_cases hc : cap = 0
  · rw [if_pos hc] at h
    cases h
  · rw [if_neg hc] at h
    simp only [] at h
    cases hl : log_at buf (to_s32 (dpu_slot cap (atomic_inc_return decon.d.event_log_idx) : Int)) with
    | none =>
      rw [hl] at h
      cases h
    | some l =>
      rw [hl] at h
      obtain ⟨e1, e2, _⟩ := log_at_some buf _ (dpu_slot_u32 cap _) l hl
      simp only [Except.ok.injEq, Prod.mk.injEq] at h
      obtain ⟨h1, h2, _⟩ := h
      exact ⟨h1.symm, by rw [← h2, e1], e1, e2⟩

/-- The effect on the buffer and the cursor of a stored record. -/
theorem store_effect (buf : List dpu_log) (s : Nat) (r : dpu_log) (decon : decon_device) :
    (dpu_store buf (s : Int) r decon).d.event_log = some (buf.set s r) ∧
    (dpu_store buf (s : Int) r decon).d.event_log_idx = decon.d.event_log_idx :=
  ⟨dpu_store_event_log buf s r decon, rfl⟩

/-- What a call of a recorder that returns has done to the buffer and the
cursor, for every capacity: nothing, or one claim of the cursor and one
record, stamped with the clock of the call, in the slot of the new cursor. -/
theorem apply_effect_of_ok {cap : Nat} (K max_win : Nat) (c : dpu_call)
    (decon decon1 : decon_device) (buf : List dpu_log)
    (hb : decon.d.event_log = some buf)
    (hres : c.apply cap K max_win decon = .ok decon1) :
    (decon1.d.event_log = some buf ∧
        decon1.d.event_log_idx = decon.d.event_log_idx) ∨
      ∃ r, r.time = c.ktime ∧
        decon1.d.event_log_idx = atomic_inc_return decon.d.event_log_idx ∧
        to_s32 (dpu_slot cap (atomic_inc_return decon.d.event_log_idx) : Int)
          = (dpu_slot cap (atomic_inc_return decon.d.event_log_idx) : Int) ∧
        dpu_slot cap (atomic_inc_return decon.d.event_log_idx) < buf.length ∧
        decon1.d.event_log =
          some (buf.set (dpu_slot cap (atomic_inc_return decon.d.event_log_idx)) r) := by
  cases c with
  | log type index env =>
    have hres2 : DPU_EVENT_LOG cap K type index env decon = .ok decon1 := hres
    unfold DPU_EVENT_LOG at hres2
    by_cases hi : index < 0
    · rw [if_pos hi] at hres2
      cases hres2
      exact Or.inl ⟨hb, rfl⟩
    · rw [if_neg hi, hb] at hres2
      simp only [] at hres2
      obtain ⟨g1, g2, _⟩ := gate_frame type decon.d
      rcases hg : dpu_event_log_gate type decon.d with ⟨d1, o⟩
      rw [hg] at hres2 g1 g2
      simp only [] at g1 g2
      cases o with
      | none =>
        simp only [] at hres2
        cases hres2
        exact Or.inl ⟨g1.trans hb, g2⟩
      | some skip =>
        simp only [] at hres2
        cases hign : (if skip = true then dpu_event_ignore cap K type d1 else .ok false) with
        | error e =>
          rw [hign] at hres2
          cases hres2
        | ok b =>
          rw [hign] at hres2
          cases b with
          | true =>
            simp only [] at hres2
            cases hres2
            exact Or.inl ⟨g1.trans hb, g2⟩
          | false =>
            simp only [] at hres2
            cases hcl : dpu_claim_slot cap buf { decon with d := d1 } with
            | error e =>
              rw [hcl] at hres2
              cases hres2
            | ok t =>
              obtain ⟨d2, idx, log⟩ := t
              rw [hcl] at hres2
              simp only [Except.ok.injEq] at hres2
              obtain ⟨e1, e2, e3, e4⟩ := claim_slot_of_ok buf _ d2 idx log hcl
              simp only [] at e2 e3 e4
              rw [g2] at e2 e3 e4
              subst e2
              refine Or.inr ⟨dpu_log_record type env d2 log, rfl, ?_, e3, e4, ?_⟩
              · rw [← hres2, (store_effect buf _ _ d2).2, e1]
                exact congrArg atomic_inc_return g2
              · rw [← hres2, (store_effect buf _ _ d2).1]
  | atomic_commit index ktime dbg =>
    have hres2 : DPU_EVENT_LOG_ATOMIC_COMMIT cap max_win index ktime dbg decon
        = .ok decon1 := hres
    unfold DPU_EVENT_LOG_ATOMIC_COMMIT at hres2
    by_cases hi : index < 0
    · rw [if_pos hi] at hres2
      cases hres2
      exact Or.inl ⟨hb, rfl⟩
    · rw [if_neg hi, hb] at hres2
      simp only [] at hres2
      cases hcl : dpu_claim_slot cap buf decon with
      | error e =>
        rw [hcl] at hres2
        cases hres2
      | ok t =>
        obtain ⟨d2, idx, log⟩ := t
        rw [hcl] at hres2
        simp only [Except.ok.injEq] at hres2
        obtain ⟨e1, e2, e3, e4⟩ := claim_slot_of_ok buf _ d2 idx log hcl
        subst e2
        refine Or.inr ⟨dpu_atomic_record max_win ktime decon.win_config dbg log, rfl, ?_,
          e3, e4, ?_⟩
        · rw [← hres2, (store_effect buf _ _ _).2, e1]
        · rw [← hres2, (store_effect buf _ _ _).1]
  | cmd type d0 len ktime caller =>
    have hres2 : (match DPU_EVENT_LOG_CMD cap type d0 len ktime caller (some decon) with
        | .error e => .error e
        | .ok none => .ok decon
        | .ok (some d) => .ok d) = Except.ok decon1 := hres
    unfold DPU_EVENT_LOG_CMD at hres2
    simp only [hb] at hres2
    cases hcl : dpu_claim_slot cap buf decon with
    | error e =>
      rw [hcl] at hres2
      cases hres2
    | ok t =>
      obtain ⟨d2, idx, log⟩ := t
      rw [hcl] at hres2
      simp only [Except.ok.injEq] at hres2
      obtain ⟨e1, e2, e3, e4⟩ := claim_slot_of_ok buf _ d2 idx log hcl
      subst e2
      refine Or.inr ⟨dpu_cmd_record type d0 len ktime caller log, rfl, ?_, e3, e4, ?_⟩
      · rw [← hres2, (store_effect buf _ _ _).2, e1]
      · rw [← hres2, (store_effect buf _ _ _).1]

theorem stored_by_of_store (cap : Nat) (buf : List dpu_log) (r : dpu_log)
    (decon decon1 : decon_device)
    (hidx : decon1.d.event_log_idx = atomic_inc_return decon.d.event_log_idx)
    (hs : to_s32 (dpu_slot cap (atomic_inc_return decon.d.event_log_idx) : Int)
      = (dpu_slot cap (atomic_inc_return decon.d.event_log_idx) : Int))
    (hlt : dpu_slot cap (atomic_inc_return decon.d.event_log_idx) < buf.length)
    (hlog : decon1.d.event_log =
      some (buf.set (dpu_slot cap (atomic_inc_return decon.d.event_log_idx)) r)) :
    dpu_stored_by cap decon decon1 = some r := by
  have hne : ¬ decon1.d.event_log_idx = decon.d.event_log_idx := by
    rw [hidx]; exact atomic_inc_return_ne _
  unfold dpu_stored_by
  rw [if_neg hne, hlog]
  simp only [hidx, hs, log_at_nat]
  rw [List.getElem?_set_eq_of_lt _ hlt]

theorem atomic_inc_return_range (x : Int) :
    -2147483648 ≤ atomic_inc_return x ∧ atomic_inc_return x < 2147483648 := by
  unfold atomic_inc_return to_s32 to_u32
  split <;> omega

theorem recent_inv_fresh (cap : Nat) : dpu_recent_inv cap (dpu_fresh cap) [] :=
  ⟨_, rfl, List.length_replicate _ _, by show (-2147483648 : Int) ≤ -1; decide,
    by show (-1 : Int) < 2147483648; decide, fun j hj => absurd hj (by simp)⟩

/-- One call that returns keeps the invariant of the most recent records,
with the record it stored (if any) appended to the history; that record
carries the clock value of the call. -/
theorem recent_step {cap : Nat} (K max_win : Nat) (c : dpu_call)
    (decon decon1 : decon_device) (pre : List dpu_log)
    (hinv : dpu_recent_inv cap decon pre)
    (hres : c.apply cap K max_win decon = .ok decon1) :
    dpu_recent_inv cap decon1 (pre ++ (dpu_stored_by cap decon decon1).toList) ∧
    ∀ l ∈ (dpu_stored_by cap decon decon1).toList, l.time = c.ktime := by
  obtain ⟨buf, hb, hl, hlo, hhi, hring⟩ := hinv
  rcases apply_effect_of_ok K max_win c decon decon1 buf hb hres with
    ⟨hlog, hidx⟩ | ⟨r, hrt, hidx, hs, hlt, hlog⟩
  · rw [stored_by_unchanged cap decon decon1 hidx, Option.toList, List.append_nil]
    refine ⟨⟨buf, hlog, hl, by rw [hidx]; exact hlo, by rw [hidx]; exact hhi, ?_⟩, by simp⟩
    intro j h1 h2 h3
    rw [hidx] at h3 ⊢
    exact hring j h1 h2 h3
  · rw [stored_by_of_store cap buf r decon decon1 hidx hs hlt hlog]
    obtain ⟨r1, r2⟩ := atomic_inc_return_range decon.d.event_log_idx
    refine ⟨⟨_, hlog, by rw [List.length_set]; exact hl, by rw [hidx]; exact r1,
      by rw [hidx]; exact r2, ?_⟩, ?_⟩
    · intro j h1 h2 h3
      simp only [Option.toList, List.length_append, List.length_singleton] at h1 ⊢
      rw [hidx] at h3 ⊢
      cases j with
      | zero =>
        have e : atomic_inc_return decon.d.event_log_idx - ((0 : Nat) : Int)
            = atomic_inc_return decon.d.event_log_idx := by omega
        rw [e, List.getElem?_set_eq_of_lt _ hlt]
        have e2 : pre.length + 1 - 1 - 0 = pre.length := by omega
        rw [e2, List.getElem?_append_right (Nat.le_refl _), Nat.sub_self]
        rfl
      | succ j =>
        have hinc : atomic_inc_return decon.d.event_log_idx = decon.d.event_log_idx + 1 := by
          apply atomic_inc_return_succ _ hlo
          by_contra hge
          have hmax : decon.d.event_log_idx = 2147483647 := by omega
          rw [hmax] at h3
          have : atomic_inc_return 2147483647 = -2147483648 := by decide
          rw [this] at h3
          omega
        rw [hinc] at h3 ⊢
        have e : decon.d.event_log_idx + 1 - ((j + 1 : Nat) : Int)
            = decon.d.event_log_idx - (j : Int) := by omega
        rw [e]
        have hne : dpu_slot cap (decon.d.event_log_idx + 1)
            ≠ dpu_slot cap (decon.d.event_log_idx - (j : Int)) :=
          (slot_ne_of_lt cap (decon.d.event_log_idx - (j : Int)) (decon.d.event_log_idx + 1)
            ⟨by omega, by omega⟩ ⟨by omega, by omega⟩ (by omega) (by omega)
            (Or.inl ⟨fun _ => by omega, fun _ => by omega⟩)).symm
        rw [List.getElem?_set_ne hne, hring j (by omega) (by omega) (by omega)]
        have e2 : pre.length + 1 - 1 - (j + 1) = pre.length - 1 - j := by omega
        rw [e2, List.getElem?_append_left (by omega)]
    · intro l hmem
      simp only [Option.toList, List.mem_singleton] at hmem
      rw [hmem]
      exact hrt

/-- A single-threaded history that returns keeps the invariant of the most
recent records; every record it stored carries the clock value of one of its
calls. -/
theorem recent_run {cap : Nat} (K max_win : Nat) (calls : List dpu_call) :
    ∀ (decon decon1 : decon_device) (pre stored : List dpu_log),
      dpu_recent_inv cap decon pre →
      dpu_run cap K max_win calls decon = .ok (decon1, stored) →
      dpu_recent_inv cap decon1 (pre ++ stored) ∧
      ∀ l ∈ stored, ∃ c ∈ calls, l.time = c.ktime := by
  induction calls with
  | nil =>
    intro decon decon1 pre stored hinv hrun
    have e : dpu_run cap K max_win [] decon = .ok (decon, []) := rfl
    rw [e] at hrun
    simp only [Except.ok.injEq, Prod.mk.injEq] at hrun
    obtain ⟨h1, h2⟩ := hrun
    subst h1 h2
    exact ⟨by rw [List.append_nil]; exact hinv, by simp⟩
  | cons c cs ih =>
    intro decon decon1 pre stored hinv hrun
    rw [dpu_run_cons] at hrun
    cases happ : c.apply cap K max_win decon with
    | error e =>
      rw [happ] at hrun
      cases hrun
    | ok d1 =>
      rw [happ] at hrun
      simp only [] at hrun
      cases hrest : dpu_run cap K max_win cs d1 with
      | error e =>
        rw [hrest] at hrun
        cases hrun
      | ok t =>
        obtain ⟨d2, st⟩ := t
        rw [hrest] at hrun
        simp only [Except.ok.injEq, Prod.mk.injEq] at hrun
        obtain ⟨h1, h2⟩ := hrun
        subst h1 h2
        obtain ⟨hstep, htime⟩ := recent_step K max_win c decon d1 pre hinv happ
        obtain ⟨hinv2, htime2⟩ := ih d1 d2 _ st hstep hrest
        refine ⟨by rw [← List.append_assoc]; exact hinv2, ?_⟩
        intro l hl
        rcases List.mem_append.mp hl with h | h
        · exact ⟨c, List.mem_cons_self _ _, htime l h⟩
        · obtain ⟨c', hc', hlc⟩ := htime2 l h
          exact ⟨c', List.mem_cons_of_mem _ hc', hlc⟩

/-! ### Replay of the most recent records, for every capacity -/

/-- The increment `if (++idx >= dpu_event_log_max) idx = 0` on an index inside
the buffer and below `INT_MAX`. -/
theorem walk_next_int (cap i : Nat) (hi : i < cap) (hb : i + 1 ≤ 2147483647) :
    (if to_u32 (to_s32 ((i : Int) + 1)) ≥ cap then (0 : Int) else to_s32 ((i : Int) + 1))
      = (((i + 1) % cap : Nat) : Int) := by
  have e1 : to_s32 ((i : Int) + 1) = ((i + 1 : Nat) : Int) := by
    unfold to_s32 to_u32
    split <;> omega
  have e2 : to_u32 ((i + 1 : Nat) : Int) = i + 1 := by unfold to_u32; omega
  rw [e1, e2]
  by_cases h : i + 1 = cap
  · rw [if_pos (by omega), h, Nat.mod_self]
    rfl
  · rw [if_neg (by omega), Nat.mod_eq_of_lt (by omega)]

/-- The walk from index `i` to `latest`, `n + 1` slots further on the ring,
through indices below `INT_MAX` and slots whose time stamps have non-zero
seconds, renders these `n + 1` records in order. -/
theorem walk_visit_int {cap : Nat} (buf : List dpu_log) (L : Nat) (h0 : 0 < cap)
    (hl : buf.length = cap) :
    ∀ (n fuel i : Nat), i < cap → n + 1 ≤ fuel → (i + (n + 1)) % cap = L →
      (∀ k, 1 ≤ k → k ≤ n → (i + k) % cap ≠ L) →
      (∀ k, k ≤ n → (i + k) % cap + 1 ≤ 2147483647) →
      (∀ k, k ≤ n → ∀ l, buf[(i + 1 + k) % cap]? = some l → l.time / NSEC_PER_SEC ≠ 0) →
      dpu_event_log_walk cap buf (L : Int) fuel (i : Int) =
        .ok ((List.range (n + 1)).map fun k => buf.getD ((i + 1 + k) % cap) dpu_log_zero) := by
  intro n
  induction n with
  | zero =>
    intro fuel i hi hf hL _ hbd hts
    obtain ⟨f, rfl⟩ : ∃ f, fuel = f + 1 := ⟨fuel - 1, by omega⟩
    have hlt : (i + 1) % cap < buf.length := by rw [hl]; exact Nat.mod_lt _ h0
    have hb0 : i + 1 ≤ 2147483647 := by
      have := hbd 0 (Nat.le_refl _)
      have e : (i + 0) % cap = i := Nat.mod_eq_of_lt hi
      omega
    rw [walk_succ, walk_next_int cap i hi hb0, log_at_nat, getElem?_getD_of_lt _ _ hlt]
    simp only []
    rw [if_neg (hts 0 (by omega) _ (getElem?_getD_of_lt _ _ hlt))]
    rw [if_neg (by rw [← hL]; simp)]
    rfl
  | succ n ih =>
    intro fuel i hi hf hL hne hbd hts
    obtain ⟨f, rfl⟩ : ∃ f, fuel = f + 1 := ⟨fuel - 1, by omega⟩
    have hlt : (i + 1) % cap < buf.length := by rw [hl]; exact Nat.mod_lt _ h0
    have hb0 : i + 1 ≤ 2147483647 := by
      have := hbd 0 (Nat.zero_le _)
      have e : (i + 0) % cap = i := Nat.mod_eq_of_lt hi
      omega
    rw [walk_succ, walk_next_int cap i hi hb0, log_at_nat, getElem?_getD_of_lt _ _ hlt]
    simp only []
    rw [if_neg (hts 0 (by omega) _ (getElem?_getD_of_lt _ _ hlt))]
    have hne1 : (L : Int) ≠ (((i + 1) % cap : Nat) : Int) := by
      have := hne 1 (by omega) (by omega)
      omega
    rw [if_pos hne1]
    have hrec := ih f ((i + 1) % cap) (Nat.mod_lt _ h0) (by omega)
      (by rw [Nat.mod_add_mod]; rw [← hL]; congr 1; omega)
      (fun k hk1 hk2 => by
        rw [Nat.mod_add_mod]
        have := hne (k + 1) (by omega) (by omega)
        rwa [show i + (k + 1) = i + 1 + k by omega] at this)
      (fun k hk => by
        rw [Nat.mod_add_mod]
        have := hbd (k + 1) (by omega)
        rwa [show i + (k + 1) = i + 1 + k by omega] at this)
      (fun k hk l hkl => by
        apply hts (k + 1) (by omega) l
        rwa [ring_succ_add] at hkl)
    rw [hrec]
    simp only []
    rw [List.range_succ_eq_map (n + 1), List.map_cons, List.map_map]
    congr 2
    apply List.map_congr_left
    intro k _
    simp only [Function.comp, Nat.add_zero]
    rw [ring_succ_add]

theorem ring_slot_shift (cap c m k : Nat) :
    ((c - m) % cap + 1 + k) % cap = (c - m + 1 + k) % cap := by
  rw [Nat.add_assoc, Nat.mod_add_mod, Nat.add_assoc]

/-- With the cursor at `c`, at least `m` and at most `INT_MAX`, and
`1 ≤ m ≤ capacity`, the replay with `max_logs = m` visits the slots of the
cursor values `c - m + 1` to `c`, in this order, when their time stamps have
non-zero seconds. -/
theorem visit_recent {cap : Nat} (decon : decon_device) (buf : List dpu_log) (m c : Nat)
    (h0 : 0 < cap) (hb : decon.d.event_log = some buf) (hl : buf.length = cap)
    (hidx : decon.d.event_log_idx = (c : Int)) (hc : c ≤ 2147483647)
    (hm1 : 1 ≤ m) (hm : m ≤ cap) (hmc : m ≤ c)
    (hts : ∀ k, k < m → ∀ l, buf[(c - m + 1 + k) % cap]? = some l →
      l.time / NSEC_PER_SEC ≠ 0) :
    dpu_event_log_visit cap decon m =
      .ok (some ((List.range m).map fun k =>
        buf.getD ((c - m + 1 + k) % cap) dpu_log_zero)) := by
  have hcne : cap ≠ 0 := Nat.pos_iff_ne_zero.mp h0
  have hmodc : c % cap ≤ c := Nat.mod_le _ _
  have elatest : to_s32 (dpu_slot cap (c : Int) : Int) = ((c % cap : Nat) : Int) := by
    rw [dpu_slot_nat cap c (by omega)]
    unfold to_s32 to_u32
    split <;> omega
  have hmodm : (c - m) % cap ≤ c - m := Nat.mod_le _ _
  have estart : dpu_event_log_start cap (c : Int) m = (((c - m) % cap : Nat) : Int) := by
    have e1 : to_u64 (c : Int) = c := by unfold to_u64; omega
    have e2 : to_u64 ((c : Int) - (m : Int)) = c - m := by unfold to_u64; omega
    have em : (if m > cap then cap else m) = m := if_neg (by omega)
    unfold dpu_event_log_start
    simp only [em]
    rw [e1, if_neg (by omega), e2]
    unfold to_s32 to_u32
    split <;> omega
  obtain ⟨n, rfl⟩ : ∃ n, m = n + 1 := ⟨m - 1, by omega⟩
  have hwalk := walk_visit_int buf (c % cap) h0 hl n cap ((c - (n + 1)) % cap)
    (Nat.mod_lt _ h0) hm
    (by rw [Nat.mod_add_mod]; congr 1; omega)
    (fun k hk1 hk2 => by
      rw [Nat.mod_add_mod]
      exact mod_ne_of_lt_of_sub_lt cap _ _ (by omega) (by omega))
    (fun k hk => by
      rw [Nat.mod_add_mod]
      have := Nat.mod_le (c - (n + 1) + k) cap
      omega)
    (fun k hk l hkl => by
      rw [ring_slot_shift cap c (n + 1) k] at hkl
      exact hts k (by omega) l hkl)
  unfold dpu_event_log_visit
  rw [if_neg hcne]
  simp only [hb, hidx, elatest, estart, hwalk]
  congr 3
  funext k
  rw [ring_slot_shift cap c (n + 1) k]

/-- C24: for every capacity of at least 1, every `m` with
`1 ≤ m ≤ capacity` and every single-threaded history on a fresh buffer that
has stored more than `m` records, all stamped with at least one second, and
has left the cursor at `m` or above, `dpu_event_log_print` with
`max_logs = m` renders exactly the `m` most recently stored records, the
oldest of them first and the latest record last: `m` event lines. -/
theorem print_most_recent (cap K max_win m : Nat) (calls : List dpu_call)
    (decon : decon_device) (stored : List dpu_log)
    (h0 : 1 ≤ cap) (hm1 : 1 ≤ m) (hm : m ≤ cap)
    (hrun : dpu_run cap K max_win calls (dpu_fresh cap) = .ok (decon, stored))
    (hlen : m < stored.length) (hcur : (m : Int) ≤ decon.d.event_log_idx)
    (hts : ∀ l ∈ stored, NSEC_PER_SEC ≤ l.time) :
    ∃ report,
      dpu_event_log_print cap max_win decon m = .ok report ∧
      report = [dpu_line.rule, dpu_line.title, dpu_line.rule]
        ++ ((stored.drop (stored.length - m)).map (dpu_log_lines max_win)).flatten
        ++ [dpu_line.rule] ∧
      dpu_event_lines report = (stored.drop (stored.length - m)).map dpu_event_line ∧
      (dpu_event_lines report).length = m ∧
      (stored.drop (stored.length - m)).getLast? = stored.getLast? := by
  obtain ⟨hinv, -⟩ :=
    recent_run K max_win calls (dpu_fresh cap) decon [] stored (recent_inv_fresh cap) hrun
  rw [List.nil_append] at hinv
  obtain ⟨buf, hb, hl, hlo, hhi, hring⟩ := hinv
  obtain ⟨c, hidx⟩ : ∃ c : Nat, decon.d.event_log_idx = (c : Int) :=
    ⟨decon.d.event_log_idx.toNat, by omega⟩
  rw [hidx] at hcur hhi hring
  have hc : c ≤ 2147483647 := by omega
  have hmc : m ≤ c := by omega
  have hslot : ∀ k, k < m → buf[(c - m + 1 + k) % cap]? = stored[stored.length - m + k]? := by
    intro k hk
    have h := hring (m - 1 - k) (by omega) (by omega) (by omega)
    have e1 : (c : Int) - ((m - 1 - k : Nat) : Int) = ((c - m + 1 + k : Nat) : Int) := by omega
    have e2 : stored.length - 1 - (m - 1 - k) = stored.length - m + k := by omega
    rw [e1, dpu_slot_nat cap _ (by omega), e2] at h
    exact h
  have hv := visit_recent decon buf m c (by omega) hb hl hidx hc hm1 hm hmc
    (fun k hk l hkl => by
      rw [hslot k hk] at hkl
      have hmem : l ∈ stored := List.getElem?_mem hkl
      have := hts l hmem
      have hpos : 0 < l.time / NSEC_PER_SEC := Nat.div_pos this (by decide)
      omega)
  have hlist : ((List.range m).map fun k => buf.getD ((c - m + 1 + k) % cap) dpu_log_zero)
      = stored.drop (stored.length - m) := by
    apply List.ext_getElem?
    intro k
    rw [List.getElem?_map, List.getElem?_drop]
    by_cases hk : k < m
    · rw [List.getElem?_range hk, Option.map_some']
      have h2 := hslot k hk
      have hj : stored.length - m + k < stored.length := by omega
      rw [List.getElem?_eq_getElem hj] at h2 ⊢
      rw [List.getD_eq_getElem?_getD, h2]
      rfl
    · rw [List.getElem?_eq_none (by simpa using hk), Option.map_none',
        List.getElem?_eq_none (by omega)]
  rw [hlist] at hv
  refine ⟨_, print_of_visit cap max_win m decon _ hv, rfl, event_lines_report _ _, ?_, ?_⟩
  · rw [event_lines_report, List.length_map, List.length_drop]
    omega
  · rw [List.getLast?_drop, if_neg (by omega)]

/-- A concrete instance: five records on a buffer of capacity 4, the replay
asked for the last two. -/
theorem print_most_recent_witness :
    dpu_run 4 3 6 (dpu_plain_calls 5) (dpu_fresh 4)
      = .ok ((dpu_plain_history 4 3 6 5).1, (dpu_plain_history 4 3 6 5).2) ∧
    2 < (dpu_plain_history 4 3 6 5).2.length ∧
    ((2 : Nat) : Int) ≤ (dpu_plain_history 4 3 6 5).1.d.event_log_idx ∧
    (∀ l ∈ (dpu_plain_history 4 3 6 5).2, NSEC_PER_SEC ≤ l.time) ∧
    ∃ report,
      dpu_event_log_print 4 6 (dpu_plain_history 4 3 6 5).1 2 = .ok report ∧
      dpu_event_lines report =
        ((dpu_plain_history 4 3 6 5).2.drop ((dpu_plain_history 4 3 6 5).2.length - 2)).map
          dpu_event_line ∧
      (dpu_event_lines report).length = 2 :=
  ⟨rfl, by decide, by decide, by decide,
    match print_most_recent 4 3 6 2 (dpu_plain_calls 5) (dpu_plain_history 4 3 6 5).1
      (dpu_plain_history 4 3 6 5).2 (by decide) (by decide) (by decide)
      rfl (by decide) (by decide) (by decide) with
    | ⟨report, h1, _, h3, h4, _⟩ => ⟨report, h1, h3, h4⟩⟩

/-- The report of that history: the records of 4 s and 5 s. -/
theorem print_most_recent_example :
    (dpu_replay 4 3 6 (dpu_plain_calls 5) (dpu_fresh 4) 2).map
      (fun r => (r.1.map (fun l => l.time), dpu_event_lines r.2))
      = .ok ([1000000000, 2000000000, 3000000000, 4000000000, 5000000000],
          [.event 4 0 (some "DECON_ENABLED") .plain,
           .event 5 0 (some "DECON_ENABLED") .plain]) := rfl

/-! ### Replay after the cursor has passed `INT_MAX` -/

/-- A call of a type that is never coalesced, with index 0, on an available
buffer: it returns, stores one record and advances the cursor by one claim. -/
theorem plain_step {cap : Nat} (K max_win : Nat) (env : dpu_env) (decon : decon_device)
    (hr : dpu_log_ready cap decon) :
    ∃ decon1, (dpu_call.log DPU_EVT_DECON_ENABLED 0 env).apply cap K max_win decon
        = .ok decon1 ∧
      dpu_log_ready cap decon1 ∧
      decon1.d.event_log_idx = atomic_inc_return decon.d.event_log_idx ∧
      (dpu_stored_by cap decon decon1).toList.length = 1 := by
  obtain ⟨buf, hb, hl⟩ := ready_buf hr
  obtain ⟨h0, h1, _⟩ := hr
  obtain ⟨b, hres, hiff⟩ :=
    DPU_EVENT_LOG_cases K DPU_EVT_DECON_ENABLED 0 env decon h0 h1 hl hb (by decide)
  have hg := gate_plain DPU_EVT_DECON_ENABLED decon.d (by decide)
  rw [hg] at hiff hres
  have hbf : b = false := by
    cases b with
    | false => rfl
    | true =>
      rcases hiff.mp rfl with h | ⟨h, _⟩
      · cases h
      · cases h
  rw [hbf] at hres
  simp only [Bool.false_eq_true, if_false] at hres
  refine ⟨_, hres, dpu_store_ready buf _ _ _ h0 h1 hl, rfl, ?_⟩
  rw [stored_by_store buf _ decon _ h0 h1 hl rfl (dpu_store_event_log buf _ _ _)]
  rfl

/-- A history of calls of a type that is never coalesced on an available
buffer: it returns, every call stores a record and the cursor advances by one
claim for each. -/
theorem plain_run {cap : Nat} (K max_win : Nat) (calls : List dpu_call) :
    ∀ (decon : decon_device), dpu_log_ready cap decon →
      (∀ c ∈ calls, ∃ env, c = .log DPU_EVT_DECON_ENABLED 0 env) →
      ∃ decon1 stored, dpu_run cap K max_win calls decon = .ok (decon1, stored) ∧
        dpu_log_ready cap decon1 ∧
        decon1.d.event_log_idx = atomic_inc_return^[calls.length] decon.d.event_log_idx ∧
        stored.length = calls.length := by
  induction calls with
  | nil =>
    intro decon hr _
    exact ⟨decon, [], rfl, hr, rfl, rfl⟩
  | cons c cs ih =>
    intro decon hr hc
    obtain ⟨env, rfl⟩ := hc c (List.mem_cons_self _ _)
    obtain ⟨d1, hd1, hr1, hi1, hs1⟩ := plain_step K max_win env decon hr
    obtain ⟨d2, stored, hrun, hr2, hi2, hs2⟩ :=
      ih d1 hr1 (fun c' hc' => hc c' (List.mem_cons_of_mem _ hc'))
    refine ⟨d2, (dpu_stored_by cap decon d1).toList ++ stored, ?_, hr2, ?_, ?_⟩
    · rw [dpu_run_cons]
      simp only [hd1, hrun]
    · rw [hi2, hi1, List.length_cons, Function.iterate_succ_apply]
    · rw [List.length_append, hs1, hs2, List.length_cons]
      omega

theorem plain_calls_length (n : Nat) : (dpu_plain_calls n).length = n := by
  unfold dpu_plain_calls
  rw [List.length_map, List.length_range]

theorem plain_calls_form (n : Nat) :
    ∀ c ∈ dpu_plain_calls n, ∃ env, c = .log DPU_EVT_DECON_ENABLED 0 env := by
  intro c hc
  unfold dpu_plain_calls at hc
  obtain ⟨k, _, rfl⟩ := List.mem_map.mp hc
  exact ⟨_, rfl⟩

theorem plain_calls_ktime (n : Nat) : ∀ c ∈ dpu_plain_calls n, NSEC_PER_SEC ≤ c.ktime := by
  intro c hc
  unfold dpu_plain_calls at hc
  obtain ⟨k, _, rfl⟩ := List.mem_map.mp hc
  show 1000000000 ≤ (k + 1) * 1000000000
  omega

theorem plain_calls_succ (n : Nat) :
    dpu_plain_calls (n + 1) = dpu_plain_calls n
      ++ [.log DPU_EVT_DECON_ENABLED 0 { ktime := (n + 1) * 1000000000 }] := by
  unfold dpu_plain_calls
  rw [List.range_succ, List.map_append]
  rfl

theorem dpu_run_append (cap K max_win : Nat) (a b : List dpu_call) :
    ∀ (decon d1 d2 : decon_device) (s1 s2 : List dpu_log),
      dpu_run cap K max_win a decon = .ok (d1, s1) →
      dpu_run cap K max_win b d1 = .ok (d2, s2) →
      dpu_run cap K max_win (a ++ b) decon = .ok (d2, s1 ++ s2) := by
  induction a with
  | nil =>
    intro decon d1 d2 s1 s2 h1 h2
    have e : dpu_run cap K max_win [] decon = .ok (decon, []) := rfl
    rw [e] at h1
    simp only [Except.ok.injEq, Prod.mk.injEq] at h1
    obtain ⟨e1, e2⟩ := h1
    subst e1 e2
    exact h2
  | cons c cs ih =>
    intro decon d1 d2 s1 s2 h1 h2
    rw [dpu_run_cons] at h1
    rw [List.cons_append, dpu_run_cons]
    cases happ : c.apply cap K max_win decon with
    | error e =>
      rw [happ] at h1
      cases h1
    | ok d =>
      rw [happ] at h1
      simp only [] at h1 ⊢
      cases hrest : dpu_run cap K max_win cs d with
      | error e =>
        rw [hrest] at h1
        cases h1
      | ok t =>
        obtain ⟨d', st⟩ := t
        rw [hrest] at h1
        simp only [Except.ok.injEq, Prod.mk.injEq] at h1
        obtain ⟨e1, e2⟩ := h1
        subst e1 e2
        rw [ih d d' d2 st s2 hrest h2]
        simp only [List.append_assoc]

theorem has_seconds_of_le (l : dpu_log) (h : NSEC_PER_SEC ≤ l.time) :
    dpu_has_seconds l = true := by
  apply (has_seconds_iff l).mpr
  have hpos : 0 < l.time / NSEC_PER_SEC := Nat.div_pos h (by decide)
  omega

/-- C2 as stated fails once the `int` cursor has passed `INT_MAX`. With
capacity 7, a history of 2^31 + 1 calls of a type that is never coalesced,
stamped 1 s, 2 s, ..., stores 2^31 + 1 records and leaves the cursor at
-2147483648. `dpu_event_log_print` with `max_logs = 7` converts the negative
cursor to `size_t` for the start index (slot 0) and to `unsigned int` for
`latest` (slot 2): the walk visits the slots 1 and 2 only and renders two
event lines, not the 7 most recent records. -/
theorem replay_after_int_max :
    (∀ c ∈ dpu_plain_calls 2147483649, NSEC_PER_SEC ≤ c.ktime) ∧
    ∃ decon stored report,
      dpu_run 7 4 6 (dpu_plain_calls 2147483649) (dpu_fresh 7) = .ok (decon, stored) ∧
      stored.length = 2147483649 ∧
      decon.d.event_log_idx = -2147483648 ∧
      dpu_visit_order 7 decon.d.event_log_idx 7 = [1, 2] ∧
      dpu_event_log_print 7 6 decon 7 = .ok report ∧
      (dpu_event_lines report).length = 2 := by
  refine ⟨plain_calls_ktime _, ?_⟩
  -- the first 2^31 calls: the cursor reaches INT_MAX and the ring is intact
  obtain ⟨d1, st1, hrun1, hr1, htime1, hinv1⟩ :=
    @ring_run 7 4 6 (dpu_plain_calls 2147483648) (dpu_fresh 7) (by decide)
  obtain ⟨d1', st1', hrun1', -, -, hlen1⟩ :=
    @plain_run 7 4 6 (dpu_plain_calls 2147483648) (dpu_fresh 7) (by decide)
      (plain_calls_form _)
  rw [hrun1] at hrun1'
  simp only [Except.ok.injEq, Prod.mk.injEq] at hrun1'
  obtain ⟨-, e2⟩ := hrun1'
  subst e2
  rw [plain_calls_length] at hlen1
  have hring := hinv1 [] (ring_inv_fresh 7) (by rw [hlen1]; decide)
  rw [List.nil_append] at hring
  obtain ⟨buf, hb, hl, hidx1, hslots, -⟩ := hring
  rw [hlen1] at hidx1 hslots
  have hidx1' : d1.d.event_log_idx = 2147483647 := by rw [hidx1]; decide
  -- the last call
  obtain ⟨d2, hres, hr2, heff⟩ := apply_effect 4 6
    (.log DPU_EVT_DECON_ENABLED 0 { ktime := (2147483648 + 1) * 1000000000 }) d1 hr1
  obtain ⟨d2', hres', -, hidx2, hst2⟩ := plain_step 4 6
    { ktime := (2147483648 + 1) * 1000000000 } d1 hr1
  rw [hres] at hres'
  simp only [Except.ok.injEq] at hres'
  subst hres'
  have hslot : dpu_slot 7 (atomic_inc_return d1.d.event_log_idx) = 2 := by
    rw [hidx1']; decide
  have hcur : d2.d.event_log_idx = -2147483648 := by
    rw [hidx2, hidx1']; decide
  obtain ⟨r, hr, hb2⟩ : ∃ r : dpu_log, NSEC_PER_SEC ≤ r.time ∧
      d2.d.event_log = some (buf.set 2 r) := by
    rcases heff with ⟨-, hsame⟩ | ⟨buf', r, hb', hrt, -, hlog⟩
    · exact absurd (hsame.symm.trans hidx2).symm (atomic_inc_return_ne _)
    · rw [hb] at hb'
      cases hb'
      rw [hslot] at hlog
      refine ⟨r, ?_, hlog⟩
      rw [hrt]
      show 1000000000 ≤ (2147483648 + 1) * 1000000000
      decide
  have hlast : dpu_run 7 4 6
      [.log DPU_EVT_DECON_ENABLED 0 { ktime := (2147483648 + 1) * 1000000000 }] d1
      = .ok (d2, (dpu_stored_by 7 d1 d2).toList ++ []) := by
    rw [dpu_run_cons]
    simp only [hres]
    rfl
  have hrun : dpu_run 7 4 6 (dpu_plain_calls 2147483649) (dpu_fresh 7)
      = .ok (d2, st1 ++ ((dpu_stored_by 7 d1 d2).toList ++ [])) := by
    rw [show (2147483649 : Nat) = 2147483648 + 1 from rfl, plain_calls_succ]
    exact dpu_run_append 7 4 6 _ _ _ d1 d2 _ _ hrun1 hlast
  -- the replay
  have horder : dpu_visit_order 7 d2.d.event_log_idx 7 = [1, 2] := by
    rw [hcur]; decide
  obtain ⟨report, hp, he, -⟩ :=
    @print_spec 7 6 7 d2 (buf.set 2 r) (by decide) (by decide) hb2
      (by rw [List.length_set]; exact hl)
  have h1s : dpu_has_seconds ((buf.set 2 r).getD 1 dpu_log_zero) = true := by
    have hj := hslots 2147483647 (by decide) (by decide)
    rw [show 2147483647 % 7 = 1 from by decide,
      List.getElem?_eq_getElem (show 2147483647 < st1.length by rw [hlen1]; decide)] at hj
    have hmem : st1[2147483647]? = some (st1.get ⟨2147483647, by rw [hlen1]; decide⟩) :=
      List.getElem?_eq_getElem _
    obtain ⟨c, hc, hct⟩ := htime1 _ (List.getElem?_mem hmem)
    apply has_seconds_of_le
    rw [List.getD_eq_getElem?_getD, List.getElem?_set_ne (by decide), hj]
    show NSEC_PER_SEC ≤ (st1.get ⟨2147483647, _⟩).time
    rw [hct]
    exact plain_calls_ktime _ c hc
  have h2s : dpu_has_seconds ((buf.set 2 r).getD 2 dpu_log_zero) = true := by
    apply has_seconds_of_le
    rw [List.getD_eq_getElem?_getD,
      List.getElem?_set_eq_of_lt _ (show 2 < buf.length by rw [hl]; decide)]
    exact hr
  refine ⟨d2, _, report, hrun, ?_, hcur, horder, hp, ?_⟩
  · rw [List.length_append, List.length_append, hlen1, hst2]
    rfl
  · rw [he, horder, List.length_map, List.map_cons, List.map_cons, List.map_nil,
      List.takeWhile_cons_of_pos h1s, List.takeWhile_cons_of_pos h2s]
    rfl

/-! ### The name table -/

theorem events_length : events.length = DPU_EVT_MAX := rfl

/-- C10: `get_event_name` returns NULL exactly for the tags at or above
`DPU_EVT_MAX`, and for every tag below it the name stored at the tag's
position in the table; the result is a function of the tag alone. -/
theorem get_event_name_table :
    (∀ type : Nat, get_event_name type = none ↔ type ≥ DPU_EVT_MAX) ∧
    (∀ i : Fin events.length, get_event_name i.val = some (events.get i)) := by
  constructor
  · intro type
    unfold get_event_name
    split
    · simp_all
    · rename_i h
      simp only [h, iff_false]
      rw [List.getElem?_eq_none_iff, events_length]
      omega
  · intro i
    have hi : i.val < DPU_EVT_MAX := events_length ▸ i.isLt
    unfold get_event_name
    rw [if_neg (by omega)]
    simp [List.getElem?_eq_getElem]

/-! ### Rejected and degraded calls -/

/-- C7: with a negative index `DPU_EVENT_LOG` and
`DPU_EVENT_LOG_ATOMIC_COMMIT` return at once; the device (every slot, the
cursor, the streak counter and the error counters) is left as it was. -/
theorem negative_index_rejected (dpu_event_log_max keep_cnt max_win type : Nat) (index : Int)
    (env : dpu_env) (ktime : Nat) (dbg_dma_addr : Nat → Nat) (decon : decon_device)
    (h : index < 0) :
    DPU_EVENT_LOG dpu_event_log_max keep_cnt type index env decon = .ok decon ∧
    DPU_EVENT_LOG_ATOMIC_COMMIT dpu_event_log_max max_win index ktime dbg_dma_addr decon
      = .ok decon := by
  simp [DPU_EVENT_LOG, DPU_EVENT_LOG_ATOMIC_COMMIT, h]

/-- A concrete instance: index -1 on a fresh buffer of capacity 8. -/
theorem negative_index_rejected_witness :
    ((-1 : Int) < 0) ∧
    DPU_EVENT_LOG 8 4 DPU_EVT_DSIM_UNDERRUN (-1) {} (dpu_fresh 8) = .ok (dpu_fresh 8) ∧
    DPU_EVENT_LOG_ATOMIC_COMMIT 8 6 (-1) 5000000000 (fun _ => 0) (dpu_fresh 8)
      = .ok (dpu_fresh 8) :=
  ⟨by decide,
   negative_index_rejected 8 4 6 DPU_EVT_DSIM_UNDERRUN (-1) {} 5000000000 (fun _ => 0)
     (dpu_fresh 8) (by decide)⟩

/-- With a NULL `event_log` the three recorders leave the device as it was,
for every capacity. -/
theorem degraded_record_noop (dpu_event_log_max keep_cnt max_win type d0 len : Nat)
    (index : Int) (env : dpu_env) (ktime : Nat) (caller : List Nat)
    (dbg_dma_addr : Nat → Nat) (decon : decon_device) (h : decon.d.event_log = none) :
    DPU_EVENT_LOG dpu_event_log_max keep_cnt type index env decon = .ok decon ∧
    DPU_EVENT_LOG_ATOMIC_COMMIT dpu_event_log_max max_win index ktime dbg_dma_addr decon
      = .ok decon ∧
    DPU_EVENT_LOG_CMD dpu_event_log_max type d0 len ktime caller (some decon)
      = .ok (some decon) := by
  simp [DPU_EVENT_LOG, DPU_EVENT_LOG_ATOMIC_COMMIT, DPU_EVENT_LOG_CMD, h]

/-- With a NULL `event_log` and a capacity of at least one,
`dpu_event_log_print` prints nothing and returns. -/
theorem degraded_print_empty (dpu_event_log_max max_win max_logs : Nat)
    (decon : decon_device) (h : decon.d.event_log = none) (h0 : 0 < dpu_event_log_max) :
    dpu_event_log_print dpu_event_log_max max_win decon max_logs = .ok [] := by
  have hc : dpu_event_log_max ≠ 0 := Nat.pos_iff_ne_zero.mp h0
  simp [dpu_event_log_print, dpu_event_log_visit, h, hc]

/-- C6: the degraded mode at capacity 0. With `dpu_event_log_max = 0` every
allocation fails and `event_log` stays NULL; `dpu_event_log_print` then
evaluates `idx % dpu_event_log_max` before it tests `event_log`, a remainder
by zero, for every device and every `max_logs`. -/
theorem degraded_print_zero_capacity (max_win max_logs : Nat) (decon : decon_device) :
    dpu_event_log_print 0 max_win decon max_logs = .error .div_by_zero := rfl

/-! ### Replay of a short history -/

/-- C1: three records of distinct types stored on a fresh buffer of capacity
8, one second apart; `dpu_event_log_print` with `max_logs = 3` renders the
second and the third only: the walk starts at slot 1, the record in slot 0
is skipped. -/
theorem print_skips_first_record (keep_cnt : Nat) :
    (dpu_replay 8 keep_cnt 6
        [.log DPU_EVT_DECON_ENABLED 0 { ktime := 1000000000 },
         .log DPU_EVT_DSIM_ENABLED 0 { ktime := 2000000000 },
         .log DPU_EVT_PLANE_UPDATE 0 { ktime := 3000000000 }] (dpu_fresh 8) 3).map
      (fun r => (r.1.map (fun l => l.type), dpu_event_lines r.2))
    = .ok ([DPU_EVT_DECON_ENABLED, DPU_EVT_DSIM_ENABLED, DPU_EVT_PLANE_UPDATE],
           [.event 2 0 (some "DSIM_ENABLED") .plain,
            .event 3 0 (some "PLANE_UPDATE") (.plane 0 0)]) := rfl

/-! ### The example scenario -/

/-- C4, as stated, fails: with capacity 8 and K = 4 the scenario (6
frame-starts, 1 underrun, 1 frame-start) does not leave 6 records, neither
stored nor rendered. -/
theorem scenario_not_six_records :
    ¬ ∃ stored report,
        dpu_replay 8 4 6 dpu_scenario_calls (dpu_fresh 8) 8 = .ok (stored, report) ∧
        (stored.length = 6 ∨ (dpu_event_lines report).length = 6) := by
  rintro ⟨stored, report, h, h6⟩
  have e : (dpu_replay 8 4 6 dpu_scenario_calls (dpu_fresh 8) 8).map
      (fun r => (r.1.length, (dpu_event_lines r.2).length)) = .ok (4, 3) := rfl
  rw [h] at e
  simp only [Except.map, Except.ok.injEq, Prod.mk.injEq] at e
  omega

/-- C4, amended: with capacity 8 and K = 4 the scenario stores exactly four
records, in slots 0 to 3: three frame-starts and the underrun. Frame-starts 4
to 6 and the last frame-start are suppressed by the streak counter, which the
underrun does not reset (it stands at 7); the underrun counter is 1. -/
theorem scenario_four_records :
    (dpu_run 8 4 6 dpu_scenario_calls (dpu_fresh 8)).map
      (fun r => (r.2.map (fun l => l.type), r.1.d.event_log_idx,
        r.1.d.event_log.map (fun buf => buf.map (fun l => l.type)),
        r.1.d.auto_refresh_frames, r.1.d.underrun_cnt))
    = .ok ([DPU_EVT_DECON_FRAMESTART, DPU_EVT_DECON_FRAMESTART, DPU_EVT_DECON_FRAMESTART,
            DPU_EVT_DSIM_UNDERRUN], 3,
           some [DPU_EVT_DECON_FRAMESTART, DPU_EVT_DECON_FRAMESTART,
                 DPU_EVT_DECON_FRAMESTART, DPU_EVT_DSIM_UNDERRUN, 0, 0, 0, 0],
           7, 1) := rfl

/-! ### Coalescing of frame-start events -/

/-- C3, as stated, fails. With K = 4 and capacity 8, five consecutive
frame-starts on a fresh buffer leave three records, so two calls are
suppressed, not 5 - 4; with K = 3 and capacity 2, four frame-starts leave two
records, so two calls are suppressed, not 4 - 3. -/
theorem framestart_suppressed_not_total_minus_keep :
    (¬ ∃ decon stored,
        dpu_run 8 4 6 (dpu_framestart_calls [1000000000, 2000000000, 3000000000,
          4000000000, 5000000000]) (dpu_fresh 8) = .ok (decon, stored) ∧
        5 - stored.length = 5 - 4) ∧
    (¬ ∃ decon stored,
        dpu_run 2 3 6 (dpu_framestart_calls [1000000000, 2000000000, 3000000000,
          4000000000]) (dpu_fresh 2) = .ok (decon, stored) ∧
        4 - stored.length = 4 - 3) := by
  constructor
  · rintro ⟨decon, stored, h, hs⟩
    have e : (dpu_run 8 4 6 (dpu_framestart_calls [1000000000, 2000000000, 3000000000,
        4000000000, 5000000000]) (dpu_fresh 8)).map (fun r => r.2.length) = .ok 3 := rfl
    rw [h] at e
    simp only [Except.map, Except.ok.injEq] at e
    omega
  · rintro ⟨decon, stored, h, hs⟩
    have e : (dpu_run 2 3 6 (dpu_framestart_calls [1000000000, 2000000000, 3000000000,
        4000000000]) (dpu_fresh 2)).map (fun r => r.2.length) = .ok 2 := rfl
    rw [h] at e
    simp only [Except.map, Except.ok.injEq] at e
    omega

end Dpu
